import Mathlib

/-! SpoutCopy: pixel copy, red/blue swap kernels, channel-count converters,
resamplers and the capability probe.

A shallow embedding of `src/SpoutDX/SpoutCopy.cpp`.

* Memory is one flat byte-addressed store `Mem`; a pointer is an address
  (`Nat`), the null pointer is address `0`.  Source and destination live in
  the same store, so aliasing is expressible.
* `unsigned int` values are `Nat`s; every operation that can wrap is reduced
  with `u32` (`% 2^32`).  Pointer arithmetic itself is not wrapped.
* A `__m128i` register is a vector of 16 byte lanes, lane `i` being the byte
  at memory offset `i` (x86 is little-endian).
* Aligned and unaligned vector loads and stores move the same data.  The
  aligned and the streaming forms trap on an address that is not a multiple of
  16; the model has no trap, so the claims about the bytes that `memcpy_sse2`
  and `rgba_bgra_sse3` move in their vector loops are stated for 16-byte
  aligned addresses.
* `float` values are exact multiples of `2^-149` held as natural numbers, with
  IEEE 754 binary32 rounding after each operation.
* The processor is a parameter: `__cpuid` maps a leaf number to the four
  registers.
-/

namespace SpoutCopy

/-! ## Memory, bytes and machine words -/

/-- One byte. -/
abbrev Byte := Fin 256

/-- Byte-addressed memory. -/
abbrev Mem := Nat → Byte

/-- Reduction of a natural number to an `unsigned int` (32 bits). -/
def u32 (n : Nat) : Nat := n % 4294967296

/-- Unsigned 32-bit subtraction `a - b` of two `unsigned int`s. -/
def usub32 (a b : Nat) : Nat := (a + 4294967296 - b) % 4294967296

/-- OpenGL format constants (values of `GL/gl.h`). -/
def GL_RGB : Nat := 0x1907
/-- OpenGL format constant `GL_RGBA`. -/
def GL_RGBA : Nat := 0x1908
/-- OpenGL format constant `GL_LUMINANCE`. -/
def GL_LUMINANCE : Nat := 0x1909
/-- OpenGL format constant `GL_BGR_EXT`. -/
def GL_BGR_EXT : Nat := 0x80E0
/-- OpenGL format constant `GL_BGRA_EXT`. -/
def GL_BGRA_EXT : Nat := 0x80E1

/-- Bytes per pixel of a layout, as the data model of the specification gives
it: 4 for RGBA/BGRA, 3 for RGB/BGR, 1 for LUMINANCE. -/
def bytesPerPixel (glFormat : Nat) : Nat :=
  if glFormat = GL_RGBA ∨ glFormat = GL_BGRA_EXT then 4
  else if glFormat = GL_RGB ∨ glFormat = GL_BGR_EXT then 3
  else 1

/-- The capability flags held by a `spoutCopy` object. -/
structure spoutCopy where
  m_bSSE2 : Bool
  m_bSSE3 : Bool
  m_bSSSE3 : Bool

/-! ## Primitive copies -/

/-- The C library `memcpy(dst, src, n)`: the `n` bytes at `dst` become the
`n` bytes that were at `src` before the call. -/
def memcpy (m : Mem) (dst src n : Nat) : Mem :=
  fun a => if dst ≤ a ∧ a < dst + n then m (src + (a - dst)) else m a

/-- One `movsd` step: the four bytes at `src` are copied to `dst`. -/
def movsd1 (m : Mem) (dst src : Nat) : Mem :=
  fun a => if dst ≤ a ∧ a < dst + 4 then m (src + (a - dst)) else m a

/-- The intrinsic `__movsd(dst, src, count)` (`rep movsd`): `count`
double words are copied one after the other, lowest address first. -/
def __movsd (m : Mem) (dst src : Nat) : Nat → Mem
  | 0 => m
  | count + 1 => __movsd (movsd1 m dst src) (dst + 4) (src + 4) count

/-- A 128-bit SSE register as 16 byte lanes. -/
abbrev M128 := Fin 16 → Byte

/-- Load of 16 bytes into a register: the data that `_mm_load_si128` and
`_mm_loadu_si128` move.  The aligned form `_mm_load_si128` is defined by the
processor for `p % 16 = 0` only (it faults otherwise); the claims about data
moved through the aligned form are stated for addresses with `p % 16 = 0`. -/
def _mm_load_si128 (m : Mem) (p : Nat) : M128 := fun i => m (p + i.val)

/-- Store of a register to 16 bytes of memory: the data that
`_mm_store_si128` and `_mm_stream_si128` move.  Both are defined by the
processor for `p % 16 = 0` only (they fault otherwise); the claims about data
moved through them are stated for addresses with `p % 16 = 0`. -/
def _mm_store_si128 (m : Mem) (p : Nat) (v : M128) : Mem :=
  fun a => if h : p ≤ a ∧ a < p + 16 then v ⟨a - p, by omega⟩ else m a

/-- One pass of the loop body of `memcpy_sse2`: eight registers are loaded
from `pSrc`, then the eight registers are streamed to `pDst`. -/
def memcpy_sse2_block (m : Mem) (pDst pSrc : Nat) : Mem :=
  let Reg0 := _mm_load_si128 m pSrc
  let Reg1 := _mm_load_si128 m (pSrc + 16)
  let Reg2 := _mm_load_si128 m (pSrc + 32)
  let Reg3 := _mm_load_si128 m (pSrc + 48)
  let Reg4 := _mm_load_si128 m (pSrc + 64)
  let Reg5 := _mm_load_si128 m (pSrc + 80)
  let Reg6 := _mm_load_si128 m (pSrc + 96)
  let Reg7 := _mm_load_si128 m (pSrc + 112)
  let m0 := _mm_store_si128 m pDst Reg0
  let m1 := _mm_store_si128 m0 (pDst + 16) Reg1
  let m2 := _mm_store_si128 m1 (pDst + 32) Reg2
  let m3 := _mm_store_si128 m2 (pDst + 48) Reg3
  let m4 := _mm_store_si128 m3 (pDst + 64) Reg4
  let m5 := _mm_store_si128 m4 (pDst + 80) Reg5
  let m6 := _mm_store_si128 m5 (pDst + 96) Reg6
  _mm_store_si128 m6 (pDst + 112) Reg7

/-- The loop of `memcpy_sse2`, `Index` counting down from `n` to 1. -/
def memcpy_sse2_loop (m : Mem) (pDst pSrc : Nat) : Nat → Mem
  | 0 => m
  | Index + 1 =>
    memcpy_sse2_loop (memcpy_sse2_block m pDst pSrc) (pDst + 128) (pSrc + 128) Index

/-- `spoutCopy::memcpy_sse2(dst, src, Size)`. -/
def memcpy_sse2 (m : Mem) (dst src Size : Nat) : Mem :=
  if dst = 0 ∨ src = 0 then m
  else memcpy_sse2_loop m dst src (u32 Size / 128)

/-! ## CopyPixels, FlipBuffer, RemovePadding -/

/-- The copy of one row (or of a whole buffer) as `FlipBuffer` and
`CopyPixels` select it once the size test `small` has been made. -/
def copySelect (c : spoutCopy) (small : Bool) (m : Mem) (dst src n : Nat) : Mem :=
  if small then memcpy m dst src n
  else if n % 16 = 0 ∧ c.m_bSSE2 = true then memcpy_sse2 m dst src n
  else if n % 4 = 0 then __movsd m dst src (n / 4)
  else memcpy m dst src n

/-- The state of the row loop of `FlipBuffer`: memory, `line_s`, `line_t`. -/
structure FlipState where
  mem : Mem
  line_s : Nat
  line_t : Nat

/-- One iteration of the row loop of `FlipBuffer`. -/
def FlipBuffer_step (c : spoutCopy) (src dst width height pitch : Nat)
    (s : FlipState) : FlipState :=
  { mem := copySelect c (decide (width < 320 ∨ height < 240)) s.mem
             (dst + s.line_t) (src + s.line_s) pitch
    line_s := u32 (s.line_s + pitch)
    line_t := usub32 s.line_t pitch }

/-- The row loop of `FlipBuffer` run for `n` iterations. -/
def FlipBuffer_loop (c : spoutCopy) (src dst width height pitch : Nat) :
    Nat → FlipState → FlipState
  | 0, s => s
  | n + 1, s =>
    FlipBuffer_loop c src dst width height pitch n
      (FlipBuffer_step c src dst width height pitch s)

/-- The row length `FlipBuffer` computes from the format. -/
def FlipBuffer_pitch (width glFormat : Nat) : Nat :=
  if glFormat = GL_RGBA ∨ glFormat = GL_BGRA_EXT then u32 (width * 4)
  else if glFormat = GL_RGB ∨ glFormat = GL_BGR_EXT then u32 (width * 3)
  else width

/-- `spoutCopy::FlipBuffer(src, dst, width, height, glFormat)`. -/
def FlipBuffer (c : spoutCopy) (m : Mem) (src dst width height glFormat : Nat) : Mem :=
  let pitch := FlipBuffer_pitch width glFormat
  (FlipBuffer_loop c src dst width height pitch height
    { mem := m, line_s := 0, line_t := u32 (usub32 height 1 * pitch) }).mem

/-- The byte count `CopyPixels` computes from the format. -/
def CopyPixels_Size (width height glFormat : Nat) : Nat :=
  if glFormat = GL_RGBA ∨ glFormat = GL_BGRA_EXT then u32 (u32 (width * height) * 4)
  else if glFormat = GL_RGB ∨ glFormat = GL_BGR_EXT then u32 (u32 (width * height) * 3)
  else u32 (width * height)

/-- `spoutCopy::CopyPixels(source, dest, width, height, glFormat, bInvert)`. -/
def CopyPixels (c : spoutCopy) (m : Mem) (source dest width height glFormat : Nat)
    (bInvert : Bool) : Mem :=
  let Size := CopyPixels_Size width height glFormat
  if bInvert then FlipBuffer c m source dest width height glFormat
  else if width < 320 then memcpy m dest source Size
  else if Size % 16 = 0 ∧ c.m_bSSE2 = true then memcpy_sse2 m dest source Size
  else if Size % 4 = 0 then __movsd m dest source (Size / 4)
  else memcpy m dest source Size

/-- The row length `RemovePadding` computes from the format. -/
def RemovePadding_pitch (width glFormat : Nat) : Nat :=
  if glFormat = GL_RGB ∨ glFormat = GL_BGR_EXT then u32 (width * 3)
  else u32 (width * 4)

/-- The copy of one row in `RemovePadding`. -/
def RemovePadding_row (c : spoutCopy) (m : Mem) (dest source pitch stride : Nat) : Mem :=
  if pitch < 320 ∨ stride < 320 then memcpy m dest source pitch
  else if pitch % 16 = 0 ∧ stride % 16 = 0 ∧ c.m_bSSE2 = true then
    memcpy_sse2 m dest source pitch
  else if pitch % 4 = 0 ∧ stride % 4 = 0 then __movsd m dest source (pitch / 4)
  else memcpy m dest source pitch

/-- The row loop of `RemovePadding`, `n` rows left. -/
def RemovePadding_loop (c : spoutCopy) (pitch stride : Nat) :
    Nat → Mem → Nat → Nat → Mem
  | 0, m, _, _ => m
  | n + 1, m, source, dest =>
    RemovePadding_loop c pitch stride n
      (RemovePadding_row c m dest source pitch stride)
      (source + stride) (dest + pitch)

/-- `spoutCopy::RemovePadding(source, dest, width, height, stride, glFormat)`. -/
def RemovePadding (c : spoutCopy) (m : Mem) (source dest width height stride glFormat : Nat) :
    Mem :=
  RemovePadding_loop c (RemovePadding_pitch width glFormat) stride height m source dest

/-! ## Red/blue swap: words and vector operations -/

/-- The `unsigned __int32` stored little-endian at address `p`. -/
def load32 (m : Mem) (p : Nat) : Nat :=
  (m p).val + 256 * (m (p + 1)).val + 65536 * (m (p + 2)).val + 16777216 * (m (p + 3)).val

/-- Byte `k` of a 32-bit word. -/
def byteOf (w k : Nat) : Byte := ⟨w / 256 ^ k % 256, Nat.mod_lt _ (by decide)⟩

/-- Store of the `unsigned __int32` `w` little-endian at address `p`. -/
def store32 (m : Mem) (p w : Nat) : Mem :=
  fun a => if p ≤ a ∧ a < p + 4 then byteOf w (a - p) else m a

/-- The intrinsic `_rotl(value, shift)` on 32-bit words, `0 < shift < 32`. -/
def _rotl (value shift : Nat) : Nat :=
  u32 (value <<< shift) ||| (value >>> (32 - shift))

/-- The scalar red/blue swap of one pixel word:
`(_rotl(rgbapix, 16) & 0x00ff00ff) | (rgbapix & 0xff00ff00)`. -/
def swapRB32 (rgbapix : Nat) : Nat :=
  (_rotl rgbapix 16 &&& 0x00ff00ff) ||| (rgbapix &&& 0xff00ff00)

/-- The scalar loop body `dest[x] = swap(source[x])`; `source` and `dest` are
the byte addresses of the two `unsigned __int32` row pointers. -/
def swapPixel (source dest : Nat) (x : Nat) (m : Mem) : Mem :=
  store32 m (dest + 4 * x) (swapRB32 (load32 m (source + 4 * x)))

/-- `_mm_set1_epi32(w)`: the word `w` in each of the four 32-bit lanes. -/
def _mm_set1_epi32 (w : Nat) : M128 := fun i => byteOf w (i.val % 4)

/-- `_mm_and_si128(a, b)`. -/
def _mm_and_si128 (a b : M128) : M128 := fun i => a i &&& b i

/-- `_mm_andnot_si128(a, b)`: `(~a) & b`. -/
def _mm_andnot_si128 (a b : M128) : M128 := fun i => (a i ^^^ 255) &&& b i

/-- `_mm_or_si128(a, b)`. -/
def _mm_or_si128 (a b : M128) : M128 := fun i => a i ||| b i

/-- The selector macro `_MM_SHUFFLE(z, y, x, w)`. -/
def _MM_SHUFFLE (z y x w : Nat) : Nat := z * 64 + y * 16 + x * 4 + w

/-- `_mm_shufflelo_epi16(a, imm)`: 16-bit word `k < 4` of the result is word
`(imm >> 2k) & 3` of `a`; the upper four words are copied. -/
def _mm_shufflelo_epi16 (a : M128) (imm : Nat) : M128 :=
  fun i =>
    if h : i.val < 8 then
      a ⟨2 * (imm / 4 ^ (i.val / 2) % 4) + i.val % 2, by omega⟩
    else a i

/-- `_mm_shufflehi_epi16(a, imm)`: 16-bit word `4 + k` of the result is word
`4 + ((imm >> 2k) & 3)` of `a`; the lower four words are copied. -/
def _mm_shufflehi_epi16 (a : M128) (imm : Nat) : M128 :=
  fun i =>
    if h : 8 ≤ i.val then
      a ⟨8 + 2 * (imm / 4 ^ ((i.val - 8) / 2) % 4) + i.val % 2, by omega⟩
    else a i

/-- `_mm_shuffle_epi8(a, b)`: lane `i` of the result is zero when bit 7 of
`b[i]` is set, else lane `b[i] & 15` of `a`. -/
def _mm_shuffle_epi8 (a b : M128) : M128 :=
  fun i => if 128 ≤ (b i).val then 0 else a ⟨(b i).val % 16, Nat.mod_lt _ (by decide)⟩

/-- `_mm_set_epi8(e15, ..., e0)`: lane `k` of the result is `ek`. -/
def _mm_set_epi8 (e15 e14 e13 e12 e11 e10 e9 e8 e7 e6 e5 e4 e3 e2 e1 e0 : Byte) : M128 :=
  fun i => [e0, e1, e2, e3, e4, e5, e6, e7, e8, e9, e10, e11, e12, e13, e14, e15].getD i.val 0

/-- A counted loop `for (i = 0; i < n; i++) body(i)` over the memory. -/
def forLoop (n : Nat) (body : Nat → Mem → Mem) (m : Mem) : Mem :=
  (List.range n).foldl (fun acc i => body i acc) m

/-! ## The three red/blue swap kernels -/

/-- The source row pointer of row `y`, common to the three kernels:
`source += (height - 1 - y) * width` when inverting, else `source += y * width`
(in `unsigned __int32` units, the products being `unsigned int`). -/
def kernelSource (rgba_source width height : Nat) (bInvert : Bool) (y : Nat) : Nat :=
  rgba_source + 4 * (if bInvert then u32 (usub32 (usub32 height 1) y * width) else u32 (y * width))

/-- The destination row pointer of row `y`, common to the three kernels:
`dest += y * width`. -/
def kernelDest (bgra_dest width y : Nat) : Nat :=
  bgra_dest + 4 * u32 (y * width)

/-- `spoutCopy::rgba_bgra`, the scalar kernel. -/
def rgba_bgra (m : Mem) (rgba_source bgra_dest width height : Nat) (bInvert : Bool) : Mem :=
  if rgba_source = 0 then m
  else if bgra_dest = 0 then m
  else
    forLoop height (fun y acc =>
      forLoop width
        (swapPixel (kernelSource rgba_source width height bInvert y)
          (kernelDest bgra_dest width y)) acc) m

/-- The first loop of a row of `rgba_bgra_sse2`: scalar pixels until the
output address is 16-byte aligned or the row ends.  Returns the memory and
the value of `x` on exit. -/
def sse2_align (source dest width : Nat) : Nat → Nat → Mem → Nat × Mem
  | 0, x, m => (x, m)
  | fuel + 1, x, m =>
    if (dest + 4 * x) % 16 ≠ 0 ∧ x < width then
      sse2_align source dest width fuel (x + 1) (swapPixel source dest x m)
    else (x, m)

/-- The vector step of `rgba_bgra_sse2` on the four pixels starting at `x`. -/
def sse2_vector (source dest : Nat) (x : Nat) (m : Mem) : Mem :=
  let brMask := _mm_set1_epi32 0x00ff00ff
  let sourceData := _mm_load_si128 m (source + 4 * x)
  let gaComponents := _mm_andnot_si128 brMask sourceData
  let brComponents := _mm_and_si128 sourceData brMask
  let brSwapped :=
    _mm_shufflehi_epi16 (_mm_shufflelo_epi16 brComponents (_MM_SHUFFLE 2 3 0 1))
      (_MM_SHUFFLE 2 3 0 1)
  let result := _mm_or_si128 gaComponents brSwapped
  _mm_store_si128 m (dest + 4 * x) result

/-- The second loop of a row of `rgba_bgra_sse2`:
`for (; x + 3 < width; x += 4)`. -/
def sse2_body (source dest width : Nat) : Nat → Nat → Mem → Nat × Mem
  | 0, x, m => (x, m)
  | fuel + 1, x, m =>
    if u32 (x + 3) < width then
      sse2_body source dest width fuel (u32 (x + 4)) (sse2_vector source dest x m)
    else (x, m)

/-- The third loop of a row of `rgba_bgra_sse2`: the leftover pixels. -/
def sse2_leftover (source dest width : Nat) : Nat → Nat → Mem → Mem
  | 0, _, m => m
  | fuel + 1, x, m =>
    if x < width then
      sse2_leftover source dest width fuel (x + 1) (swapPixel source dest x m)
    else m

/-- One row of `rgba_bgra_sse2`.  Each of the three loops advances `x` by at
least one below `width`, so `width` steps of fuel let each run to its exit. -/
def sse2_row (source dest width : Nat) (m : Mem) : Mem :=
  let r1 := sse2_align source dest width width 0 m
  let r2 := sse2_body source dest width width r1.1 r1.2
  sse2_leftover source dest width width r2.1 r2.2

/-- `spoutCopy::rgba_bgra_sse2`, the SSE2 kernel. -/
def rgba_bgra_sse2 (m : Mem) (rgba_source bgra_dest width height : Nat) (bInvert : Bool) :
    Mem :=
  if rgba_source = 0 then m
  else if bgra_dest = 0 then m
  else
    forLoop height (fun y acc =>
      sse2_row (kernelSource rgba_source width height bInvert y)
        (kernelDest bgra_dest width y) width acc) m

/-- The shuffle mask of `rgba_bgra_sse3`. -/
def sse3_mask : M128 := _mm_set_epi8 15 12 13 14 11 8 9 10 7 4 5 6 3 0 1 2

/-- The loop body of `rgba_bgra_sse3`: four registers are loaded from `src`,
shuffled through the mask and stored to `dst`. -/
def sse3_block (src dst : Nat) (m : Mem) : Mem :=
  let p1 := _mm_load_si128 m src
  let p2 := _mm_load_si128 m (src + 16)
  let p3 := _mm_load_si128 m (src + 32)
  let p4 := _mm_load_si128 m (src + 48)
  let m1 := _mm_store_si128 m dst (_mm_shuffle_epi8 p1 sse3_mask)
  let m2 := _mm_store_si128 m1 (dst + 16) (_mm_shuffle_epi8 p2 sse3_mask)
  let m3 := _mm_store_si128 m2 (dst + 32) (_mm_shuffle_epi8 p3 sse3_mask)
  _mm_store_si128 m3 (dst + 48) (_mm_shuffle_epi8 p4 sse3_mask)

/-- The row loop of `rgba_bgra_sse3`:
`for (; src < srcEnd; src += 4, dst += 4)` on `__m128i` pointers. -/
def sse3_loop (srcEnd : Nat) : Nat → Nat → Nat → Mem → Mem
  | 0, _, _, m => m
  | fuel + 1, src, dst, m =>
    if src < srcEnd then sse3_loop srcEnd fuel (src + 64) (dst + 64) (sse3_block src dst m)
    else m

/-- One row of `rgba_bgra_sse3`; `src` advances by 64 bytes towards
`source + 4 * width`, so `width` steps of fuel let the loop run to its exit. -/
def sse3_row (source dest width : Nat) (m : Mem) : Mem :=
  sse3_loop (source + 4 * width) width source dest m

/-- `spoutCopy::rgba_bgra_sse3`, the SSSE3 shuffle kernel (it has no null test). -/
def rgba_bgra_sse3 (m : Mem) (rgba_source bgra_dest width height : Nat) (bInvert : Bool) :
    Mem :=
  forLoop height (fun y acc =>
    sse3_row (kernelSource rgba_source width height bInvert y)
      (kernelDest bgra_dest width y) width acc) m

/-! ## The rgba2bgra entry points -/

/-- The kernel selection shared by the three `rgba2bgra` overloads. -/
def rgba2bgra_select (c : spoutCopy) (m : Mem) (source dest width height : Nat)
    (bInvert : Bool) : Mem :=
  if width % 16 = 0 then
    if c.m_bSSE2 = true ∧ c.m_bSSSE3 = true then
      rgba_bgra_sse3 m source dest width height bInvert
    else if c.m_bSSE2 = true then rgba_bgra_sse2 m source dest width height bInvert
    else m
  else rgba_bgra m source dest width height bInvert

/-- `spoutCopy::rgba2bgra(rgba_source, bgra_dest, width, height, bInvert)`. -/
def rgba2bgra (c : spoutCopy) (m : Mem) (rgba_source bgra_dest width height : Nat)
    (bInvert : Bool) : Mem :=
  if rgba_source = 0 ∨ bgra_dest = 0 then m
  else rgba2bgra_select c m rgba_source bgra_dest width height bInvert

/-- `spoutCopy::rgba2bgra(rgba_source, bgra_dest, width, height, sourcePitch,
bInvert)`: line by line with a source pitch. -/
def rgba2bgra_sourcePitch (c : spoutCopy) (m : Mem)
    (rgba_source bgra_dest width height sourcePitch : Nat) (bInvert : Bool) : Mem :=
  if rgba_source = 0 ∨ bgra_dest = 0 then m
  else
    forLoop height (fun y acc =>
      let YxW := u32 (y * width)
      let source := rgba_source +
        4 * (if bInvert then u32 (usub32 (usub32 height 1) y * sourcePitch) / 4
             else u32 (y * sourcePitch) / 4)
      let dest := bgra_dest + 4 * YxW
      rgba2bgra_select c acc source dest width 1 bInvert) m

/-- `spoutCopy::rgba2bgra(rgba_source, bgra_dest, width, height, sourcePitch,
destPitch, bInvert)`: line by line with a source and a destination pitch. -/
def rgba2bgra_sourcePitch_destPitch (c : spoutCopy) (m : Mem)
    (rgba_source bgra_dest width height sourcePitch destPitch : Nat) (bInvert : Bool) : Mem :=
  if rgba_source = 0 ∨ bgra_dest = 0 then m
  else
    forLoop height (fun y acc =>
      let YxDP := u32 (y * destPitch) / 4
      let source := rgba_source +
        4 * (if bInvert then u32 (usub32 (usub32 height 1) y * sourcePitch) / 4
             else u32 (y * sourcePitch) / 4)
      let dest := bgra_dest + 4 * YxDP
      rgba2bgra_select c acc source dest width 1 bInvert) m

/-! ## The channel-count converters (RGB/BGR <> RGBA/BGRA)

In these functions the byte pointers walk forwards and, when inverting,
backwards by two rows at the end of each row; a walking pointer is an integer
(`Int`), so that a pointer stepped back below the start of its buffer keeps its
value.  `uint64_t` products of `unsigned int` values that can exceed 64 bits
are reduced with `u64`. -/

/-- Reduction of a natural number to a `uint64_t`. -/
def u64 (n : Nat) : Nat := n % 18446744073709551616

/-- The `uint64_t` subtraction `a - b`. -/
def usub64 (a b : Nat) : Nat := (a + 18446744073709551616 - b) % 18446744073709551616

/-- The byte read `*p` through a walking pointer. -/
def peek (m : Mem) (p : Int) : Byte := m p.toNat

/-- The byte write `*p = v` through a walking pointer. -/
def poke (m : Mem) (p : Int) (v : Byte) : Mem := fun a => if a = p.toNat then v else m a

/-- The byte copy `*d = *s`. -/
def assign (m : Mem) (d s : Int) : Mem := poke m d (peek m s)

/-- The state of a converter loop: the memory, the source pointer and the
destination pointer. -/
structure Ptrs where
  mem : Mem
  src : Int
  dst : Int

/-- The loop skeleton shared by the converters:
`for y < height { for x < width { body; src += bs; dst += bd; } src += rs; dst += rd; }`. -/
def convertLoop (height width : Nat) (body : Nat → Int → Int → Mem → Mem)
    (bs bd rs rd : Int) (s : Ptrs) : Ptrs :=
  (List.range height).foldl (fun s _ =>
    let s1 := (List.range width).foldl
      (fun t x => { mem := body x t.src t.dst t.mem, src := t.src + bs, dst := t.dst + bd }) s
    { mem := s1.mem, src := s1.src + rs, dst := s1.dst + rd }) s

/-- The start of the 3-channel pointer: with `bInvert` it is moved to the end
of the buffer (`+= size`) and back one row (`-= pitch`). -/
def startRGB (p : Nat) (size pitch : Nat) (bInvert : Bool) : Int :=
  if bInvert then (p : Int) + (size : Int) - (pitch : Int) else (p : Int)

/-- The row-end step of the 3-channel pointer when it is bumped pixel by
pixel: `if (bInvert) p -= pitch * 2`. -/
def invertStep (pitch : Nat) (bInvert : Bool) : Int :=
  if bInvert then -((pitch * 2 : Nat) : Int) else 0

/-- The pixel body of `rgba2rgb`; `ir`, `ig`, `ib` are the channel indices. -/
def rgba2rgb_pixel (width : Nat) (bMirror : Bool) (ir ig ib : Int) (x : Nat)
    (rgba rgb : Int) (m : Mem) : Mem :=
  if bMirror then
    let z : Int := (u32 (usub32 (usub32 width x) 1 * 3) : Nat)
    let m1 := assign m (rgb + z + ir) (rgba + 0)
    let m2 := assign m1 (rgb + z + ig) (rgba + 1)
    assign m2 (rgb + z + ib) (rgba + 2)
  else
    let z : Int := (u32 (x * 3) : Nat)
    let m1 := assign m (rgb + z + ir) (rgba + 0)
    let m2 := assign m1 (rgb + z + ig) (rgba + 1)
    assign m2 (rgb + z + ib) (rgba + 2)

/-- `spoutCopy::rgba2rgb(rgba_source, rgb_dest, width, height, rgba_pitch,
bInvert, bMirror, bSwapRB)`. -/
def rgba2rgb (m : Mem) (rgba_source rgb_dest width height rgba_pitch : Nat)
    (bInvert bMirror bSwapRB : Bool) : Mem :=
  if rgb_dest = 0 ∨ rgba_source = 0 then m
  else
    let rgbsize := u64 (width * height * 3)
    let rgbpitch := width * 3
    let rgba_padding := usub64 rgba_pitch (width * 4)
    let ir : Int := if bSwapRB then 2 else 0
    let ig : Int := 1
    let ib : Int := if bSwapRB then 0 else 2
    (convertLoop height width (rgba2rgb_pixel width bMirror ir ig ib)
      4 0 (rgba_padding : Nat) ((width * 3 : Nat) + invertStep rgbpitch bInvert)
      { mem := m, src := rgba_source, dst := startRGB rgb_dest rgbsize rgbpitch bInvert }).mem

/-- The pixel body of `rgb2rgba` (both overloads). -/
def rgb2rgba_pixel (_x : Nat) (rgb rgba : Int) (m : Mem) : Mem :=
  let m1 := assign m (rgba + 0) (rgb + 0)
  let m2 := assign m1 (rgba + 1) (rgb + 1)
  let m3 := assign m2 (rgba + 2) (rgb + 2)
  poke m3 (rgba + 3) 255

/-- `spoutCopy::rgb2rgba(rgb_source, rgba_dest, width, height, bInvert)`. -/
def rgb2rgba (m : Mem) (rgb_source rgba_dest width height : Nat) (bInvert : Bool) : Mem :=
  if rgb_source = 0 ∨ rgba_dest = 0 then m
  else
    let rgbsize := u64 (width * height * 3)
    let rgbpitch := width * 3
    (convertLoop height width rgb2rgba_pixel 3 4 (invertStep rgbpitch bInvert) 0
      { mem := m, src := startRGB rgb_source rgbsize rgbpitch bInvert, dst := rgba_dest }).mem

/-- `spoutCopy::rgb2rgba(rgb_source, rgba_dest, width, height, dest_pitch,
bInvert)`. -/
def rgb2rgba_dest_pitch (m : Mem) (rgb_source rgba_dest width height dest_pitch : Nat)
    (bInvert : Bool) : Mem :=
  if rgb_source = 0 ∨ rgba_dest = 0 then m
  else
    let rgbsize := u64 (width * height * 3)
    let rgbpitch := width * 3
    let rgba_padding := usub64 dest_pitch (width * 4)
    (convertLoop height width rgb2rgba_pixel 3 4 (invertStep rgbpitch bInvert)
      (rgba_padding : Nat)
      { mem := m, src := startRGB rgb_source rgbsize rgbpitch bInvert, dst := rgba_dest }).mem

/-- The pixel body of `bgr2rgba` without pitch. -/
def bgr2rgba_pixel (_x : Nat) (bgr rgba : Int) (m : Mem) : Mem :=
  let m1 := assign m (rgba + 0) (bgr + 2)
  let m2 := assign m1 (rgba + 1) (bgr + 1)
  let m3 := assign m2 (rgba + 2) (bgr + 0)
  poke m3 (rgba + 3) 255

/-- `spoutCopy::bgr2rgba(bgr_source, rgba_dest, width, height, bInvert)`. -/
def bgr2rgba (m : Mem) (bgr_source rgba_dest width height : Nat) (bInvert : Bool) : Mem :=
  if bgr_source = 0 ∨ rgba_dest = 0 then m
  else
    let bgrsize := u64 (width * height * 3)
    let bgrpitch := width * 3
    (convertLoop height width bgr2rgba_pixel 3 4 (invertStep bgrpitch bInvert) 0
      { mem := m, src := startRGB bgr_source bgrsize bgrpitch bInvert, dst := rgba_dest }).mem

/-- The pixel body of `bgr2rgba` with destination pitch. -/
def bgr2rgba_dest_pitch_pixel (_x : Nat) (bgr rgba : Int) (m : Mem) : Mem :=
  let m1 := assign m (rgba + 0) (bgr + 0)
  let m2 := assign m1 (rgba + 1) (bgr + 1)
  let m3 := assign m2 (rgba + 2) (bgr + 2)
  poke m3 (rgba + 3) 255

/-- `spoutCopy::bgr2rgba(bgr_source, rgba_dest, width, height, dest_pitch,
bInvert)`. -/
def bgr2rgba_dest_pitch (m : Mem) (bgr_source rgba_dest width height dest_pitch : Nat)
    (bInvert : Bool) : Mem :=
  if bgr_source = 0 ∨ rgba_dest = 0 then m
  else
    let bgrsize := u64 (width * height * 3)
    let bgrpitch := width * 3
    let rgba_padding := usub64 dest_pitch (width * 4)
    (convertLoop height width bgr2rgba_dest_pitch_pixel 3 4 (invertStep bgrpitch bInvert)
      (rgba_padding : Nat)
      { mem := m, src := startRGB bgr_source bgrsize bgrpitch bInvert, dst := rgba_dest }).mem

/-- The pixel body of `rgb2bgra` (both overloads). -/
def rgb2bgra_pixel (_x : Nat) (rgb bgra : Int) (m : Mem) : Mem :=
  let m1 := assign m (bgra + 0) (rgb + 2)
  let m2 := assign m1 (bgra + 1) (rgb + 1)
  let m3 := assign m2 (bgra + 2) (rgb + 0)
  poke m3 (bgra + 3) 255

/-- `spoutCopy::rgb2bgra(rgb_source, bgra_dest, width, height, bInvert)`. -/
def rgb2bgra (m : Mem) (rgb_source bgra_dest width height : Nat) (bInvert : Bool) : Mem :=
  if rgb_source = 0 ∨ bgra_dest = 0 then m
  else
    let rgbsize := u64 (width * height * 3)
    let rgbpitch := width * 3
    (convertLoop height width rgb2bgra_pixel 3 4 (invertStep rgbpitch bInvert) 0
      { mem := m, src := startRGB rgb_source rgbsize rgbpitch bInvert, dst := bgra_dest }).mem

/-- `spoutCopy::rgb2bgra(rgb_source, bgra_dest, width, height, dest_pitch,
bInvert)`. -/
def rgb2bgra_dest_pitch (m : Mem) (rgb_source bgra_dest width height dest_pitch : Nat)
    (bInvert : Bool) : Mem :=
  if rgb_source = 0 ∨ bgra_dest = 0 then m
  else
    let rgbsize := u64 (width * height * 3)
    let rgbpitch := width * 3
    let bgra_padding := usub64 dest_pitch (width * 4)
    (convertLoop height width rgb2bgra_pixel 3 4 (invertStep rgbpitch bInvert)
      (bgra_padding : Nat)
      { mem := m, src := startRGB rgb_source rgbsize rgbpitch bInvert, dst := bgra_dest }).mem

/-- The pixel body of `bgr2bgra`. -/
def bgr2bgra_pixel (_x : Nat) (bgr bgra : Int) (m : Mem) : Mem :=
  let m1 := assign m (bgra + 0) (bgr + 0)
  let m2 := assign m1 (bgra + 1) (bgr + 1)
  let m3 := assign m2 (bgra + 2) (bgr + 2)
  poke m3 (bgra + 3) 255

/-- `spoutCopy::bgr2bgra(bgr_source, bgra_dest, width, height, bInvert)`. -/
def bgr2bgra (m : Mem) (bgr_source bgra_dest width height : Nat) (bInvert : Bool) : Mem :=
  if bgr_source = 0 ∨ bgra_dest = 0 then m
  else
    let bgrsize := u64 (width * height * 3)
    let bgrpitch := width * 3
    (convertLoop height width bgr2bgra_pixel 3 4 (invertStep bgrpitch bInvert) 0
      { mem := m, src := startRGB bgr_source bgrsize bgrpitch bInvert, dst := bgra_dest }).mem

/-- The pixel body of `rgba2bgr` without pitch. -/
def rgba2bgr_pixel (_x : Nat) (rgba bgr : Int) (m : Mem) : Mem :=
  let m1 := assign m (bgr + 0) (rgba + 2)
  let m2 := assign m1 (bgr + 1) (rgba + 1)
  assign m2 (bgr + 2) (rgba + 0)

/-- `spoutCopy::rgba2bgr(rgba_source, bgr_dest, width, height, bInvert)`. -/
def rgba2bgr (m : Mem) (rgba_source bgr_dest width height : Nat) (bInvert : Bool) : Mem :=
  if rgba_source = 0 ∨ bgr_dest = 0 then m
  else
    let bgrsize := u64 (width * height * 3)
    let bgrpitch := width * 3
    (convertLoop height width rgba2bgr_pixel 4 3 0 (invertStep bgrpitch bInvert)
      { mem := m, src := rgba_source, dst := startRGB bgr_dest bgrsize bgrpitch bInvert }).mem

/-- The pixel body of `rgba2bgr` with source pitch. -/
def rgba2bgr_rgba_pitch_pixel (_x : Nat) (rgba bgr : Int) (m : Mem) : Mem :=
  let m1 := assign m (bgr + 2) (rgba + 0)
  let m2 := assign m1 (bgr + 1) (rgba + 1)
  assign m2 (bgr + 0) (rgba + 2)

/-- `spoutCopy::rgba2bgr(rgba_source, bgr_dest, width, height, rgba_pitch,
bInvert)`. -/
def rgba2bgr_rgba_pitch (m : Mem) (rgba_source bgr_dest width height rgba_pitch : Nat)
    (bInvert : Bool) : Mem :=
  if rgba_source = 0 ∨ bgr_dest = 0 then m
  else
    let rgbsize := u64 (width * height * 3)
    let rgbpitch := width * 3
    let rgba_padding := usub64 rgba_pitch (width * 4)
    (convertLoop height width rgba2bgr_rgba_pitch_pixel 4 3 (rgba_padding : Nat)
      (invertStep rgbpitch bInvert)
      { mem := m, src := rgba_source, dst := startRGB bgr_dest rgbsize rgbpitch bInvert }).mem

/-- The pixel body of `bgra2rgb`. -/
def bgra2rgb_pixel (_x : Nat) (bgra rgb : Int) (m : Mem) : Mem :=
  let m1 := assign m (rgb + 0) (bgra + 2)
  let m2 := assign m1 (rgb + 1) (bgra + 1)
  assign m2 (rgb + 2) (bgra + 0)

/-- `spoutCopy::bgra2rgb(bgra_source, rgb_dest, width, height, bInvert)`. -/
def bgra2rgb (m : Mem) (bgra_source rgb_dest width height : Nat) (bInvert : Bool) : Mem :=
  if bgra_source = 0 ∨ rgb_dest = 0 then m
  else
    let rgbsize := u64 (width * height * 3)
    let rgbpitch := width * 3
    (convertLoop height width bgra2rgb_pixel 4 3 0 (invertStep rgbpitch bInvert)
      { mem := m, src := bgra_source, dst := startRGB rgb_dest rgbsize rgbpitch bInvert }).mem

/-- The pixel body of `bgra2bgr`. -/
def bgra2bgr_pixel (_x : Nat) (bgra bgr : Int) (m : Mem) : Mem :=
  let m1 := assign m (bgr + 2) (bgra + 2)
  let m2 := assign m1 (bgr + 1) (bgra + 1)
  assign m2 (bgr + 0) (bgra + 0)

/-- `spoutCopy::bgra2bgr(bgra_source, bgr_dest, width, height, bInvert)`. -/
def bgra2bgr (m : Mem) (bgra_source bgr_dest width height : Nat) (bInvert : Bool) : Mem :=
  if bgra_source = 0 ∨ bgr_dest = 0 then m
  else
    let bgrsize := u64 (width * height * 3)
    let bgrpitch := width * 3
    (convertLoop height width bgra2bgr_pixel 4 3 0 (invertStep bgrpitch bInvert)
      { mem := m, src := bgra_source, dst := startRGB bgr_dest bgrsize bgrpitch bInvert }).mem

/-! ## The rgba2rgba and bgra2rgba entry points -/

/-- `spoutCopy::rgba2rgba(rgba_source, rgba_dest, width, height, sourcePitch,
bInvert)`: line by line with a source pitch.  Each row is copied by
`CopyPixels(source, dest, width, 1)`; the two trailing arguments of that call
are default arguments declared in `SpoutCopy.h`, which are the parameters
`glFormat` and `bFlip` here. -/
def rgba2rgba_sourcePitch (c : spoutCopy) (glFormat : Nat) (bFlip : Bool) (m : Mem)
    (rgba_source rgba_dest width height sourcePitch : Nat) (bInvert : Bool) : Mem :=
  if rgba_source = 0 ∨ rgba_dest = 0 then m
  else
    forLoop height (fun y acc =>
      let YxW := u32 (y * width)
      let YxSP4 := sourcePitch / 4
      let InvYxSP4 := u32 (usub32 (usub32 height 1) y * sourcePitch) / 4
      let source := rgba_source + 4 * (if bInvert then InvYxSP4 else YxSP4)
      let dest := rgba_dest + 4 * YxW
      CopyPixels c acc source dest width 1 glFormat bFlip) m

/-- `spoutCopy::rgba2rgba(rgba_source, rgba_dest, width, height, sourcePitch,
destPitch, bInvert)`: line by line with a source and a destination pitch; the
default arguments of `CopyPixels` are the parameters `glFormat` and `bFlip`. -/
def rgba2rgba_sourcePitch_destPitch (c : spoutCopy) (glFormat : Nat) (bFlip : Bool) (m : Mem)
    (rgba_source rgba_dest width height sourcePitch destPitch : Nat) (bInvert : Bool) : Mem :=
  if rgba_source = 0 ∨ rgba_dest = 0 then m
  else
    forLoop height (fun y acc =>
      let source := rgba_source +
        4 * (if bInvert then u32 (usub32 (usub32 height 1) y * sourcePitch) / 4
             else u32 (y * sourcePitch) / 4)
      let dest := rgba_dest + 4 * (u32 (y * destPitch) / 4)
      CopyPixels c acc source dest width 1 glFormat bFlip) m

/-- `spoutCopy::bgra2rgba(bgra_source, rgba_dest, width, height, bInvert)`. -/
def bgra2rgba (c : spoutCopy) (m : Mem) (bgra_source rgba_dest width height : Nat)
    (bInvert : Bool) : Mem :=
  rgba2bgra c m bgra_source rgba_dest width height bInvert

/-- The three red/blue swap kernels: `rgba_bgra`, `rgba_bgra_sse2` and
`rgba_bgra_sse3`. -/
inductive Kernel where
  | scalar
  | sse2
  | sse3
  deriving DecidableEq

/-- The kernel that the `if` nest of `rgba2bgra` calls, `none` when the nest
calls no kernel. -/
def rgba2bgra_kernel (c : spoutCopy) (width : Nat) : Option Kernel :=
  if width % 16 = 0 then
    if c.m_bSSE2 = true ∧ c.m_bSSSE3 = true then some Kernel.sse3
    else if c.m_bSSE2 = true then some Kernel.sse2
    else none
  else some Kernel.scalar

/-- The call of a kernel. -/
def Kernel.run (k : Kernel) (m : Mem) (source dest width height : Nat) (bInvert : Bool) : Mem :=
  match k with
  | Kernel.scalar => rgba_bgra m source dest width height bInvert
  | Kernel.sse2 => rgba_bgra_sse2 m source dest width height bInvert
  | Kernel.sse3 => rgba_bgra_sse3 m source dest width height bInvert

/-! ## The capability probe -/

/-- The array `int CPUInfo[4]` that `__cpuid` fills: the registers EAX, EBX,
ECX and EDX, each as its 32-bit pattern. -/
structure CPUInfo where
  eax : Nat
  ebx : Nat
  ecx : Nat
  edx : Nat

/-- The value of a 32-bit pattern read as an `int`. -/
def toInt32 (n : Nat) : Int :=
  if n < 2147483648 then (n : Int) else (n : Int) - 4294967296

/-- `spoutCopy::CheckSSE()`, the processor being the function `__cpuid` from
the leaf number to the four registers. -/
def CheckSSE (__cpuid : Nat → CPUInfo) (c : spoutCopy) : spoutCopy :=
  let nIds := toInt32 (__cpuid 0).eax
  if 1 ≤ nIds then
    let CPUInfo := __cpuid 1
    { m_bSSE2 := decide (CPUInfo.edx &&& (1 <<< 26) ≠ 0)
      m_bSSE3 := decide (CPUInfo.ecx &&& 1 ≠ 0)
      m_bSSSE3 := decide (CPUInfo.ecx &&& (1 <<< 9) ≠ 0) }
  else c

/-- The constructor `spoutCopy::spoutCopy()`: the three flags are cleared, then
`CheckSSE` runs. -/
def spoutCopy_spoutCopy (__cpuid : Nat → CPUInfo) : spoutCopy :=
  CheckSSE __cpuid { m_bSSE2 := false, m_bSSE3 := false, m_bSSSE3 := false }

/-! ## Single-precision arithmetic

The resamplers compute the source offset in `float`.  Only finite values that
are not negative occur.  Every such `float` is a whole multiple of `2^-149`,
the smallest positive `float`, so a `float` value `x` is modelled by the
natural number `x * 2^149`.  An operation returns the exact result rounded to
the nearest `float`, a tie going to the even significand (IEEE 754 binary32 in
the default rounding mode, each operation rounded on its own, as the scalar
SSE instructions do).  Overflow to infinity is outside the model: with 32-bit
operands no value met here reaches `2^128`. -/

/-- A finite `float` that is not negative, in units of `2^-149`. -/
abbrev F32 := Nat

/-- The `float` 1.0. -/
def f32_one : F32 := 2 ^ 149

/-- The integer nearest to `N / D`, a tie going to the even integer. -/
def roundHalfEven (N D : Nat) : Nat :=
  let q := N / D
  let r := N % D
  if 2 * r < D then q else if D < 2 * r then q + 1 else if q % 2 = 0 then q else q + 1

/-- The binary logarithm of `n` rounded down, `fuel` bounding the steps. -/
def log2Fuel : Nat → Nat → Nat
  | 0, _ => 0
  | fuel + 1, n => if 2 ≤ n then log2Fuel fuel (n / 2) + 1 else 0

/-- The binary logarithm of `n` rounded down (0 for `n = 0`). -/
def ilog2 (n : Nat) : Nat := log2Fuel n n

/-- The `float` nearest to the quotient `p / d` (in units of `2^-149`).  A
value in `[2^e, 2^(e+1))` units with `e >= 23` is rounded to a multiple of
`2^(e-23)` units (24-bit significand); below `2^23` units (the subnormal
range) it is rounded to a whole number of units. -/
def f32_round (p d : Nat) : F32 :=
  let ulp := 2 ^ (ilog2 (p / d) - 23)
  roundHalfEven p (d * ulp) * ulp

/-- The conversion `(float)n` of an `unsigned int` or `int` that is not
negative. -/
def f32_ofNat (n : Nat) : F32 := f32_round (n * f32_one) 1

/-- The `float` product `a * b`. -/
def f32_mul (a b : F32) : F32 := f32_round (a * b) f32_one

/-- The `float` quotient `a / b`. -/
def f32_div (a b : F32) : F32 := f32_round (a * f32_one) b

/-- The `float` sum `a + b`. -/
def f32_add (a b : F32) : F32 := f32_round (a + b) 1

/-- The library function `floor` on a `float`. -/
def f32_floor (a : F32) : F32 := a / f32_one * f32_one

/-- The conversion `(int)a`: the value is truncated; a value that does not fit
yields `INT_MIN`, as the x86 conversion instruction does. -/
def f32_toInt (a : F32) : Int :=
  if a / f32_one < 2147483648 then ((a / f32_one : Nat) : Int) else -2147483648

/-! ## The resamplers -/

/-- The source offset `nearestMatch` of grid point `(i, j)`, computed by the
three resamplers with the same statements:
`x_ratio = (float)sourceWidth / (float)destWidth`, `y_ratio` likewise,
`px = floor((float)j * x_ratio)`, `py = floor((float)i * y_ratio)`,
`nearestMatch = (int)(py * sourcePitch + px * 4)`. -/
def nearestMatch (sourceWidth sourceHeight sourcePitch destWidth destHeight i j : Nat) : Int :=
  let x_ratio := f32_div (f32_ofNat sourceWidth) (f32_ofNat destWidth)
  let y_ratio := f32_div (f32_ofNat sourceHeight) (f32_ofNat destHeight)
  let px := f32_floor (f32_mul (f32_ofNat j) x_ratio)
  let py := f32_floor (f32_mul (f32_ofNat i) y_ratio)
  f32_toInt (f32_add (f32_mul py (f32_ofNat sourcePitch)) (f32_mul px (f32_ofNat 4)))

/-- The destination index `pixel` of `rgba2rgbaResample` for grid point
`(i, j)`. -/
def rgba2rgbaResample_pixel (destWidth destHeight : Nat) (bInvert : Bool) (i j : Nat) : Nat :=
  if bInvert then
    u32 (u32 (u32 (usub32 (usub32 destHeight i) 1 * destWidth) * 4) + u32 (j * 4))
  else u32 (u32 (u32 (i * destWidth) * 4) + u32 (j * 4))

/-- `spoutCopy::rgba2rgbaResample(source, dest, sourceWidth, sourceHeight,
sourcePitch, destWidth, destHeight, bInvert)`. -/
def rgba2rgbaResample (m : Mem)
    (source dest sourceWidth sourceHeight sourcePitch destWidth destHeight : Nat)
    (bInvert : Bool) : Mem :=
  if source = 0 ∨ dest = 0 then m
  else
    forLoop destHeight (fun i acc => forLoop destWidth (fun j acc2 =>
      let pixel := rgba2rgbaResample_pixel destWidth destHeight bInvert i j
      let nearest := nearestMatch sourceWidth sourceHeight sourcePitch destWidth destHeight i j
      let m0 := assign acc2 ((dest + u32 (pixel + 0) : Nat) : Int) ((source : Int) + (nearest + 0))
      let m1 := assign m0 ((dest + u32 (pixel + 1) : Nat) : Int) ((source : Int) + (nearest + 1))
      let m2 := assign m1 ((dest + u32 (pixel + 2) : Nat) : Int) ((source : Int) + (nearest + 2))
      assign m2 ((dest + u32 (pixel + 3) : Nat) : Int) ((source : Int) + (nearest + 3))) acc) m

/-- The destination index `pixel` of `rgba2rgbResample` for grid point
`(i, j)`. -/
def rgba2rgbResample_pixel (destWidth destHeight : Nat) (bInvert bMirror : Bool)
    (i j : Nat) : Nat :=
  if bMirror then
    if bInvert then
      u32 (u32 (u32 (usub32 (usub32 destHeight i) 1 * destWidth) * 3) +
        u32 (usub32 (usub32 destWidth j) 1 * 3))
    else u32 (u32 (u32 (i * destWidth) * 3) + u32 (usub32 (usub32 destWidth j) 1 * 3))
  else
    if bInvert then
      u32 (u32 (u32 (usub32 (usub32 destHeight i) 1 * destWidth) * 3) + u32 (j * 3))
    else u32 (u32 (u32 (i * destWidth) * 3) + u32 (j * 3))

/-- `spoutCopy::rgba2rgbResample(source, dest, sourceWidth, sourceHeight,
sourcePitch, destWidth, destHeight, bInvert, bMirror, bSwapRB)`. -/
def rgba2rgbResample (m : Mem)
    (source dest sourceWidth sourceHeight sourcePitch destWidth destHeight : Nat)
    (bInvert bMirror bSwapRB : Bool) : Mem :=
  if source = 0 ∨ dest = 0 then m
  else
    let ir : Nat := if bSwapRB then 2 else 0
    let ig : Nat := 1
    let ib : Nat := if bSwapRB then 0 else 2
    forLoop destHeight (fun i acc => forLoop destWidth (fun j acc2 =>
      let pixel := rgba2rgbResample_pixel destWidth destHeight bInvert bMirror i j
      let nearest := nearestMatch sourceWidth sourceHeight sourcePitch destWidth destHeight i j
      let m0 := assign acc2 ((dest + u32 (pixel + ir) : Nat) : Int) ((source : Int) + (nearest + 0))
      let m1 := assign m0 ((dest + u32 (pixel + ig) : Nat) : Int) ((source : Int) + (nearest + 1))
      assign m1 ((dest + u32 (pixel + ib) : Nat) : Int) ((source : Int) + (nearest + 2))) acc) m

/-- The destination index `pixel` of `rgba2bgrResample` for grid point
`(i, j)`. -/
def rgba2bgrResample_pixel (destWidth destHeight : Nat) (bInvert : Bool) (i j : Nat) : Nat :=
  if bInvert then
    u32 (u32 (u32 (usub32 (usub32 destHeight i) 1 * destWidth) * 3) + u32 (j * 3))
  else u32 (u32 (u32 (i * destWidth) * 3) + u32 (j * 3))

/-- `spoutCopy::rgba2bgrResample(source, dest, sourceWidth, sourceHeight,
sourcePitch, destWidth, destHeight, bInvert)`. -/
def rgba2bgrResample (m : Mem)
    (source dest sourceWidth sourceHeight sourcePitch destWidth destHeight : Nat)
    (bInvert : Bool) : Mem :=
  if source = 0 ∨ dest = 0 then m
  else
    forLoop destHeight (fun i acc => forLoop destWidth (fun j acc2 =>
      let pixel := rgba2bgrResample_pixel destWidth destHeight bInvert i j
      let nearest := nearestMatch sourceWidth sourceHeight sourcePitch destWidth destHeight i j
      let m0 := assign acc2 ((dest + u32 (pixel + 2) : Nat) : Int) ((source : Int) + (nearest + 0))
      let m1 := assign m0 ((dest + u32 (pixel + 1) : Nat) : Int) ((source : Int) + (nearest + 1))
      assign m1 ((dest + u32 (pixel + 0) : Nat) : Int) ((source : Int) + (nearest + 2))) acc) m

/-! ## Reference functions used to state the behaviour of the kernels -/

/-- Reference: the source byte offset whose byte ends at destination byte
offset `k` of a red/blue-swapped run of pixels (bytes 0 and 2 of each 4-byte
pixel exchanged, bytes 1 and 3 kept). -/
def swz (k : Nat) : Nat :=
  if k % 4 = 0 then k + 2 else if k % 4 = 2 then k - 2 else k

/-- Reference: the red/blue-swapped copy of `n` pixels from `s` to `d`, every
read seeing the memory before the copy. -/
def swapCopy (m : Mem) (d s n : Nat) : Mem :=
  fun a => if d ≤ a ∧ a < d + 4 * n then m (s + swz (a - d)) else m a

/-- Reference: the value of destination byte `k` of a converted pixel whose
source pixel starts at `s`: source byte `j` when `sel k = some j`, the constant
255 when `sel k = none`. -/
def pixVal (sel : Nat → Option Nat) (m : Mem) (s k : Nat) : Byte :=
  match sel k with
  | some j => m (s + j)
  | none => 255

/-- Reference: the conversion of one pixel, `bd` destination bytes at `d` from
the source pixel at `s`, every read seeing the memory before the conversion. -/
def pixRef (bd : Nat) (sel : Nat → Option Nat) (m : Mem) (d s : Nat) : Mem :=
  fun a => if d ≤ a ∧ a < d + bd then pixVal sel m s (a - d) else m a

/-- Reference: the state of a grid of pixel conversions of which the pixels in
`done` have been carried out: each done pixel (`bd` bytes at `D y x`) holds its
converted value, computed from the source pixel at `S y x` in the initial
memory `m`, and nothing else has changed. -/
def GridInv (bd : Nat) (sel : Nat → Option Nat) (D S : Nat → Nat → Nat) (m M : Mem)
    (done : Nat → Nat → Prop) : Prop :=
  (∀ y x, done y x → ∀ k, k < bd → M (D y x + k) = pixVal sel m (S y x) k) ∧
  (∀ a, (∀ y x, done y x → a < D y x ∨ D y x + bd ≤ a) → M a = m a)

/-- Reference: channel selection that keeps the channel order (destination
byte `k < 3` from source byte `k`, a fourth byte is the constant 255). -/
def selKeep (k : Nat) : Option Nat := if k < 3 then some k else none

/-- Reference: channel selection that exchanges bytes 0 and 2 (destination
byte `k < 3` from source byte `2 - k`, a fourth byte is the constant 255). -/
def selSwap (k : Nat) : Option Nat := if k < 3 then some (2 - k) else none

/-- Reference: the row of the 3-channel image that goes with row `y` of the
4-channel image: `height - 1 - y` when inverting, else `y`. -/
def rowOf (height : Nat) (bInvert : Bool) (y : Nat) : Nat :=
  if bInvert then height - 1 - y else y

/-- Reference: the column of the destination image that receives source
column `x`: `width - 1 - x` when mirroring, else `x`. -/
def colOf (width : Nat) (bMirror : Bool) (x : Nat) : Nat :=
  if bMirror then width - 1 - x else x

/-- Reference: channel selection that copies every byte of the pixel. -/
def selAll (k : Nat) : Option Nat := some k

/-- Reference: the kernel that the dispatch rule of the specification names:
the shuffle kernel if `width % 16 == 0` and both SSE2 and SSSE3 are set,
otherwise the SSE2 kernel if SSE2 is set, otherwise the scalar kernel. -/
def dispatchRule (c : spoutCopy) (width : Nat) : Kernel :=
  if width % 16 = 0 ∧ c.m_bSSE2 = true ∧ c.m_bSSSE3 = true then Kernel.sse3
  else if c.m_bSSE2 = true then Kernel.sse2
  else Kernel.scalar

/-- Reference: the address of the source pixel that a resampler reads for grid
point `(i, j)`: `source + nearestMatch`. -/
def sampleAddr (source sourceWidth sourceHeight sourcePitch destWidth destHeight i j : Nat) :
    Nat :=
  ((source : Int) +
    nearestMatch sourceWidth sourceHeight sourcePitch destWidth destHeight i j).toNat

/-- Reference: channel selection of the red/blue swap of a 4-byte pixel:
destination byte `k` is source byte `swz k` (bytes 0 and 2 exchanged, bytes 1
and 3 kept). -/
def selSwz (k : Nat) : Option Nat := some (swz k)

/-- Reference: the destination bytes of the pixels of an image of `height`
rows of `width` 4-byte pixels at `dst`, the rows being `pitch` bytes apart. -/
def pixelBytes (dst width height pitch : Nat) : Finset Nat :=
  (Finset.range height ×ˢ Finset.range width ×ˢ Finset.range 4).image
    (fun t : Nat × Nat × Nat => dst + t.1 * pitch + 4 * t.2.1 + t.2.2)

/-- The memory of the `bgra2rgb` scenario of the specification: the pixel
`{5, 6, 7, 8}` at address 1000, zero elsewhere. -/
def px5678 : Mem := fun a =>
  if a = 1000 then 5 else if a = 1001 then 6 else if a = 1002 then 7
  else if a = 1003 then 8 else 0

/-- A concrete memory for evaluating the code: the byte at address `a` is
`a % 251`. -/
def rampMem : Mem := fun a => ⟨a % 251, by omega⟩

/-- The memory of the 1 x 1 scenario of the specification: the pixel
`{10, 20, 30, 40}` at the 16-byte aligned address 1024, zero elsewhere. -/
def px10203040 : Mem := fun a =>
  if a = 1024 then 10 else if a = 1025 then 20 else if a = 1026 then 30
  else if a = 1027 then 40 else 0

/-- A processor for evaluating the capability probe: leaf 0 reports the
maximum leaf 13 in EAX; leaf 1 (and every other leaf) reports ECX = 9 (bits 0
and 3) and EDX = 100663296 (bits 25 and 26). -/
def cpuid_leaf13 : Nat → CPUInfo := fun leaf =>
  if leaf = 0 then { eax := 13, ebx := 0, ecx := 0, edx := 0 }
  else { eax := 0, ebx := 0, ecx := 9, edx := 100663296 }

/-! ## Lemmas: the primitive copies -/

theorem memcpy_apply_in (m : Mem) (d s n a : Nat) (h1 : d ≤ a) (h2 : a < d + n) :
    memcpy m d s n a = m (s + (a - d)) := by
  simp [memcpy, h1, h2]

theorem memcpy_apply_out (m : Mem) (d s n a : Nat) (h : a < d ∨ d + n ≤ a) :
    memcpy m d s n a = m a := by
  unfold memcpy
  rw [if_neg]
  omega

theorem memcpy_zero (m : Mem) (d s : Nat) : memcpy m d s 0 = m := by
  funext a
  exact memcpy_apply_out m d s 0 a (by omega)

theorem memcpy_append (m : Mem) (d s k j : Nat) (h : d ≤ s ∨ s + k + j ≤ d) :
    memcpy (memcpy m d s k) (d + k) (s + k) j = memcpy m d s (k + j) := by
  funext a
  by_cases h2 : d + k ≤ a ∧ a < d + k + j
  · rw [memcpy_apply_in _ (d + k) _ _ _ h2.1 h2.2, memcpy_apply_out _ d _ _ _ (by omega),
      memcpy_apply_in m d s (k + j) a (by omega) (by omega)]
    congr 1
    omega
  · rw [memcpy_apply_out _ (d + k) _ _ _ (by omega)]
    by_cases h1 : d ≤ a ∧ a < d + k
    · rw [memcpy_apply_in _ _ _ _ _ h1.1 h1.2, memcpy_apply_in _ _ _ _ _ (by omega) (by omega)]
    · rw [memcpy_apply_out _ _ _ _ _ (by omega), memcpy_apply_out _ _ _ _ _ (by omega)]

theorem store_apply_in (m : Mem) (p : Nat) (v : M128) (a : Nat) (h1 : p ≤ a) (h2 : a < p + 16) :
    _mm_store_si128 m p v a = v ⟨a - p, by omega⟩ := by
  simp [_mm_store_si128, h1, h2]

theorem store_apply_out (m : Mem) (p : Nat) (v : M128) (a : Nat) (h : a < p ∨ p + 16 ≤ a) :
    _mm_store_si128 m p v a = m a := by
  unfold _mm_store_si128
  rw [dif_neg]
  omega

theorem store_load_eq_memcpy (m m0 : Mem) (d s : Nat) :
    _mm_store_si128 m d (_mm_load_si128 m0 s) =
      fun a => if d ≤ a ∧ a < d + 16 then m0 (s + (a - d)) else m a := by
  funext a
  by_cases h : d ≤ a ∧ a < d + 16
  · rw [store_apply_in _ _ _ _ h.1 h.2]
    simp [_mm_load_si128, h]
  · rw [store_apply_out _ _ _ _ (by omega)]
    simp [h]

theorem memcpy_sse2_block_eq (m : Mem) (d s : Nat) :
    memcpy_sse2_block m d s = memcpy m d s 128 := by
  funext a
  simp only [memcpy_sse2_block, store_load_eq_memcpy, memcpy]
  split_ifs <;> first | rfl | (congr 1; omega)

theorem memcpy_sse2_loop_eq (n : Nat) : ∀ (m : Mem) (d s : Nat), (d ≤ s ∨ s + 128 * n ≤ d) →
    memcpy_sse2_loop m d s n = memcpy m d s (128 * n) := by
  induction n with
  | zero => intro m d s _; simp [memcpy_sse2_loop, memcpy_zero]
  | succ n ih =>
    intro m d s h
    rw [memcpy_sse2_loop, memcpy_sse2_block_eq, ih _ _ _ (by omega),
      memcpy_append _ _ _ _ _ (by omega), show 128 * (n + 1) = 128 + 128 * n by omega]

theorem movsd_eq (n : Nat) : ∀ (m : Mem) (d s : Nat), (d ≤ s ∨ s + 4 * n ≤ d) →
    __movsd m d s n = memcpy m d s (4 * n) := by
  induction n with
  | zero => intro m d s _; simp [__movsd, memcpy_zero]
  | succ n ih =>
    intro m d s h
    have h1 : movsd1 m d s = memcpy m d s 4 := rfl
    rw [__movsd, h1, ih _ _ _ (by omega), memcpy_append _ _ _ _ _ (by omega),
      show 4 * (n + 1) = 4 + 4 * n by omega]

/-! ## Lemmas: the scalar red/blue swap -/

theorem testBit_mask_br (i : Nat) :
    Nat.testBit 0x00ff00ff i = decide (i < 8 ∨ (16 ≤ i ∧ i < 24)) := by
  by_cases h : i < 32
  · interval_cases i <;> rfl
  · have : (0x00ff00ff : Nat) < 2 ^ i :=
      lt_of_lt_of_le (by norm_num) (Nat.pow_le_pow_right (by norm_num) (not_lt.mp h))
    rw [Nat.testBit_lt_two_pow this]
    symm
    simp
    omega

theorem testBit_mask_ga (i : Nat) :
    Nat.testBit 0xff00ff00 i = decide ((8 ≤ i ∧ i < 16) ∨ (24 ≤ i ∧ i < 32)) := by
  by_cases h : i < 32
  · interval_cases i <;> rfl
  · have : (0xff00ff00 : Nat) < 2 ^ i :=
      lt_of_lt_of_le (by norm_num) (Nat.pow_le_pow_right (by norm_num) (not_lt.mp h))
    rw [Nat.testBit_lt_two_pow this]
    symm
    simp
    omega

theorem testBit_swapRB32 (w i : Nat) :
    (swapRB32 w).testBit i =
      if i < 8 then w.testBit (i + 16)
      else if i < 16 then w.testBit i
      else if i < 24 then w.testBit (i - 16) || w.testBit (i + 16)
      else if i < 32 then w.testBit i
      else false := by
  simp only [swapRB32, _rotl, u32, Nat.testBit_or, Nat.testBit_and, testBit_mask_br,
    testBit_mask_ga, Nat.testBit_shiftLeft, Nat.testBit_shiftRight,
    show (4294967296 : Nat) = 2 ^ 32 by norm_num, Nat.testBit_mod_two_pow]
  split_ifs with h1 h2 h3 h4
  · have a1 : i < 32 := by omega
    have a2 : ¬ 16 ≤ i := by omega
    have a3 : ¬ 8 ≤ i := by omega
    have a4 : ¬ 24 ≤ i := by omega
    simp [a1, a2, a3, a4, h1, Nat.add_comm]
  · have a1 : i < 32 := by omega
    have a2 : ¬ 16 ≤ i := by omega
    have a3 : 8 ≤ i := by omega
    simp [a1, a2, a3, h1, h2]
  · have a1 : i < 32 := by omega
    have a2 : 16 ≤ i := by omega
    have a3 : 8 ≤ i := by omega
    have a4 : ¬ 24 ≤ i := by omega
    simp [a1, a2, a3, a4, h1, h2, h3, Nat.add_comm]
  · have a2 : 16 ≤ i := by omega
    have a3 : 8 ≤ i := by omega
    have a4 : 24 ≤ i := by omega
    simp [a2, a3, a4, h1, h2, h3, h4]
  · have a1 : ¬ i < 32 := by omega
    have a2 : 16 ≤ i := by omega
    have a3 : 8 ≤ i := by omega
    have a4 : 24 ≤ i := by omega
    simp [a1, a2, a3, a4, h1, h2, h3, h4]

theorem testBit_byte (x k j : Nat) :
    (x / 256 ^ k % 256).testBit j = (decide (j < 8) && x.testBit (8 * k + j)) := by
  rw [show (256 : Nat) ^ k = 2 ^ (8 * k) by rw [Nat.pow_mul],
    show (256 : Nat) = 2 ^ 8 by norm_num, Nat.testBit_mod_two_pow,
    ← Nat.shiftRight_eq_div_pow, Nat.testBit_shiftRight]

theorem testBit_high (w i : Nat) (hw : w < 4294967296) (hi : 32 ≤ i) : w.testBit i = false :=
  Nat.testBit_lt_two_pow (lt_of_lt_of_le hw
    (by rw [show (4294967296 : Nat) = 2 ^ 32 by norm_num]
        exact Nat.pow_le_pow_right (by norm_num) hi))

theorem byteOf_swapRB32_0 (w : Nat) : byteOf (swapRB32 w) 0 = byteOf w 2 := by
  apply Fin.ext
  apply Nat.eq_of_testBit_eq
  intro j
  simp only [byteOf, testBit_byte, testBit_swapRB32]
  by_cases hj : j < 8
  · simp [hj, Nat.add_comm]
  · simp [hj]

theorem byteOf_swapRB32_1 (w : Nat) : byteOf (swapRB32 w) 1 = byteOf w 1 := by
  apply Fin.ext
  apply Nat.eq_of_testBit_eq
  intro j
  simp only [byteOf, testBit_byte, testBit_swapRB32]
  by_cases hj : j < 8
  · have a1 : ¬ 8 + j < 8 := by omega
    have a2 : 8 + j < 16 := by omega
    simp [hj, a1, a2]
  · simp [hj]

theorem byteOf_swapRB32_2 (w : Nat) (hw : w < 4294967296) :
    byteOf (swapRB32 w) 2 = byteOf w 0 := by
  apply Fin.ext
  apply Nat.eq_of_testBit_eq
  intro j
  simp only [byteOf, testBit_byte, testBit_swapRB32]
  by_cases hj : j < 8
  · have a1 : ¬ 16 + j < 8 := by omega
    have a2 : ¬ 16 + j < 16 := by omega
    have a3 : 16 + j < 24 := by omega
    have a4 := testBit_high w (16 + j + 16) hw (by omega)
    simp [hj, a1, a2, a3, a4]
  · simp [hj]

theorem byteOf_swapRB32_3 (w : Nat) : byteOf (swapRB32 w) 3 = byteOf w 3 := by
  apply Fin.ext
  apply Nat.eq_of_testBit_eq
  intro j
  simp only [byteOf, testBit_byte, testBit_swapRB32]
  by_cases hj : j < 8
  · have a1 : ¬ 24 + j < 8 := by omega
    have a2 : ¬ 24 + j < 16 := by omega
    have a3 : ¬ 24 + j < 24 := by omega
    have a4 : 24 + j < 32 := by omega
    simp [hj, a1, a2, a3, a4]
  · simp [hj]

theorem load32_lt (m : Mem) (p : Nat) : load32 m p < 4294967296 := by
  unfold load32
  have h0 := (m p).isLt
  have h1 := (m (p + 1)).isLt
  have h2 := (m (p + 2)).isLt
  have h3 := (m (p + 3)).isLt
  omega

theorem byteOf_load32 (m : Mem) (p k : Nat) (hk : k < 4) : byteOf (load32 m p) k = m (p + k) := by
  have h0 := (m p).isLt
  have h1 := (m (p + 1)).isLt
  have h2 := (m (p + 2)).isLt
  have h3 := (m (p + 3)).isLt
  apply Fin.ext
  interval_cases k <;> simp only [byteOf, load32] <;> norm_num <;> omega

theorem swapCopy_apply_in (m : Mem) (d s n a : Nat) (h1 : d ≤ a) (h2 : a < d + 4 * n) :
    swapCopy m d s n a = m (s + swz (a - d)) := by
  simp [swapCopy, h1, h2]

theorem swapCopy_apply_out (m : Mem) (d s n a : Nat) (h : a < d ∨ d + 4 * n ≤ a) :
    swapCopy m d s n a = m a := by
  unfold swapCopy
  rw [if_neg]
  omega

theorem swapCopy_zero (m : Mem) (d s : Nat) : swapCopy m d s 0 = m := by
  funext a
  exact swapCopy_apply_out m d s 0 a (by omega)

theorem swz_lt (k n : Nat) (h : k < 4 * n) : swz k < 4 * n := by
  unfold swz
  split_ifs <;> omega

theorem swz_shift (k j : Nat) : swz (4 * k + j) = 4 * k + swz j := by
  unfold swz
  split_ifs <;> omega

theorem swapCopy_append (m : Mem) (d s k j : Nat) (h : d ≤ s ∨ s + 4 * k + 4 * j ≤ d) :
    swapCopy (swapCopy m d s k) (d + 4 * k) (s + 4 * k) j = swapCopy m d s (k + j) := by
  funext a
  by_cases h2 : d + 4 * k ≤ a ∧ a < d + 4 * k + 4 * j
  · have hz := swz_lt (a - (d + 4 * k)) j (by omega)
    have hs : swz (a - d) = 4 * k + swz (a - (d + 4 * k)) := by
      rw [← swz_shift]
      congr 1
      omega
    rw [swapCopy_apply_in _ (d + 4 * k) _ _ _ h2.1 h2.2, swapCopy_apply_out _ d _ _ _ (by omega),
      swapCopy_apply_in m d s (k + j) a (by omega) (by omega), hs]
    congr 1
    omega
  · rw [swapCopy_apply_out _ (d + 4 * k) _ _ _ (by omega)]
    by_cases h1 : d ≤ a ∧ a < d + 4 * k
    · rw [swapCopy_apply_in _ _ _ _ _ h1.1 h1.2,
        swapCopy_apply_in _ _ _ _ _ (by omega) (by omega)]
    · rw [swapCopy_apply_out _ _ _ _ _ (by omega), swapCopy_apply_out _ _ _ _ _ (by omega)]

theorem swapPixel_eq (source dest x : Nat) (m : Mem) :
    swapPixel source dest x m = swapCopy m (dest + 4 * x) (source + 4 * x) 1 := by
  funext a
  unfold swapPixel store32 swapCopy
  by_cases h : dest + 4 * x ≤ a ∧ a < dest + 4 * x + 4
  · rw [if_pos h, if_pos (by omega)]
    have hw := load32_lt m (source + 4 * x)
    obtain ⟨k, hk⟩ : ∃ k, a - (dest + 4 * x) = k := ⟨_, rfl⟩
    have hk4 : k < 4 := by omega
    rw [hk]
    interval_cases k
    · rw [byteOf_swapRB32_0, byteOf_load32 _ _ _ (by omega)]; rfl
    · rw [byteOf_swapRB32_1, byteOf_load32 _ _ _ (by omega)]; rfl
    · rw [byteOf_swapRB32_2 _ hw, byteOf_load32 _ _ _ (by omega)]; rfl
    · rw [byteOf_swapRB32_3, byteOf_load32 _ _ _ (by omega)]; rfl
  · rw [if_neg h, if_neg (by omega)]

/-! ## Lemmas: the vector red/blue swap -/

theorem swz_lt16 (i : Fin 16) : swz i.val < 16 := by
  unfold swz
  have := i.isLt
  split_ifs <;> omega

set_option maxRecDepth 100000

theorem byte_and_ff : ∀ b : Byte, b &&& 255 = b := by decide
theorem byte_and_zero : ∀ b : Byte, b &&& 0 = 0 := by decide
theorem byte_zero_and : ∀ b : Byte, (0 : Byte) &&& b = 0 := by decide
theorem byte_ff_and : ∀ b : Byte, (255 : Byte) &&& b = b := by decide
theorem byte_or_zero : ∀ b : Byte, b ||| 0 = b := by decide
theorem byte_zero_or : ∀ b : Byte, (0 : Byte) ||| b = b := by decide

theorem shuffle_epi8_mask (data : M128) (i : Fin 16) :
    _mm_shuffle_epi8 data sse3_mask i = data ⟨swz i.val, swz_lt16 i⟩ := by
  fin_cases i <;> rfl

theorem sse2_lanes (data : M128) (i : Fin 16) :
    _mm_or_si128 (_mm_andnot_si128 (_mm_set1_epi32 0x00ff00ff) data)
      (_mm_shufflehi_epi16
        (_mm_shufflelo_epi16 (_mm_and_si128 data (_mm_set1_epi32 0x00ff00ff))
          (_MM_SHUFFLE 2 3 0 1)) (_MM_SHUFFLE 2 3 0 1)) i
      = data ⟨swz i.val, swz_lt16 i⟩ := by
  have e0 : byteOf 0x00ff00ff 0 = 255 := by decide
  have e1 : byteOf 0x00ff00ff 1 = 0 := by decide
  have e2 : byteOf 0x00ff00ff 2 = 255 := by decide
  have e3 : byteOf 0x00ff00ff 3 = 0 := by decide
  have x0 : (255 : Byte) ^^^ 255 = 0 := by decide
  have x1 : (0 : Byte) ^^^ 255 = 255 := by decide
  fin_cases i <;>
    simp [_mm_or_si128, _mm_andnot_si128, _mm_and_si128, _mm_shufflehi_epi16,
      _mm_shufflelo_epi16, _mm_set1_epi32, _MM_SHUFFLE, e0, e1, e2, e3, x0, x1,
      byte_and_ff, byte_and_zero, byte_zero_and, byte_ff_and, byte_or_zero, byte_zero_or, swz]

/-! ## Lemmas: loops and rows -/

theorem forLoop_zero (body : Nat → Mem → Mem) (m : Mem) : forLoop 0 body m = m := rfl

theorem forLoop_succ (n : Nat) (body : Nat → Mem → Mem) (m : Mem) :
    forLoop (n + 1) body m = body n (forLoop n body m) := by
  simp [forLoop, List.range_succ, List.foldl_append]

theorem forLoop_congr (n : Nat) (f g : Nat → Mem → Mem) (m : Mem)
    (h : ∀ y, y < n → ∀ acc, f y acc = g y acc) : forLoop n f m = forLoop n g m := by
  induction n with
  | zero => rfl
  | succ n ih =>
    rw [forLoop_succ, forLoop_succ, ih (fun y hy => h y (by omega)), h n (by omega)]

theorem sse2_vector_eq (source dest x : Nat) (m : Mem) :
    sse2_vector source dest x m = swapCopy m (dest + 4 * x) (source + 4 * x) 4 := by
  funext a
  unfold sse2_vector
  by_cases h : dest + 4 * x ≤ a ∧ a < dest + 4 * x + 16
  · rw [store_apply_in _ _ _ _ h.1 h.2, sse2_lanes,
      swapCopy_apply_in _ _ _ _ _ h.1 (by omega)]
    rfl
  · rw [store_apply_out _ _ _ _ (by omega), swapCopy_apply_out _ _ _ _ _ (by omega)]

theorem store_shuffle_eq (m m0 : Mem) (d s : Nat) :
    _mm_store_si128 m d (_mm_shuffle_epi8 (_mm_load_si128 m0 s) sse3_mask) =
      fun a => if d ≤ a ∧ a < d + 16 then m0 (s + swz (a - d)) else m a := by
  funext a
  by_cases h : d ≤ a ∧ a < d + 16
  · rw [store_apply_in _ _ _ _ h.1 h.2, shuffle_epi8_mask]
    simp [_mm_load_si128, h]
  · rw [store_apply_out _ _ _ _ (by omega)]
    simp [h]

theorem sse3_block_eq (src dst : Nat) (m : Mem) :
    sse3_block src dst m = swapCopy m dst src 16 := by
  funext a
  simp only [sse3_block, store_shuffle_eq, swapCopy]
  split_ifs <;> first | rfl | (congr 1; unfold swz; split_ifs <;> omega)

theorem scalar_row_eq (n : Nat) (source dest : Nat) (m : Mem)
    (h : dest ≤ source ∨ source + 4 * n ≤ dest) :
    forLoop n (swapPixel source dest) m = swapCopy m dest source n := by
  induction n with
  | zero => rw [forLoop_zero, swapCopy_zero]
  | succ n ih =>
    rw [forLoop_succ, ih (by omega), swapPixel_eq, swapCopy_append _ _ _ _ _ (by omega)]

theorem swapCopy_append_at (m : Mem) (d s x k j : Nat)
    (h : d ≤ s ∨ s + 4 * (x + k + j) ≤ d) :
    swapCopy (swapCopy m (d + 4 * x) (s + 4 * x) k) (d + 4 * (x + k)) (s + 4 * (x + k)) j =
      swapCopy m (d + 4 * x) (s + 4 * x) (k + j) := by
  rw [show d + 4 * (x + k) = d + 4 * x + 4 * k by omega,
    show s + 4 * (x + k) = s + 4 * x + 4 * k by omega,
    swapCopy_append _ _ _ _ _ (by omega)]

theorem sse2_align_spec (source dest width : Nat)
    (h : dest ≤ source ∨ source + 4 * width ≤ dest) :
    ∀ (fuel x : Nat) (m : Mem), x ≤ width →
      ∃ x', x ≤ x' ∧ x' ≤ width ∧
        sse2_align source dest width fuel x m =
          (x', swapCopy m (dest + 4 * x) (source + 4 * x) (x' - x)) := by
  intro fuel
  induction fuel with
  | zero =>
    intro x m hx
    exact ⟨x, le_refl _, hx, by simp [sse2_align, swapCopy_zero]⟩
  | succ fuel ih =>
    intro x m hx
    unfold sse2_align
    split_ifs with hc
    · obtain ⟨x', h1, h2, h3⟩ := ih (x + 1) (swapPixel source dest x m) (by omega)
      refine ⟨x', by omega, h2, ?_⟩
      rw [h3, swapPixel_eq, swapCopy_append_at _ _ _ _ _ _ (by omega),
        show 1 + (x' - (x + 1)) = x' - x by omega]
    · exact ⟨x, le_refl _, hx, by simp [swapCopy_zero]⟩

theorem sse2_body_spec (source dest width : Nat) (hw : width + 3 < 4294967296)
    (h : dest ≤ source ∨ source + 4 * width ≤ dest) :
    ∀ (fuel x : Nat) (m : Mem), x ≤ width →
      ∃ x', x ≤ x' ∧ x' ≤ width ∧
        sse2_body source dest width fuel x m =
          (x', swapCopy m (dest + 4 * x) (source + 4 * x) (x' - x)) := by
  intro fuel
  induction fuel with
  | zero =>
    intro x m hx
    exact ⟨x, le_refl _, hx, by simp [sse2_body, swapCopy_zero]⟩
  | succ fuel ih =>
    intro x m hx
    unfold sse2_body
    have e3 : u32 (x + 3) = x + 3 := by unfold u32; omega
    rw [e3]
    split_ifs with hc
    · have e4 : u32 (x + 4) = x + 4 := by unfold u32; omega
      rw [e4]
      obtain ⟨x', h1, h2, h3⟩ := ih (x + 4) (sse2_vector source dest x m) (by omega)
      refine ⟨x', by omega, h2, ?_⟩
      rw [h3, sse2_vector_eq, swapCopy_append_at _ _ _ _ _ _ (by omega),
        show 4 + (x' - (x + 4)) = x' - x by omega]
    · exact ⟨x, le_refl _, hx, by simp [swapCopy_zero]⟩

theorem sse2_leftover_spec (source dest width : Nat)
    (h : dest ≤ source ∨ source + 4 * width ≤ dest) :
    ∀ (fuel x : Nat) (m : Mem), x ≤ width → width - x ≤ fuel →
      sse2_leftover source dest width fuel x m =
        swapCopy m (dest + 4 * x) (source + 4 * x) (width - x) := by
  intro fuel
  induction fuel with
  | zero =>
    intro x m hx hf
    rw [show width - x = 0 by omega, swapCopy_zero]
    rfl
  | succ fuel ih =>
    intro x m hx hf
    unfold sse2_leftover
    split_ifs with hc
    · rw [ih (x + 1) _ (by omega) (by omega), swapPixel_eq,
        swapCopy_append_at _ _ _ _ _ _ (by omega),
        show 1 + (width - (x + 1)) = width - x by omega]
    · rw [show width - x = 0 by omega, swapCopy_zero]

theorem sse2_row_eq (source dest width : Nat) (m : Mem) (hw : width + 3 < 4294967296)
    (h : dest ≤ source ∨ source + 4 * width ≤ dest) :
    sse2_row source dest width m = swapCopy m dest source width := by
  unfold sse2_row
  obtain ⟨x1, -, h12, h13⟩ := sse2_align_spec source dest width h width 0 m (by omega)
  obtain ⟨x2, h21, h22, h23⟩ :=
    sse2_body_spec source dest width hw h width x1
      (sse2_align source dest width width 0 m).2 h12
  simp only [h13] at h23 ⊢
  simp only [h23]
  rw [sse2_leftover_spec source dest width h width x2 _ h22 (by omega)]
  have a1 := swapCopy_append_at m dest source 0 x1 (x2 - x1) (by omega)
  have a2 := swapCopy_append_at m dest source 0 x2 (width - x2) (by omega)
  simp only [Nat.mul_zero, Nat.add_zero, Nat.zero_add, Nat.sub_zero] at a1 a2 ⊢
  rw [a1, show x1 + (x2 - x1) = x2 by omega, a2, show x2 + (width - x2) = width by omega]

theorem sse3_loop_spec (srcEnd : Nat) :
    ∀ (k fuel src dst : Nat) (m : Mem), k ≤ fuel → srcEnd ≤ src + 64 * k →
      (∀ j, j < k → src + 64 * j < srcEnd) → (dst ≤ src ∨ src + 64 * k ≤ dst) →
      sse3_loop srcEnd fuel src dst m = swapCopy m dst src (16 * k) := by
  intro k
  induction k with
  | zero =>
    intro fuel src dst m _ hend _ _
    rw [Nat.mul_zero, swapCopy_zero]
    cases fuel with
    | zero => rfl
    | succ f =>
      unfold sse3_loop
      rw [if_neg (by omega)]
  | succ k ih =>
    intro fuel src dst m hf hend hlt hsep
    cases fuel with
    | zero => omega
    | succ f =>
      unfold sse3_loop
      have h0 := hlt 0 (by omega)
      rw [if_pos (by omega), ih f (src + 64) (dst + 64) _ (by omega) (by omega)
        (fun j hj => by have := hlt (j + 1) (by omega); omega) (by omega),
        sse3_block_eq]
      have := swapCopy_append m dst src 16 (16 * k) (by omega)
      rw [show dst + 4 * 16 = dst + 64 by omega, show src + 4 * 16 = src + 64 by omega] at this
      rw [this, show 16 * (k + 1) = 16 + 16 * k by omega]

theorem sse3_row_eq (source dest width : Nat) (m : Mem)
    (h : dest ≤ source ∨ source + 64 * ((width + 15) / 16) ≤ dest) :
    sse3_row source dest width m = swapCopy m dest source (16 * ((width + 15) / 16)) := by
  unfold sse3_row
  exact sse3_loop_spec _ ((width + 15) / 16) width source dest m (by omega) (by omega)
    (fun j hj => by omega) h

theorem sse3_row_eq_of_mod (source dest width : Nat) (m : Mem) (h16 : width % 16 = 0)
    (h : dest ≤ source ∨ source + 4 * width ≤ dest) :
    sse3_row source dest width m = swapCopy m dest source width := by
  rw [sse3_row_eq _ _ _ _ (by omega), show 16 * ((width + 15) / 16) = width by omega]

theorem memcpy_sse2_loop_frame (n : Nat) : ∀ (m : Mem) (d s a : Nat),
    (a < d ∨ d + 128 * n ≤ a) → memcpy_sse2_loop m d s n a = m a := by
  induction n with
  | zero => intro m d s a _; rfl
  | succ n ih =>
    intro m d s a h
    rw [memcpy_sse2_loop, ih _ _ _ _ (by omega), memcpy_sse2_block_eq,
      memcpy_apply_out _ _ _ _ _ (by omega)]

theorem memcpy_sse2_frame (m : Mem) (d s Size a : Nat)
    (h : a < d ∨ d + 128 * (u32 Size / 128) ≤ a) : memcpy_sse2 m d s Size a = m a := by
  unfold memcpy_sse2
  split_ifs
  · rfl
  · exact memcpy_sse2_loop_frame _ _ _ _ _ h

theorem memcpy_sse2_eq_memcpy (m : Mem) (d s Size : Nat) (hd : d ≠ 0) (hs : s ≠ 0)
    (h : d ≤ s ∨ s + 128 * (u32 Size / 128) ≤ d) :
    memcpy_sse2 m d s Size = memcpy m d s (128 * (u32 Size / 128)) := by
  unfold memcpy_sse2
  rw [if_neg (by omega)]
  exact memcpy_sse2_loop_eq _ _ _ _ h

/-! ## Lemmas: FlipBuffer and RemovePadding -/

theorem usub32_of_le (a b : Nat) (hb : b ≤ a) (ha : a < 4294967296) : usub32 a b = a - b := by
  unfold usub32
  omega

theorem FlipBuffer_loop_sse2_frame (c : spoutCopy) (hc : c.m_bSSE2 = true)
    (src dst width height pitch a : Nat) (hbig : ¬ (width < 320 ∨ height < 240))
    (hp : pitch % 16 = 0) (hp32 : pitch < 4294967296) :
    ∀ (n : Nat) (s : FlipState), (1 ≤ n → s.line_t = (n - 1) * pitch) →
      n * pitch ≤ 4294967296 →
      (∀ k, k < n → a < dst + k * pitch ∨ dst + k * pitch + 128 * (pitch / 128) ≤ a) →
      (FlipBuffer_loop c src dst width height pitch n s).mem a = s.mem a := by
  intro n
  induction n with
  | zero => intro s _ _ _; rfl
  | succ n ih =>
    intro s hlt hsz hout
    have hlt0 : s.line_t = n * pitch := by simpa using hlt (by omega)
    have hmul : (n + 1) * pitch = n * pitch + pitch := Nat.succ_mul n pitch
    have hn0 : n * pitch < 4294967296 := by
      rcases Nat.eq_zero_or_pos pitch with h | h
      · rw [h]; simp
      · omega
    rw [FlipBuffer_loop, ih]
    · simp only [FlipBuffer_step, copySelect, decide_eq_true_eq, if_neg hbig, hp, hc, and_self,
        if_true]
      apply memcpy_sse2_frame
      have := hout n (by omega)
      rw [hlt0]
      have e : u32 pitch = pitch := by unfold u32; omega
      rw [e]
      omega
    · intro h1
      simp only [FlipBuffer_step, hlt0]
      have e1 : n * pitch = (n - 1) * pitch + pitch := by
        conv_lhs => rw [show n = (n - 1) + 1 by omega]
        exact Nat.succ_mul _ _
      rw [usub32_of_le _ _ (by omega) (by omega)]
      omega
    · omega
    · intro k hk
      exact hout k (by omega)

theorem FlipBuffer_sse2_frame (c : spoutCopy) (hc : c.m_bSSE2 = true) (m : Mem)
    (src dst width height glFormat a : Nat) (hbig : ¬ (width < 320 ∨ height < 240))
    (hh : height < 4294967296)
    (hp : FlipBuffer_pitch width glFormat % 16 = 0)
    (hsz : height * FlipBuffer_pitch width glFormat ≤ 4294967296)
    (hp32 : FlipBuffer_pitch width glFormat < 4294967296)
    (hout : ∀ k, k < height → a < dst + k * FlipBuffer_pitch width glFormat ∨
      dst + k * FlipBuffer_pitch width glFormat + 128 * (FlipBuffer_pitch width glFormat / 128)
        ≤ a) :
    FlipBuffer c m src dst width height glFormat a = m a := by
  unfold FlipBuffer
  rw [FlipBuffer_loop_sse2_frame c hc src dst width height _ a hbig hp hp32 height _ ?_ hsz hout]
  intro h1
  simp only
  rw [usub32_of_le _ _ h1 hh]
  have : (height - 1) * FlipBuffer_pitch width glFormat ≤
      height * FlipBuffer_pitch width glFormat := Nat.mul_le_mul_right _ (by omega)
  have hne : (height - 1) * FlipBuffer_pitch width glFormat < 4294967296 := by
    have e : height * FlipBuffer_pitch width glFormat =
        (height - 1) * FlipBuffer_pitch width glFormat + FlipBuffer_pitch width glFormat := by
      conv_lhs => rw [show height = (height - 1) + 1 by omega]
      exact Nat.succ_mul _ _
    by_cases hz : FlipBuffer_pitch width glFormat = 0
    · rw [hz]; simp
    · omega
  unfold u32
  omega

theorem RemovePadding_row_eq_memcpy (c : spoutCopy) (m : Mem) (d s pitch stride : Nat)
    (hpath : c.m_bSSE2 = false ∨ pitch < 320 ∨ stride < 320 ∨ pitch % 16 ≠ 0 ∨
      stride % 16 ≠ 0 ∨ pitch % 128 = 0)
    (hd : d ≠ 0) (hs : s ≠ 0) (hp32 : pitch < 4294967296)
    (hov : d ≤ s ∨ s + pitch ≤ d) :
    RemovePadding_row c m d s pitch stride = memcpy m d s pitch := by
  unfold RemovePadding_row
  split_ifs with h1 h2 h3
  · rfl
  · have h128 : pitch % 128 = 0 := by
      rcases hpath with h | h | h | h | h | h
      · rw [h2.2.2] at h; cases h
      · omega
      · omega
      · omega
      · omega
      · exact h
    have e : u32 pitch = pitch := by unfold u32; omega
    rw [memcpy_sse2_eq_memcpy _ _ _ _ hd hs (by rw [e]; omega), e,
      show 128 * (pitch / 128) = pitch by omega]
  · rw [movsd_eq _ _ _ _ (by omega), show 4 * (pitch / 4) = pitch by omega]
  · rfl

theorem RemovePadding_loop_spec (c : spoutCopy) (pitch stride : Nat)
    (hpath : c.m_bSSE2 = false ∨ pitch < 320 ∨ stride < 320 ∨ pitch % 16 ≠ 0 ∨
      stride % 16 ≠ 0 ∨ pitch % 128 = 0)
    (hp32 : pitch < 4294967296) (hps : pitch ≤ stride) :
    ∀ (n : Nat) (m : Mem) (source dest : Nat), source ≠ 0 → dest ≠ 0 →
      (source + n * stride ≤ dest ∨ dest + n * pitch ≤ source) →
      (∀ y, y < n → ∀ i, i < pitch →
        RemovePadding_loop c pitch stride n m source dest (dest + y * pitch + i) =
          m (source + y * stride + i)) ∧
      (∀ a, (a < dest ∨ dest + n * pitch ≤ a) →
        RemovePadding_loop c pitch stride n m source dest a = m a) := by
  intro n
  induction n with
  | zero =>
    intro m source dest _ _ _
    exact ⟨fun y hy => by omega, fun a _ => rfl⟩
  | succ n ih =>
    intro m source dest hs hd hsep
    have hmp : (n + 1) * pitch = n * pitch + pitch := Nat.succ_mul n pitch
    have hms : (n + 1) * stride = n * stride + stride := Nat.succ_mul n stride
    have hrow := RemovePadding_row_eq_memcpy c m dest source pitch stride hpath hd hs hp32
      (by omega)
    obtain ⟨ih1, ih2⟩ := ih (memcpy m dest source pitch) (source + stride) (dest + pitch)
      (by omega) (by omega) (by omega)
    unfold RemovePadding_loop
    rw [hrow]
    constructor
    · intro y hy i hi
      cases y with
      | zero =>
        rw [ih2 _ (by omega), memcpy_apply_in _ _ _ _ _ (by omega) (by omega)]
        congr 1
        omega
      | succ y =>
        have hyp : (y + 1) * pitch = y * pitch + pitch := Nat.succ_mul y pitch
        have hys : (y + 1) * stride = y * stride + stride := Nat.succ_mul y stride
        have hle : (y + 1) * stride ≤ n * stride := Nat.mul_le_mul_right _ (by omega)
        have := ih1 y (by omega) i hi
        rw [show dest + (y + 1) * pitch + i = dest + pitch + y * pitch + i by omega, this,
          memcpy_apply_out _ _ _ _ _ (by omega)]
        congr 1
        omega
    · intro a ha
      rw [ih2 a (by omega), memcpy_apply_out _ _ _ _ _ (by omega)]

/-! ## Lemmas: loop exits, single pixels, concrete sizes -/

/-- The fuel of the alignment loop is never what stops it: started with at
least `width - x` steps it ends with its loop condition false. -/
theorem sse2_align_exit (source dest width : Nat) :
    ∀ (fuel x : Nat) (m : Mem), x ≤ width → width - x ≤ fuel →
      ¬ ((dest + 4 * (sse2_align source dest width fuel x m).1) % 16 ≠ 0 ∧
        (sse2_align source dest width fuel x m).1 < width) := by
  intro fuel
  induction fuel with
  | zero =>
    intro x m hx hf
    simp only [sse2_align]
    omega
  | succ fuel ih =>
    intro x m hx hf
    unfold sse2_align
    split_ifs with hc
    · exact ih (x + 1) _ (by omega) (by omega)
    · exact hc

/-- The fuel of the vector loop is never what stops it: started with at least
`width - x` steps it ends with its loop condition false. -/
theorem sse2_body_exit (source dest width : Nat) (hw : width + 3 < 4294967296) :
    ∀ (fuel x : Nat) (m : Mem), x ≤ width → width - x ≤ fuel →
      ¬ (u32 ((sse2_body source dest width fuel x m).1 + 3) < width) := by
  intro fuel
  induction fuel with
  | zero =>
    intro x m hx hf
    simp only [sse2_body, u32]
    omega
  | succ fuel ih =>
    intro x m hx hf
    unfold sse2_body
    have e3 : u32 (x + 3) = x + 3 := by unfold u32; omega
    split_ifs with hc
    · rw [e3] at hc
      have e4 : u32 (x + 4) = x + 4 := by unfold u32; omega
      rw [e4]
      exact ih (x + 4) _ (by omega) (by omega)
    · exact hc

theorem RemovePadding_pitch_eq (width glFormat : Nat)
    (hfmt : glFormat = GL_RGB ∨ glFormat = GL_BGR_EXT ∨ glFormat = GL_RGBA ∨
      glFormat = GL_BGRA_EXT)
    (h32 : width * bytesPerPixel glFormat < 4294967296) :
    RemovePadding_pitch width glFormat = width * bytesPerPixel glFormat := by
  rcases hfmt with rfl | rfl | rfl | rfl <;>
    simp [RemovePadding_pitch, bytesPerPixel, GL_RGB, GL_BGR_EXT, GL_RGBA, GL_BGRA_EXT, u32]
      at h32 ⊢ <;> omega

theorem FlipBuffer_pitch_320_luminance : FlipBuffer_pitch 320 GL_LUMINANCE = 320 := by decide

theorem kernelSource_one (src : Nat) (bInvert : Bool) : kernelSource src 1 1 bInvert 0 = src := by
  cases bInvert <;> simp [kernelSource, u32, usub32]

theorem kernelDest_one (dst : Nat) : kernelDest dst 1 0 = dst := by
  simp [kernelDest, u32]

theorem forLoop_one (body : Nat → Mem → Mem) (m : Mem) : forLoop 1 body m = body 0 m := rfl

theorem sse2_row_one (source dest : Nat) (m : Mem) :
    sse2_row source dest 1 m = swapPixel source dest 0 m := by
  by_cases h : dest % 16 = 0
  · simp [sse2_row, sse2_align, sse2_body, sse2_leftover, u32, h]
  · simp [sse2_row, sse2_align, sse2_body, sse2_leftover, u32, h]

theorem sse3_row_one (source dest : Nat) (m : Mem) :
    sse3_row source dest 1 m = sse3_block source dest m := by
  simp [sse3_row, sse3_loop]

theorem rgba_bgra_one (m : Mem) (src dst : Nat) (bInvert : Bool) (hsrc : src ≠ 0)
    (hdst : dst ≠ 0) : rgba_bgra m src dst 1 1 bInvert = swapCopy m dst src 1 := by
  unfold rgba_bgra
  rw [if_neg hsrc, if_neg hdst, forLoop_one, forLoop_one, kernelSource_one, kernelDest_one,
    swapPixel_eq]
  rfl

theorem rgba_bgra_sse2_one (m : Mem) (src dst : Nat) (bInvert : Bool) (hsrc : src ≠ 0)
    (hdst : dst ≠ 0) : rgba_bgra_sse2 m src dst 1 1 bInvert = swapCopy m dst src 1 := by
  unfold rgba_bgra_sse2
  rw [if_neg hsrc, if_neg hdst, forLoop_one, kernelSource_one, kernelDest_one, sse2_row_one,
    swapPixel_eq]
  rfl

theorem rgba_bgra_sse3_one (m : Mem) (src dst : Nat) (bInvert : Bool) :
    rgba_bgra_sse3 m src dst 1 1 bInvert = swapCopy m dst src 16 := by
  unfold rgba_bgra_sse3
  rw [forLoop_one, kernelSource_one, kernelDest_one, sse3_row_one, sse3_block_eq]

theorem swapCopy_pixel0 (m : Mem) (d s n : Nat) (hn : 0 < n) :
    swapCopy m d s n d = m (s + 2) ∧ swapCopy m d s n (d + 1) = m (s + 1) ∧
    swapCopy m d s n (d + 2) = m s ∧ swapCopy m d s n (d + 3) = m (s + 3) := by
  refine ⟨?_, ?_, ?_, ?_⟩
  · rw [swapCopy_apply_in _ _ _ _ _ (by omega) (by omega)]; simp [swz]
  · rw [swapCopy_apply_in _ _ _ _ _ (by omega) (by omega)]; simp [swz]
  · rw [swapCopy_apply_in _ _ _ _ _ (by omega) (by omega)]; simp [swz]
  · rw [swapCopy_apply_in _ _ _ _ _ (by omega) (by omega)]; simp [swz]

/-- Disjoint source and destination images whose pixel count fits in an
`unsigned int` satisfy the row condition of the kernel equivalences. -/
theorem kernel_rows_of_disjoint (src dst width height : Nat) (bInvert : Bool)
    (hsz : width * height < 4294967296)
    (hsep : src + 4 * (width * height) ≤ dst ∨ dst + 4 * (width * height) ≤ src) :
    ∀ y, y < height →
      kernelDest dst width y ≤ kernelSource src width height bInvert y ∨
      kernelSource src width height bInvert y + 4 * width ≤ kernelDest dst width y := by
  intro y hy
  rcases Nat.eq_zero_or_pos width with h0 | hpos
  · subst h0
    simp only [kernelDest, kernelSource, Nat.mul_zero, u32]
    cases bInvert <;> simp <;> omega
  · have hh : height < 4294967296 := by
      have : height ≤ width * height := Nat.le_mul_of_pos_left height hpos
      omega
    have e1 : usub32 (usub32 height 1) y = height - 1 - y := by
      rw [usub32_of_le height 1 (by omega) hh, usub32_of_le _ _ (by omega) (by omega)]
    have hyw : y * width + width ≤ width * height := by
      have : (y + 1) * width ≤ height * width := Nat.mul_le_mul_right _ (by omega)
      rw [Nat.succ_mul, Nat.mul_comm height width] at this
      exact this
    have hiw : (height - 1 - y) * width + width ≤ width * height := by
      have : (height - 1 - y + 1) * width ≤ height * width := Nat.mul_le_mul_right _ (by omega)
      rw [Nat.succ_mul, Nat.mul_comm height width] at this
      exact this
    have e2 : u32 (y * width) = y * width := by unfold u32; omega
    have e3 : u32 ((height - 1 - y) * width) = (height - 1 - y) * width := by unfold u32; omega
    simp only [kernelDest, kernelSource, e1, e2, e3]
    cases bInvert <;> simp <;> omega

/-! ## Lemmas: the converter loops -/

theorem convertLoop_inner (width : Nat) (body : Nat → Int → Int → Mem → Mem) (bs bd : Int)
    (s : Ptrs) :
    (List.range width).foldl
        (fun t x => ({ mem := body x t.src t.dst t.mem, src := t.src + bs, dst := t.dst + bd }
          : Ptrs)) s =
      { mem := forLoop width (fun x acc => body x (s.src + x * bs) (s.dst + x * bd) acc) s.mem,
        src := s.src + width * bs, dst := s.dst + width * bd } := by
  induction width with
  | zero => simp [forLoop]
  | succ n ih =>
    rw [List.range_succ, List.foldl_append, ih, forLoop_succ]
    simp only [List.foldl_cons, List.foldl_nil, Ptrs.mk.injEq]
    refine ⟨trivial, ?_, ?_⟩ <;> (push_cast; ring)

theorem convertLoop_eq (height width : Nat) (body : Nat → Int → Int → Mem → Mem)
    (bs bd rs rd : Int) (s : Ptrs) :
    convertLoop height width body bs bd rs rd s =
      { mem := forLoop height (fun y acc => forLoop width (fun x acc2 =>
          body x (s.src + y * (width * bs + rs) + x * bs) (s.dst + y * (width * bd + rd) + x * bd)
            acc2) acc) s.mem,
        src := s.src + height * (width * bs + rs),
        dst := s.dst + height * (width * bd + rd) } := by
  unfold convertLoop
  induction height with
  | zero => simp [forLoop]
  | succ n ih =>
    rw [List.range_succ, List.foldl_append, ih, forLoop_succ]
    simp only [List.foldl_cons, List.foldl_nil, convertLoop_inner, Ptrs.mk.injEq]
    refine ⟨trivial, ?_, ?_⟩ <;> (push_cast; ring)

theorem pixVal_congr (sel : Nat → Option Nat) (bs : Nat) (m M : Mem) (s k : Nat)
    (hsel : ∀ j, sel k = some j → j < bs) (h : ∀ j, j < bs → M (s + j) = m (s + j)) :
    pixVal sel M s k = pixVal sel m s k := by
  unfold pixVal
  cases hk : sel k with
  | none => rfl
  | some j => exact h j (hsel j hk)

theorem GridInv_step (bd bs : Nat) (sel : Nat → Option Nat) (D S : Nat → Nat → Nat)
    (m M : Mem) (done : Nat → Nat → Prop) (y0 x0 : Nat)
    (hsel : ∀ k j, k < bd → sel k = some j → j < bs)
    (hinv : GridInv bd sel D S m M done)
    (hS : ∀ y x, done y x → D y x + bd ≤ S y0 x0 ∨ S y0 x0 + bs ≤ D y x)
    (hD : ∀ y x, done y x → D y x + bd ≤ D y0 x0 ∨ D y0 x0 + bd ≤ D y x) :
    GridInv bd sel D S m (pixRef bd sel M (D y0 x0) (S y0 x0))
      (fun y x => done y x ∨ (y = y0 ∧ x = x0)) := by
  obtain ⟨h1, h2⟩ := hinv
  have hsrc : ∀ j, j < bs → M (S y0 x0 + j) = m (S y0 x0 + j) := by
    intro j hj
    apply h2
    intro y x hd
    have := hS y x hd
    omega
  constructor
  · intro y x hd k hk
    rcases hd with hd | ⟨rfl, rfl⟩
    · have := hD y x hd
      unfold pixRef
      rw [if_neg (by omega)]
      exact h1 y x hd k hk
    · unfold pixRef
      rw [if_pos (by omega), show D y x + k - D y x = k by omega]
      exact pixVal_congr sel bs m M _ k (fun j hj => hsel k j hk hj) hsrc
  · intro a ha
    have h0 := ha y0 x0 (Or.inr ⟨rfl, rfl⟩)
    unfold pixRef
    rw [if_neg (by omega)]
    exact h2 a (fun y x hd => ha y x (Or.inl hd))

theorem GridInv_congr (bd : Nat) (sel : Nat → Option Nat) (D S : Nat → Nat → Nat) (m M : Mem)
    (done done' : Nat → Nat → Prop) (h : ∀ y x, done y x ↔ done' y x)
    (hinv : GridInv bd sel D S m M done) : GridInv bd sel D S m M done' := by
  obtain ⟨h1, h2⟩ := hinv
  exact ⟨fun y x hd => h1 y x ((h y x).mpr hd),
    fun a ha => h2 a (fun y x hd => ha y x ((h y x).mp hd))⟩

/-- A grid of `height` rows of `width` pixel conversions, carried out row by
row, leaves every pixel converted from the initial memory and changes nothing
else, when no destination pixel overlaps a source pixel or another destination
pixel. -/
theorem grid_spec (bd bs : Nat) (sel : Nat → Option Nat) (D S : Nat → Nat → Nat)
    (height width : Nat) (op : Nat → Nat → Mem → Mem) (m : Mem)
    (hsel : ∀ k j, k < bd → sel k = some j → j < bs)
    (hop : ∀ y x, y < height → x < width → ∀ M,
      op y x M = pixRef bd sel M (D y x) (S y x))
    (hDS : ∀ y x y' x', y < height → x < width → y' < height → x' < width →
      D y x + bd ≤ S y' x' ∨ S y' x' + bs ≤ D y x)
    (hDD : ∀ y x y' x', y < height → x < width → y' < height → x' < width →
      (y ≠ y' ∨ x ≠ x') → D y x + bd ≤ D y' x' ∨ D y' x' + bd ≤ D y x) :
    GridInv bd sel D S m
      (forLoop height (fun y acc => forLoop width (fun x acc2 => op y x acc2) acc) m)
      (fun y x => y < height ∧ x < width) := by
  suffices hrows : ∀ n, n ≤ height → GridInv bd sel D S m
      (forLoop n (fun y acc => forLoop width (fun x acc2 => op y x acc2) acc) m)
      (fun y x => y < n ∧ x < width) from hrows height (le_refl _)
  intro n
  induction n with
  | zero =>
    intro _
    exact ⟨fun y x hd => by omega, fun a _ => rfl⟩
  | succ n ih =>
    intro hn
    rw [forLoop_succ]
    have ihn := ih (by omega)
    generalize forLoop n (fun y acc => forLoop width (fun x acc2 => op y x acc2) acc) m = M0
      at ihn ⊢
    suffices hcols : ∀ j, j ≤ width → GridInv bd sel D S m
        (forLoop j (fun x acc2 => op n x acc2) M0)
        (fun y x => (y < n ∧ x < width) ∨ (y = n ∧ x < j)) by
      refine GridInv_congr _ _ _ _ _ _ _ _ ?_ (hcols width (le_refl _))
      intro y x
      constructor
      · rintro (h | h) <;> omega
      · intro h
        by_cases hy : y < n
        · exact Or.inl ⟨hy, h.2⟩
        · exact Or.inr ⟨by omega, h.2⟩
    intro j
    induction j with
    | zero =>
      intro _
      refine GridInv_congr _ _ _ _ _ _ _ _ ?_ ihn
      intro y x
      constructor
      · intro h; exact Or.inl h
      · rintro (h | h)
        · exact h
        · omega
    | succ j ihj =>
      intro hj
      rw [forLoop_succ, hop n j (by omega) (by omega)]
      refine GridInv_congr _ _ _ _ _ _ _ _ ?_
        (GridInv_step bd bs sel D S m _ _ n j hsel (ihj (by omega)) ?_ ?_)
      · intro y x
        constructor
        · rintro ((h | h) | h)
          · exact Or.inl h
          · exact Or.inr ⟨h.1, by omega⟩
          · exact Or.inr ⟨h.1, by omega⟩
        · rintro (h | h)
          · exact Or.inl (Or.inl h)
          · by_cases hx : x < j
            · exact Or.inl (Or.inr ⟨h.1, hx⟩)
            · exact Or.inr ⟨h.1, by omega⟩
      · intro y x hd
        exact hDS y x n j (by omega) (by omega) (by omega) (by omega)
      · intro y x hd
        exact hDD y x n j (by omega) (by omega) (by omega) (by omega) (by omega)

theorem toNat_off0 (p : Nat) : ((p : Int) + 0).toNat = p := by omega
theorem toNat_off1 (p : Nat) : ((p : Int) + 1).toNat = p + 1 := by omega
theorem toNat_off2 (p : Nat) : ((p : Int) + 2).toNat = p + 2 := by omega
theorem toNat_off3 (p : Nat) : ((p : Int) + 3).toNat = p + 3 := by omega

theorem pixRef_apply_in (bd : Nat) (sel : Nat → Option Nat) (m : Mem) (d s a : Nat)
    (h1 : d ≤ a) (h2 : a < d + bd) : pixRef bd sel m d s a = pixVal sel m s (a - d) := by
  simp [pixRef, h1, h2]

theorem pixRef_apply_out (bd : Nat) (sel : Nat → Option Nat) (m : Mem) (d s a : Nat)
    (h : a < d ∨ d + bd ≤ a) : pixRef bd sel m d s a = m a := by
  unfold pixRef
  rw [if_neg]
  omega

theorem rgb2rgba_pixel_eq (x D S : Nat) (m : Mem) (h : D + 4 ≤ S ∨ S + 3 ≤ D) :
    rgb2rgba_pixel x (S : Int) (D : Int) m = pixRef 4 selKeep m D S := by
  funext a
  simp only [rgb2rgba_pixel, assign, poke, peek, toNat_off0, toNat_off1, toNat_off2, toNat_off3]
  by_cases h3 : a = D + 3
  · subst h3; rw [pixRef_apply_in _ _ _ _ _ _ (by omega) (by omega)]
    simp [pixVal, selKeep]
  by_cases h2 : a = D + 2
  · subst h2; rw [pixRef_apply_in _ _ _ _ _ _ (by omega) (by omega)]
    simp [pixVal, selKeep]
    split_ifs <;> first | rfl | omega
  by_cases h1 : a = D + 1
  · subst h1; rw [pixRef_apply_in _ _ _ _ _ _ (by omega) (by omega)]
    simp [pixVal, selKeep]
    intro hh; omega
  by_cases h0 : a = D
  · subst h0; rw [pixRef_apply_in _ _ _ _ _ _ (by omega) (by omega)]
    simp [pixVal, selKeep]
  · rw [pixRef_apply_out _ _ _ _ _ _ (by omega)]
    simp [h3, h2, h1, h0]

theorem bgr2rgba_pixel_eq (x D S : Nat) (m : Mem) (h : D + 4 ≤ S ∨ S + 3 ≤ D) :
    bgr2rgba_pixel x (S : Int) (D : Int) m = pixRef 4 selSwap m D S := by
  funext a
  simp only [bgr2rgba_pixel, assign, poke, peek, toNat_off0, toNat_off1, toNat_off2, toNat_off3]
  by_cases h3 : a = D + 3
  · subst h3; rw [pixRef_apply_in _ _ _ _ _ _ (by omega) (by omega)]
    simp [pixVal, selSwap]
  by_cases h2 : a = D + 2
  · subst h2; rw [pixRef_apply_in _ _ _ _ _ _ (by omega) (by omega)]
    simp [pixVal, selSwap]
    split_ifs <;> first | rfl | omega
  by_cases h1 : a = D + 1
  · subst h1; rw [pixRef_apply_in _ _ _ _ _ _ (by omega) (by omega)]
    simp [pixVal, selSwap]
    intro hh; omega
  by_cases h0 : a = D
  · subst h0; rw [pixRef_apply_in _ _ _ _ _ _ (by omega) (by omega)]
    simp [pixVal, selSwap]
  · rw [pixRef_apply_out _ _ _ _ _ _ (by omega)]
    simp [h3, h2, h1, h0]

theorem rgba2bgr_pixel_eq (x D S : Nat) (m : Mem) (h : D + 3 ≤ S ∨ S + 4 ≤ D) :
    rgba2bgr_pixel x (S : Int) (D : Int) m = pixRef 3 selSwap m D S := by
  funext a
  simp only [rgba2bgr_pixel, assign, poke, peek, toNat_off0, toNat_off1, toNat_off2]
  by_cases h2 : a = D + 2
  · subst h2; rw [pixRef_apply_in _ _ _ _ _ _ (by omega) (by omega)]
    simp [pixVal, selSwap]
    split_ifs <;> first | rfl | omega
  by_cases h1 : a = D + 1
  · subst h1; rw [pixRef_apply_in _ _ _ _ _ _ (by omega) (by omega)]
    simp [pixVal, selSwap]
    intro hh; omega
  by_cases h0 : a = D
  · subst h0; rw [pixRef_apply_in _ _ _ _ _ _ (by omega) (by omega)]
    simp [pixVal, selSwap]
  · rw [pixRef_apply_out _ _ _ _ _ _ (by omega)]
    simp [h2, h1, h0]

theorem rgba2bgr_rgba_pitch_pixel_eq (x D S : Nat) (m : Mem) (h : D + 3 ≤ S ∨ S + 4 ≤ D) :
    rgba2bgr_rgba_pitch_pixel x (S : Int) (D : Int) m = pixRef 3 selSwap m D S := by
  funext a
  simp only [rgba2bgr_rgba_pitch_pixel, assign, poke, peek, toNat_off0, toNat_off1, toNat_off2]
  by_cases h0 : a = D
  · subst h0; rw [pixRef_apply_in _ _ _ _ _ _ (by omega) (by omega)]
    simp [pixVal, selSwap]
    split_ifs <;> first | rfl | omega
  by_cases h1 : a = D + 1
  · subst h1; rw [pixRef_apply_in _ _ _ _ _ _ (by omega) (by omega)]
    simp [pixVal, selSwap]
    intro hh; omega
  by_cases h2 : a = D + 2
  · subst h2; rw [pixRef_apply_in _ _ _ _ _ _ (by omega) (by omega)]
    simp [pixVal, selSwap]
  · rw [pixRef_apply_out _ _ _ _ _ _ (by omega)]
    simp [h2, h1, h0]

theorem bgra2bgr_pixel_eq (x D S : Nat) (m : Mem) (h : D + 3 ≤ S ∨ S + 4 ≤ D) :
    bgra2bgr_pixel x (S : Int) (D : Int) m = pixRef 3 selKeep m D S := by
  funext a
  simp only [bgra2bgr_pixel, assign, poke, peek, toNat_off0, toNat_off1, toNat_off2]
  by_cases h0 : a = D
  · subst h0; rw [pixRef_apply_in _ _ _ _ _ _ (by omega) (by omega)]
    simp [pixVal, selKeep]
    split_ifs <;> first | rfl | omega
  by_cases h1 : a = D + 1
  · subst h1; rw [pixRef_apply_in _ _ _ _ _ _ (by omega) (by omega)]
    simp [pixVal, selKeep]
    intro hh; omega
  by_cases h2 : a = D + 2
  · subst h2; rw [pixRef_apply_in _ _ _ _ _ _ (by omega) (by omega)]
    simp [pixVal, selKeep]
  · rw [pixRef_apply_out _ _ _ _ _ _ (by omega)]
    simp [h2, h1, h0]

theorem bgr2rgba_dest_pitch_pixel_eq (x D S : Nat) (m : Mem) (h : D + 4 ≤ S ∨ S + 3 ≤ D) :
    bgr2rgba_dest_pitch_pixel x (S : Int) (D : Int) m = pixRef 4 selKeep m D S :=
  rgb2rgba_pixel_eq x D S m h

theorem bgr2bgra_pixel_eq (x D S : Nat) (m : Mem) (h : D + 4 ≤ S ∨ S + 3 ≤ D) :
    bgr2bgra_pixel x (S : Int) (D : Int) m = pixRef 4 selKeep m D S :=
  rgb2rgba_pixel_eq x D S m h

theorem rgb2bgra_pixel_eq (x D S : Nat) (m : Mem) (h : D + 4 ≤ S ∨ S + 3 ≤ D) :
    rgb2bgra_pixel x (S : Int) (D : Int) m = pixRef 4 selSwap m D S :=
  bgr2rgba_pixel_eq x D S m h

theorem bgra2rgb_pixel_eq (x D S : Nat) (m : Mem) (h : D + 3 ≤ S ∨ S + 4 ≤ D) :
    bgra2rgb_pixel x (S : Int) (D : Int) m = pixRef 3 selSwap m D S :=
  rgba2bgr_pixel_eq x D S m h

theorem keep3_ascending (D S : Nat) (m : Mem) (h : D + 3 ≤ S ∨ S + 4 ≤ D) :
    assign (assign (assign m ((D : Int) + 0) ((S : Int) + 0)) ((D : Int) + 1) ((S : Int) + 1))
        ((D : Int) + 2) ((S : Int) + 2) = pixRef 3 selKeep m D S := by
  funext a
  simp only [assign, poke, peek, toNat_off0, toNat_off1, toNat_off2]
  by_cases h2 : a = D + 2
  · subst h2; rw [pixRef_apply_in _ _ _ _ _ _ (by omega) (by omega)]
    simp [pixVal, selKeep]
    split_ifs <;> first | rfl | omega
  by_cases h1 : a = D + 1
  · subst h1; rw [pixRef_apply_in _ _ _ _ _ _ (by omega) (by omega)]
    simp [pixVal, selKeep]
    intro hh; omega
  by_cases h0 : a = D
  · subst h0; rw [pixRef_apply_in _ _ _ _ _ _ (by omega) (by omega)]
    simp [pixVal, selKeep]
  · rw [pixRef_apply_out _ _ _ _ _ _ (by omega)]
    simp [h2, h1, h0]

theorem rgba2rgb_pixel_eq (width x D S : Nat) (bMirror bSwapRB : Bool) (m : Mem)
    (hx : x < width) (hw : width * 3 < 4294967296)
    (h : D + 3 * colOf width bMirror x + 3 ≤ S ∨ S + 4 ≤ D + 3 * colOf width bMirror x) :
    rgba2rgb_pixel width bMirror (if bSwapRB then 2 else 0) 1 (if bSwapRB then 0 else 2) x
        (S : Int) (D : Int) m =
      pixRef 3 (if bSwapRB then selSwap else selKeep) m (D + 3 * colOf width bMirror x) S := by
  have ez : ∀ z : Nat, (D : Int) + (z : Int) = ((D + z : Nat) : Int) := fun z => by push_cast; rfl
  have e1 : u32 (usub32 (usub32 width x) 1 * 3) = 3 * (width - 1 - x) := by
    unfold u32 usub32; omega
  have e2 : u32 (x * 3) = 3 * x := by unfold u32; omega
  cases bMirror <;> cases bSwapRB <;>
    simp only [rgba2rgb_pixel, colOf, e1, e2, ez, if_true, if_false, Bool.false_eq_true] at h ⊢
  · exact keep3_ascending _ _ _ h
  · exact rgba2bgr_rgba_pitch_pixel_eq 0 _ _ _ h
  · exact keep3_ascending _ _ _ h
  · exact rgba2bgr_rgba_pitch_pixel_eq 0 _ _ _ h

theorem mul_step (y y' p : Nat) (h : y < y') : y * p + p ≤ y' * p := by
  have := Nat.mul_le_mul_right p (show y + 1 ≤ y' from h)
  rw [Nat.succ_mul] at this
  exact this

theorem rowOf_lt (height : Nat) (bInvert : Bool) (y : Nat) (hy : y < height) :
    rowOf height bInvert y < height := by
  unfold rowOf
  split_ifs <;> omega

theorem rowOf_inj (height : Nat) (bInvert : Bool) (y y' : Nat) (hy : y < height)
    (hy' : y' < height) (h : rowOf height bInvert y = rowOf height bInvert y') : y = y' := by
  unfold rowOf at h
  split_ifs at h <;> omega

theorem colOf_lt (width : Nat) (bMirror : Bool) (x : Nat) (hx : x < width) :
    colOf width bMirror x < width := by
  unfold colOf
  split_ifs <;> omega

theorem colOf_inj (width : Nat) (bMirror : Bool) (x x' : Nat) (hx : x < width)
    (hx' : x' < width) (h : colOf width bMirror x = colOf width bMirror x') : x = x' := by
  unfold colOf at h
  split_ifs at h <;> omega

/-- The pointer of the 3-channel image at row `y`, column `x` of the walk. -/
theorem rgb_pointer (p width height : Nat) (bInvert : Bool) (y x : Nat) (hy : y < height)
    (hsz : width * height * 3 < 18446744073709551616) :
    startRGB p (u64 (width * height * 3)) (width * 3) bInvert +
        (y : Int) * ((width : Int) * 3 + invertStep (width * 3) bInvert) + (x : Int) * 3 =
      ((p + rowOf height bInvert y * (3 * width) + 3 * x : Nat) : Int) := by
  have e : u64 (width * height * 3) = width * height * 3 := by unfold u64; omega
  cases bInvert
  · simp only [startRGB, invertStep, rowOf, Bool.false_eq_true, if_false]
    push_cast
    ring
  · simp only [startRGB, invertStep, rowOf, if_true, e]
    have hc : ((height - 1 - y : Nat) : Int) = (height : Int) - 1 - (y : Int) := by omega
    push_cast
    rw [hc]
    ring

/-- Two distinct cells of a grid with `b`-byte cells, `w` cells per row and
rows `p >= b * w` bytes apart do not overlap. -/
theorem cell_disjoint3 (base p w r c r' c' : Nat) (hp : 3 * w ≤ p) (hc : c < w) (hc' : c' < w)
    (hne : r ≠ r' ∨ c ≠ c') :
    base + r * p + 3 * c + 3 ≤ base + r' * p + 3 * c' ∨
      base + r' * p + 3 * c' + 3 ≤ base + r * p + 3 * c := by
  rcases Nat.lt_trichotomy r r' with h | h | h
  · have := mul_step r r' p h; omega
  · subst h; omega
  · have := mul_step r' r p h; omega

theorem cell_disjoint4 (base p w r c r' c' : Nat) (hp : 4 * w ≤ p) (hc : c < w) (hc' : c' < w)
    (hne : r ≠ r' ∨ c ≠ c') :
    base + r * p + 4 * c + 4 ≤ base + r' * p + 4 * c' ∨
      base + r' * p + 4 * c' + 4 ≤ base + r * p + 4 * c := by
  rcases Nat.lt_trichotomy r r' with h | h | h
  · have := mul_step r r' p h; omega
  · subst h; omega
  · have := mul_step r' r p h; omega

/-- The common shape of the 3-channel to 4-channel converters: destination
rows `4 * width + pad` bytes apart, the source row chosen by `rowOf`. -/
theorem conv34_spec (body : Nat → Int → Int → Mem → Mem) (sel : Nat → Option Nat)
    (hsel : ∀ k j, k < 4 → sel k = some j → j < 3)
    (hbody : ∀ (x D S : Nat) (M : Mem), (D + 4 ≤ S ∨ S + 3 ≤ D) →
      body x (S : Int) (D : Int) M = pixRef 4 sel M D S)
    (m : Mem) (src dst width height pad : Nat) (bInvert : Bool)
    (hsz : width * height * 3 < 18446744073709551616)
    (hsep : src + 3 * (width * height) ≤ dst ∨ dst + height * (4 * width + pad) ≤ src) :
    GridInv 4 sel (fun y x => dst + y * (4 * width + pad) + 4 * x)
      (fun y x => src + rowOf height bInvert y * (3 * width) + 3 * x) m
      (convertLoop height width body 3 4 (invertStep (width * 3) bInvert) (pad : Nat)
        { mem := m, src := startRGB src (u64 (width * height * 3)) (width * 3) bInvert,
          dst := dst }).mem
      (fun y x => y < height ∧ x < width) := by
  rw [convertLoop_eq]
  have hDS : ∀ y x y' x', y < height → x < width → y' < height → x' < width →
      dst + y * (4 * width + pad) + 4 * x + 4 ≤
          src + rowOf height bInvert y' * (3 * width) + 3 * x' ∨
        src + rowOf height bInvert y' * (3 * width) + 3 * x' + 3 ≤
          dst + y * (4 * width + pad) + 4 * x := by
    intro y x y' x' hy hx hy' hx'
    have h1 := mul_step y height (4 * width + pad) hy
    have h2 := mul_step _ height (3 * width) (rowOf_lt height bInvert y' hy')
    have h3 : height * (3 * width) = 3 * (width * height) := by ring
    omega
  refine grid_spec 4 3 sel _ _ height width
    (fun y x M => body x
      (startRGB src (u64 (width * height * 3)) (width * 3) bInvert +
        (y : Int) * ((width : Int) * 3 + invertStep (width * 3) bInvert) + (x : Int) * 3)
      ((dst : Int) + (y : Int) * ((width : Int) * 4 + ((pad : Nat) : Int)) + (x : Int) * 4) M)
    m hsel ?_ hDS ?_
  · intro y x hy hx M
    have hd : (dst : Int) + (y : Int) * ((width : Int) * 4 + ((pad : Nat) : Int)) + (x : Int) * 4 =
        ((dst + y * (4 * width + pad) + 4 * x : Nat) : Int) := by
      push_cast
      ring
    simp only [rgb_pointer src width height bInvert y x hy hsz, hd]
    exact hbody x _ _ M (hDS y x y x hy hx hy hx)
  · intro y x y' x' hy hx hy' hx' hne
    exact cell_disjoint4 dst (4 * width + pad) width y x y' x' (by omega) hx hx' hne

/-- The common shape of the 4-channel to 3-channel converters: source rows
`4 * width + pad` bytes apart, the destination row chosen by `rowOf`. -/
theorem conv43_spec (body : Nat → Int → Int → Mem → Mem) (sel : Nat → Option Nat)
    (hsel : ∀ k j, k < 3 → sel k = some j → j < 4)
    (hbody : ∀ (x D S : Nat) (M : Mem), (D + 3 ≤ S ∨ S + 4 ≤ D) →
      body x (S : Int) (D : Int) M = pixRef 3 sel M D S)
    (m : Mem) (src dst width height pad : Nat) (bInvert : Bool)
    (hsz : width * height * 3 < 18446744073709551616)
    (hsep : src + height * (4 * width + pad) ≤ dst ∨ dst + 3 * (width * height) ≤ src) :
    GridInv 3 sel (fun y x => dst + rowOf height bInvert y * (3 * width) + 3 * x)
      (fun y x => src + y * (4 * width + pad) + 4 * x) m
      (convertLoop height width body 4 3 (pad : Nat) (invertStep (width * 3) bInvert)
        { mem := m, src := src,
          dst := startRGB dst (u64 (width * height * 3)) (width * 3) bInvert }).mem
      (fun y x => y < height ∧ x < width) := by
  rw [convertLoop_eq]
  have hDS : ∀ y x y' x', y < height → x < width → y' < height → x' < width →
      dst + rowOf height bInvert y * (3 * width) + 3 * x + 3 ≤
          src + y' * (4 * width + pad) + 4 * x' ∨
        src + y' * (4 * width + pad) + 4 * x' + 4 ≤
          dst + rowOf height bInvert y * (3 * width) + 3 * x := by
    intro y x y' x' hy hx hy' hx'
    have h1 := mul_step y' height (4 * width + pad) hy'
    have h2 := mul_step _ height (3 * width) (rowOf_lt height bInvert y hy)
    have h3 : height * (3 * width) = 3 * (width * height) := by ring
    omega
  refine grid_spec 3 4 sel _ _ height width
    (fun y x M => body x
      ((src : Int) + (y : Int) * ((width : Int) * 4 + ((pad : Nat) : Int)) + (x : Int) * 4)
      (startRGB dst (u64 (width * height * 3)) (width * 3) bInvert +
        (y : Int) * ((width : Int) * 3 + invertStep (width * 3) bInvert) + (x : Int) * 3) M)
    m hsel ?_ hDS ?_
  · intro y x hy hx M
    have hs : (src : Int) + (y : Int) * ((width : Int) * 4 + ((pad : Nat) : Int)) + (x : Int) * 4 =
        ((src + y * (4 * width + pad) + 4 * x : Nat) : Int) := by
      push_cast
      ring
    simp only [rgb_pointer dst width height bInvert y x hy hsz, hs]
    exact hbody x _ _ M (hDS y x y x hy hx hy hx)
  · intro y x y' x' hy hx hy' hx' hne
    refine cell_disjoint3 dst (3 * width) width _ x _ x' (by omega) hx hx' ?_
    rcases hne with h | h
    · exact Or.inl (fun e => h (rowOf_inj height bInvert y y' hy hy' e))
    · exact Or.inr h

/-- The shape of `rgba2rgb`: as `conv43_spec`, with the destination column
chosen by `colOf` and the channel order by `bSwapRB`. -/
theorem rgba2rgb_spec (m : Mem) (src dst width height pad : Nat)
    (bInvert bMirror bSwapRB : Bool) (hw : width * 3 < 4294967296)
    (hsz : width * height * 3 < 18446744073709551616)
    (hsep : src + height * (4 * width + pad) ≤ dst ∨ dst + 3 * (width * height) ≤ src) :
    GridInv 3 (if bSwapRB then selSwap else selKeep)
      (fun y x => dst + rowOf height bInvert y * (3 * width) + 3 * colOf width bMirror x)
      (fun y x => src + y * (4 * width + pad) + 4 * x) m
      (convertLoop height width
        (rgba2rgb_pixel width bMirror (if bSwapRB then 2 else 0) 1 (if bSwapRB then 0 else 2))
        4 0 (pad : Nat) ((width * 3 : Nat) + invertStep (width * 3) bInvert)
        { mem := m, src := src,
          dst := startRGB dst (u64 (width * height * 3)) (width * 3) bInvert }).mem
      (fun y x => y < height ∧ x < width) := by
  rw [convertLoop_eq]
  have hDS : ∀ y x y' x', y < height → x < width → y' < height → x' < width →
      dst + rowOf height bInvert y * (3 * width) + 3 * colOf width bMirror x + 3 ≤
          src + y' * (4 * width + pad) + 4 * x' ∨
        src + y' * (4 * width + pad) + 4 * x' + 4 ≤
          dst + rowOf height bInvert y * (3 * width) + 3 * colOf width bMirror x := by
    intro y x y' x' hy hx hy' hx'
    have h1 := mul_step y' height (4 * width + pad) hy'
    have h2 := mul_step _ height (3 * width) (rowOf_lt height bInvert y hy)
    have h3 : height * (3 * width) = 3 * (width * height) := by ring
    have h4 := colOf_lt width bMirror x hx
    omega
  have hsel : ∀ k j, k < 3 → (if bSwapRB then selSwap else selKeep) k = some j → j < 4 := by
    intro k j hk hj
    cases bSwapRB <;> simp [selSwap, selKeep, hk] at hj <;> omega
  refine grid_spec 3 4 _ _ _ height width
    (fun y x M => rgba2rgb_pixel width bMirror (if bSwapRB then 2 else 0) 1
        (if bSwapRB then 0 else 2) x
      ((src : Int) + (y : Int) * ((width : Int) * 4 + ((pad : Nat) : Int)) + (x : Int) * 4)
      (startRGB dst (u64 (width * height * 3)) (width * 3) bInvert +
        (y : Int) * ((width : Int) * 0 + (((width * 3 : Nat) : Int) +
          invertStep (width * 3) bInvert)) + (x : Int) * 0) M)
    m hsel ?_ hDS ?_
  · intro y x hy hx M
    have hs : (src : Int) + (y : Int) * ((width : Int) * 4 + ((pad : Nat) : Int)) + (x : Int) * 4 =
        ((src + y * (4 * width + pad) + 4 * x : Nat) : Int) := by
      push_cast
      ring
    have hd : startRGB dst (u64 (width * height * 3)) (width * 3) bInvert +
        (y : Int) * ((width : Int) * 0 + (((width * 3 : Nat) : Int) +
          invertStep (width * 3) bInvert)) + (x : Int) * 0 =
        ((dst + rowOf height bInvert y * (3 * width) : Nat) : Int) := by
      have := rgb_pointer dst width height bInvert y 0 hy hsz
      simp only [Nat.mul_zero, Nat.add_zero] at this
      rw [← this]
      push_cast
      ring
    simp only [hs, hd]
    exact rgba2rgb_pixel_eq width x _ _ bMirror bSwapRB M hx hw (hDS y x y x hy hx hy hx)
  · intro y x y' x' hy hx hy' hx' hne
    refine cell_disjoint3 dst (3 * width) width _ _ _ _ (by omega)
      (colOf_lt width bMirror x hx) (colOf_lt width bMirror x' hx') ?_
    rcases hne with h | h
    · exact Or.inl (fun e => h (rowOf_inj height bInvert y y' hy hy' e))
    · exact Or.inr (fun e => h (colOf_inj width bMirror x x' hx hx' e))

theorem selKeep_lt (bs : Nat) (hbs : 3 ≤ bs) (k j : Nat) (h : selKeep k = some j) : j < bs := by
  unfold selKeep at h
  split_ifs at h with hk
  simp at h
  omega

theorem selSwap_lt (bs : Nat) (hbs : 3 ≤ bs) (k j : Nat) (h : selSwap k = some j) : j < bs := by
  unfold selSwap at h
  split_ifs at h with hk
  simp at h
  omega

theorem usub64_of_le (a b : Nat) (hb : b ≤ a) (ha : a < 18446744073709551616) :
    usub64 a b = a - b := by
  unfold usub64
  omega

/-- The four bytes of a pixel converted with `selKeep`. -/
theorem GridInv_keep4 (D S : Nat → Nat → Nat) (m M : Mem) (done : Nat → Nat → Prop)
    (h : GridInv 4 selKeep D S m M done) (y x : Nat) (hd : done y x) :
    M (D y x) = m (S y x) ∧ M (D y x + 1) = m (S y x + 1) ∧
    M (D y x + 2) = m (S y x + 2) ∧ M (D y x + 3) = 255 := by
  have h0 := h.1 y x hd 0 (by omega)
  have h1 := h.1 y x hd 1 (by omega)
  have h2 := h.1 y x hd 2 (by omega)
  have h3 := h.1 y x hd 3 (by omega)
  simp [pixVal, selKeep] at h0 h1 h2 h3
  exact ⟨h0, h1, h2, h3⟩

/-- The four bytes of a pixel converted with `selSwap`. -/
theorem GridInv_swap4 (D S : Nat → Nat → Nat) (m M : Mem) (done : Nat → Nat → Prop)
    (h : GridInv 4 selSwap D S m M done) (y x : Nat) (hd : done y x) :
    M (D y x) = m (S y x + 2) ∧ M (D y x + 1) = m (S y x + 1) ∧
    M (D y x + 2) = m (S y x) ∧ M (D y x + 3) = 255 := by
  have h0 := h.1 y x hd 0 (by omega)
  have h1 := h.1 y x hd 1 (by omega)
  have h2 := h.1 y x hd 2 (by omega)
  have h3 := h.1 y x hd 3 (by omega)
  simp [pixVal, selSwap] at h0 h1 h2 h3
  exact ⟨h0, h1, h2, h3⟩

/-- The three bytes of a pixel converted with `selKeep`. -/
theorem GridInv_keep3 (D S : Nat → Nat → Nat) (m M : Mem) (done : Nat → Nat → Prop)
    (h : GridInv 3 selKeep D S m M done) (y x : Nat) (hd : done y x) :
    M (D y x) = m (S y x) ∧ M (D y x + 1) = m (S y x + 1) ∧
    M (D y x + 2) = m (S y x + 2) := by
  have h0 := h.1 y x hd 0 (by omega)
  have h1 := h.1 y x hd 1 (by omega)
  have h2 := h.1 y x hd 2 (by omega)
  simp [pixVal, selKeep] at h0 h1 h2
  exact ⟨h0, h1, h2⟩

/-- The three bytes of a pixel converted with `selSwap`. -/
theorem GridInv_swap3 (D S : Nat → Nat → Nat) (m M : Mem) (done : Nat → Nat → Prop)
    (h : GridInv 3 selSwap D S m M done) (y x : Nat) (hd : done y x) :
    M (D y x) = m (S y x + 2) ∧ M (D y x + 1) = m (S y x + 1) ∧
    M (D y x + 2) = m (S y x) := by
  have h0 := h.1 y x hd 0 (by omega)
  have h1 := h.1 y x hd 1 (by omega)
  have h2 := h.1 y x hd 2 (by omega)
  simp [pixVal, selSwap] at h0 h1 h2
  exact ⟨h0, h1, h2⟩

theorem rgb2rgba_grid (m : Mem) (src dst width height : Nat) (bInvert : Bool)
    (hsrc : src ≠ 0) (hdst : dst ≠ 0) (hsz : width * height * 3 < 18446744073709551616)
    (hsep : src + 3 * (width * height) ≤ dst ∨ dst + height * (4 * width) ≤ src) :
    GridInv 4 selKeep (fun y x => dst + y * (4 * width) + 4 * x)
      (fun y x => src + rowOf height bInvert y * (3 * width) + 3 * x) m
      (rgb2rgba m src dst width height bInvert) (fun y x => y < height ∧ x < width) := by
  have := conv34_spec rgb2rgba_pixel selKeep (fun k j _ h => selKeep_lt 3 (by omega) k j h)
    rgb2rgba_pixel_eq m src dst width height 0 bInvert hsz (by simpa using hsep)
  simp only [Nat.add_zero, Nat.cast_zero] at this
  unfold rgb2rgba
  rw [if_neg (by omega)]
  exact this

theorem rgb2rgba_dest_pitch_grid (m : Mem) (src dst width height dest_pitch : Nat)
    (bInvert : Bool) (hsrc : src ≠ 0) (hdst : dst ≠ 0)
    (hp : 4 * width ≤ dest_pitch) (hp32 : dest_pitch < 4294967296)
    (hsz : width * height * 3 < 18446744073709551616)
    (hsep : src + 3 * (width * height) ≤ dst ∨ dst + height * dest_pitch ≤ src) :
    GridInv 4 selKeep (fun y x => dst + y * dest_pitch + 4 * x)
      (fun y x => src + rowOf height bInvert y * (3 * width) + 3 * x) m
      (rgb2rgba_dest_pitch m src dst width height dest_pitch bInvert)
      (fun y x => y < height ∧ x < width) := by
  have e : 4 * width + usub64 dest_pitch (width * 4) = dest_pitch := by
    rw [usub64_of_le _ _ (by omega) (by omega)]; omega
  have := conv34_spec rgb2rgba_pixel selKeep (fun k j _ h => selKeep_lt 3 (by omega) k j h)
    rgb2rgba_pixel_eq m src dst width height (usub64 dest_pitch (width * 4)) bInvert hsz
    (by rw [e]; exact hsep)
  simp only [e] at this
  unfold rgb2rgba_dest_pitch
  rw [if_neg (by omega)]
  exact this

theorem bgr2rgba_grid (m : Mem) (src dst width height : Nat) (bInvert : Bool)
    (hsrc : src ≠ 0) (hdst : dst ≠ 0) (hsz : width * height * 3 < 18446744073709551616)
    (hsep : src + 3 * (width * height) ≤ dst ∨ dst + height * (4 * width) ≤ src) :
    GridInv 4 selSwap (fun y x => dst + y * (4 * width) + 4 * x)
      (fun y x => src + rowOf height bInvert y * (3 * width) + 3 * x) m
      (bgr2rgba m src dst width height bInvert) (fun y x => y < height ∧ x < width) := by
  have := conv34_spec bgr2rgba_pixel selSwap (fun k j _ h => selSwap_lt 3 (by omega) k j h)
    bgr2rgba_pixel_eq m src dst width height 0 bInvert hsz (by simpa using hsep)
  simp only [Nat.add_zero, Nat.cast_zero] at this
  unfold bgr2rgba
  rw [if_neg (by omega)]
  exact this

theorem bgr2rgba_dest_pitch_grid (m : Mem) (src dst width height dest_pitch : Nat)
    (bInvert : Bool) (hsrc : src ≠ 0) (hdst : dst ≠ 0)
    (hp : 4 * width ≤ dest_pitch) (hp32 : dest_pitch < 4294967296)
    (hsz : width * height * 3 < 18446744073709551616)
    (hsep : src + 3 * (width * height) ≤ dst ∨ dst + height * dest_pitch ≤ src) :
    GridInv 4 selKeep (fun y x => dst + y * dest_pitch + 4 * x)
      (fun y x => src + rowOf height bInvert y * (3 * width) + 3 * x) m
      (bgr2rgba_dest_pitch m src dst width height dest_pitch bInvert)
      (fun y x => y < height ∧ x < width) := by
  have e : 4 * width + usub64 dest_pitch (width * 4) = dest_pitch := by
    rw [usub64_of_le _ _ (by omega) (by omega)]; omega
  have := conv34_spec bgr2rgba_dest_pitch_pixel selKeep (fun k j _ h => selKeep_lt 3 (by omega) k j h)
    bgr2rgba_dest_pitch_pixel_eq m src dst width height (usub64 dest_pitch (width * 4)) bInvert hsz
    (by rw [e]; exact hsep)
  simp only [e] at this
  unfold bgr2rgba_dest_pitch
  rw [if_neg (by omega)]
  exact this

theorem rgb2bgra_grid (m : Mem) (src dst width height : Nat) (bInvert : Bool)
    (hsrc : src ≠ 0) (hdst : dst ≠ 0) (hsz : width * height * 3 < 18446744073709551616)
    (hsep : src + 3 * (width * height) ≤ dst ∨ dst + height * (4 * width) ≤ src) :
    GridInv 4 selSwap (fun y x => dst + y * (4 * width) + 4 * x)
      (fun y x => src + rowOf height bInvert y * (3 * width) + 3 * x) m
      (rgb2bgra m src dst width height bInvert) (fun y x => y < height ∧ x < width) := by
  have := conv34_spec rgb2bgra_pixel selSwap (fun k j _ h => selSwap_lt 3 (by omega) k j h)
    rgb2bgra_pixel_eq m src dst width height 0 bInvert hsz (by simpa using hsep)
  simp only [Nat.add_zero, Nat.cast_zero] at this
  unfold rgb2bgra
  rw [if_neg (by omega)]
  exact this

theorem rgb2bgra_dest_pitch_grid (m : Mem) (src dst width height dest_pitch : Nat)
    (bInvert : Bool) (hsrc : src ≠ 0) (hdst : dst ≠ 0)
    (hp : 4 * width ≤ dest_pitch) (hp32 : dest_pitch < 4294967296)
    (hsz : width * height * 3 < 18446744073709551616)
    (hsep : src + 3 * (width * height) ≤ dst ∨ dst + height * dest_pitch ≤ src) :
    GridInv 4 selSwap (fun y x => dst + y * dest_pitch + 4 * x)
      (fun y x => src + rowOf height bInvert y * (3 * width) + 3 * x) m
      (rgb2bgra_dest_pitch m src dst width height dest_pitch bInvert)
      (fun y x => y < height ∧ x < width) := by
  have e : 4 * width + usub64 dest_pitch (width * 4) = dest_pitch := by
    rw [usub64_of_le _ _ (by omega) (by omega)]; omega
  have := conv34_spec rgb2bgra_pixel selSwap (fun k j _ h => selSwap_lt 3 (by omega) k j h)
    rgb2bgra_pixel_eq m src dst width height (usub64 dest_pitch (width * 4)) bInvert hsz
    (by rw [e]; exact hsep)
  simp only [e] at this
  unfold rgb2bgra_dest_pitch
  rw [if_neg (by omega)]
  exact this

theorem bgr2bgra_grid (m : Mem) (src dst width height : Nat) (bInvert : Bool)
    (hsrc : src ≠ 0) (hdst : dst ≠ 0) (hsz : width * height * 3 < 18446744073709551616)
    (hsep : src + 3 * (width * height) ≤ dst ∨ dst + height * (4 * width) ≤ src) :
    GridInv 4 selKeep (fun y x => dst + y * (4 * width) + 4 * x)
      (fun y x => src + rowOf height bInvert y * (3 * width) + 3 * x) m
      (bgr2bgra m src dst width height bInvert) (fun y x => y < height ∧ x < width) := by
  have := conv34_spec bgr2bgra_pixel selKeep (fun k j _ h => selKeep_lt 3 (by omega) k j h)
    bgr2bgra_pixel_eq m src dst width height 0 bInvert hsz (by simpa using hsep)
  simp only [Nat.add_zero, Nat.cast_zero] at this
  unfold bgr2bgra
  rw [if_neg (by omega)]
  exact this

theorem rgba2bgr_grid (m : Mem) (src dst width height : Nat) (bInvert : Bool)
    (hsrc : src ≠ 0) (hdst : dst ≠ 0) (hsz : width * height * 3 < 18446744073709551616)
    (hsep : src + height * (4 * width) ≤ dst ∨ dst + 3 * (width * height) ≤ src) :
    GridInv 3 selSwap (fun y x => dst + rowOf height bInvert y * (3 * width) + 3 * x)
      (fun y x => src + y * (4 * width) + 4 * x) m
      (rgba2bgr m src dst width height bInvert) (fun y x => y < height ∧ x < width) := by
  have := conv43_spec rgba2bgr_pixel selSwap (fun k j _ h => selSwap_lt 4 (by omega) k j h)
    rgba2bgr_pixel_eq m src dst width height 0 bInvert hsz (by simpa using hsep)
  simp only [Nat.add_zero, Nat.cast_zero] at this
  unfold rgba2bgr
  rw [if_neg (by omega)]
  exact this

theorem rgba2bgr_rgba_pitch_grid (m : Mem) (src dst width height rgba_pitch : Nat)
    (bInvert : Bool) (hsrc : src ≠ 0) (hdst : dst ≠ 0)
    (hp : 4 * width ≤ rgba_pitch) (hp32 : rgba_pitch < 4294967296)
    (hsz : width * height * 3 < 18446744073709551616)
    (hsep : src + height * rgba_pitch ≤ dst ∨ dst + 3 * (width * height) ≤ src) :
    GridInv 3 selSwap (fun y x => dst + rowOf height bInvert y * (3 * width) + 3 * x)
      (fun y x => src + y * rgba_pitch + 4 * x) m
      (rgba2bgr_rgba_pitch m src dst width height rgba_pitch bInvert)
      (fun y x => y < height ∧ x < width) := by
  have e : 4 * width + usub64 rgba_pitch (width * 4) = rgba_pitch := by
    rw [usub64_of_le _ _ (by omega) (by omega)]; omega
  have := conv43_spec rgba2bgr_rgba_pitch_pixel selSwap (fun k j _ h => selSwap_lt 4 (by omega) k j h)
    rgba2bgr_rgba_pitch_pixel_eq m src dst width height (usub64 rgba_pitch (width * 4)) bInvert hsz
    (by rw [e]; exact hsep)
  simp only [e] at this
  unfold rgba2bgr_rgba_pitch
  rw [if_neg (by omega)]
  exact this

theorem bgra2rgb_grid (m : Mem) (src dst width height : Nat) (bInvert : Bool)
    (hsrc : src ≠ 0) (hdst : dst ≠ 0) (hsz : width * height * 3 < 18446744073709551616)
    (hsep : src + height * (4 * width) ≤ dst ∨ dst + 3 * (width * height) ≤ src) :
    GridInv 3 selSwap (fun y x => dst + rowOf height bInvert y * (3 * width) + 3 * x)
      (fun y x => src + y * (4 * width) + 4 * x) m
      (bgra2rgb m src dst width height bInvert) (fun y x => y < height ∧ x < width) := by
  have := conv43_spec bgra2rgb_pixel selSwap (fun k j _ h => selSwap_lt 4 (by omega) k j h)
    bgra2rgb_pixel_eq m src dst width height 0 bInvert hsz (by simpa using hsep)
  simp only [Nat.add_zero, Nat.cast_zero] at this
  unfold bgra2rgb
  rw [if_neg (by omega)]
  exact this

theorem bgra2bgr_grid (m : Mem) (src dst width height : Nat) (bInvert : Bool)
    (hsrc : src ≠ 0) (hdst : dst ≠ 0) (hsz : width * height * 3 < 18446744073709551616)
    (hsep : src + height * (4 * width) ≤ dst ∨ dst + 3 * (width * height) ≤ src) :
    GridInv 3 selKeep (fun y x => dst + rowOf height bInvert y * (3 * width) + 3 * x)
      (fun y x => src + y * (4 * width) + 4 * x) m
      (bgra2bgr m src dst width height bInvert) (fun y x => y < height ∧ x < width) := by
  have := conv43_spec bgra2bgr_pixel selKeep (fun k j _ h => selKeep_lt 4 (by omega) k j h)
    bgra2bgr_pixel_eq m src dst width height 0 bInvert hsz (by simpa using hsep)
  simp only [Nat.add_zero, Nat.cast_zero] at this
  unfold bgra2bgr
  rw [if_neg (by omega)]
  exact this

theorem rgba2rgb_grid (m : Mem) (src dst width height rgba_pitch : Nat)
    (bInvert bMirror bSwapRB : Bool) (hsrc : src ≠ 0) (hdst : dst ≠ 0)
    (hp : 4 * width ≤ rgba_pitch) (hp32 : rgba_pitch < 4294967296)
    (hsz : width * height * 3 < 18446744073709551616)
    (hsep : src + height * rgba_pitch ≤ dst ∨ dst + 3 * (width * height) ≤ src) :
    GridInv 3 (if bSwapRB then selSwap else selKeep)
      (fun y x => dst + rowOf height bInvert y * (3 * width) + 3 * colOf width bMirror x)
      (fun y x => src + y * rgba_pitch + 4 * x) m
      (rgba2rgb m src dst width height rgba_pitch bInvert bMirror bSwapRB)
      (fun y x => y < height ∧ x < width) := by
  have e : 4 * width + usub64 rgba_pitch (width * 4) = rgba_pitch := by
    rw [usub64_of_le _ _ (by omega) (by omega)]; omega
  have := rgba2rgb_spec m src dst width height (usub64 rgba_pitch (width * 4)) bInvert bMirror
    bSwapRB (by omega) hsz (by rw [e]; exact hsep)
  simp only [e] at this
  unfold rgba2rgb
  rw [if_neg (show ¬ (dst = 0 ∨ src = 0) by omega)]
  exact this

theorem rowOf_rowOf (height : Nat) (bInvert : Bool) (r : Nat) (hr : r < height) :
    rowOf height bInvert (rowOf height bInvert r) = r := by
  unfold rowOf
  split_ifs <;> omega

theorem GridInv_swapRB3 (bSwapRB : Bool) (D S : Nat → Nat → Nat) (m M : Mem)
    (done : Nat → Nat → Prop)
    (h : GridInv 3 (if bSwapRB then selSwap else selKeep) D S m M done) (y x : Nat)
    (hd : done y x) :
    M (D y x) = m (S y x + (if bSwapRB then 2 else 0)) ∧ M (D y x + 1) = m (S y x + 1) ∧
    M (D y x + 2) = m (S y x + (if bSwapRB then 0 else 2)) := by
  cases bSwapRB
  · simpa using GridInv_keep3 D S m M done (by simpa using h) y x hd
  · simpa using GridInv_swap3 D S m M done (by simpa using h) y x hd

theorem sep_pitch_34 (src dst width height pitch : Nat) (hp : 4 * width ≤ pitch)
    (hsep : src + 3 * (width * height) ≤ dst ∨ dst + height * pitch ≤ src) :
    src + 3 * (width * height) ≤ dst ∨ dst + height * (4 * width) ≤ src := by
  have := Nat.mul_le_mul_left height hp
  omega

theorem sep_pitch_43 (src dst width height pitch : Nat) (hp : 4 * width ≤ pitch)
    (hsep : src + height * pitch ≤ dst ∨ dst + 3 * (width * height) ≤ src) :
    src + height * (4 * width) ≤ dst ∨ dst + 3 * (width * height) ≤ src := by
  have := Nat.mul_le_mul_left height hp
  omega

theorem usub64_self (a b : Nat) (h : a = b) : usub64 a b = 0 := by
  unfold usub64
  omega

/-! ## Lemmas: dispatch, capability bits and row copies -/

theorem swapRB32_lt (w : Nat) (hw : w < 4294967296) : swapRB32 w < 4294967296 := by
  rw [show (4294967296 : Nat) = 2 ^ 32 by norm_num]
  apply Nat.lt_pow_two_of_testBit
  intro i hi
  rw [testBit_swapRB32]
  have h1 := testBit_high w i hw hi
  have h2 := testBit_high w (i + 16) hw (by omega)
  have a1 : ¬ i < 8 := by omega
  have a2 : ¬ i < 16 := by omega
  have a3 : ¬ i < 24 := by omega
  simp [a1, a2, a3, h1, h2]

theorem word_eq_bytes (w : Nat) (hw : w < 4294967296) :
    w = (byteOf w 0).val + 256 * (byteOf w 1).val + 65536 * (byteOf w 2).val +
      16777216 * (byteOf w 3).val := by
  simp only [byteOf]
  norm_num
  omega

theorem CopyPixels_Size_eq (width height glFormat : Nat) :
    CopyPixels_Size width height glFormat = u32 (width * height * bytesPerPixel glFormat) := by
  unfold CopyPixels_Size bytesPerPixel u32
  split_ifs <;> omega

theorem rgba2bgra_select_eq (c : spoutCopy) (m : Mem) (source dest width height : Nat)
    (bInvert : Bool) :
    rgba2bgra_select c m source dest width height bInvert =
      match rgba2bgra_kernel c width with
      | some k => k.run m source dest width height bInvert
      | none => m := by
  unfold rgba2bgra_select rgba2bgra_kernel
  split_ifs <;> rfl

theorem and_two_pow_eq (x i : Nat) : x &&& 2 ^ i = if x.testBit i then 2 ^ i else 0 := by
  apply Nat.eq_of_testBit_eq
  intro j
  rw [Nat.testBit_and, Nat.testBit_two_pow]
  by_cases hij : i = j
  · subst hij
    cases hx : x.testBit i <;> simp [Nat.testBit_two_pow_self]
  · cases hx : x.testBit i <;> simp [hij, Nat.testBit_two_pow_of_ne hij]

theorem and_two_pow_ne_zero (x i : Nat) : decide (x &&& 2 ^ i ≠ 0) = x.testBit i := by
  rw [and_two_pow_eq]
  have hp : 2 ^ i ≠ 0 := by positivity
  cases hx : x.testBit i <;> simp [hp]

theorem FlipBuffer_one_row (c : spoutCopy) (m : Mem) (src dst width glFormat : Nat) :
    FlipBuffer c m src dst width 1 glFormat =
      memcpy m dst src (FlipBuffer_pitch width glFormat) := by
  have e : u32 (usub32 1 1 * FlipBuffer_pitch width glFormat) = 0 := by
    simp [u32, usub32]
  simp [FlipBuffer, FlipBuffer_loop, FlipBuffer_step, copySelect, e]

theorem CopyPixels_one_pixel (c : spoutCopy) (m : Mem) (source dest glFormat : Nat)
    (bInvert : Bool) :
    CopyPixels c m source dest 1 1 glFormat bInvert =
      memcpy m dest source (bytesPerPixel glFormat) := by
  cases bInvert
  · simp only [CopyPixels, Bool.false_eq_true, if_false, show (1 : Nat) < 320 by norm_num,
      if_true]
    congr 1
  · simp only [CopyPixels, if_true, FlipBuffer_one_row]
    congr 1

theorem bytesPerPixel_pos (glFormat : Nat) : 0 < bytesPerPixel glFormat ∧
    bytesPerPixel glFormat ≤ 4 := by
  unfold bytesPerPixel
  split_ifs <;> omega

/-! ## Lemmas: single-precision arithmetic on whole numbers -/

theorem log2Fuel_le (fuel n k : Nat) (h : n < 2 ^ (k + 1)) : log2Fuel fuel n ≤ k := by
  induction fuel generalizing n k with
  | zero => simp [log2Fuel]
  | succ f ih =>
    unfold log2Fuel
    split_ifs with h2
    · cases k with
      | zero => simp at h; omega
      | succ k =>
        have : n / 2 < 2 ^ (k + 1) := by
          rw [Nat.div_lt_iff_lt_mul (by norm_num)]
          calc n < 2 ^ (k + 1 + 1) := h
            _ = 2 ^ (k + 1) * 2 := by ring
        have := ih (n / 2) k this
        omega
    · omega

theorem ilog2_le (n k : Nat) (h : n < 2 ^ (k + 1)) : ilog2 n ≤ k :=
  log2Fuel_le n n k h

theorem roundHalfEven_mul (Q D : Nat) (hD : 0 < D) : roundHalfEven (Q * D) D = Q := by
  unfold roundHalfEven
  simp [Nat.mul_div_cancel _ hD, hD]

/-- Rounding a value that is a whole number below `2^24` leaves it as it is. -/
theorem f32_round_exact (n d : Nat) (hd : 0 < d) (hn : n < 16777216) :
    f32_round (n * f32_one * d) d = n * f32_one := by
  unfold f32_round
  rw [Nat.mul_div_cancel _ hd]
  have ht : ilog2 (n * f32_one) ≤ 172 := by
    apply ilog2_le
    unfold f32_one
    calc n * 2 ^ 149 < 16777216 * 2 ^ 149 := by
          apply Nat.mul_lt_mul_of_pos_right hn (by positivity)
      _ = 2 ^ (172 + 1) := by norm_num
  generalize ilog2 (n * f32_one) = t at ht
  have hsplit : f32_one = 2 ^ (149 - (t - 23)) * 2 ^ (t - 23) := by
    unfold f32_one
    rw [← pow_add]
    congr 1
    omega
  show roundHalfEven (n * f32_one * d) (d * 2 ^ (t - 23)) * 2 ^ (t - 23) = n * f32_one
  have hp : n * f32_one * d = (n * 2 ^ (149 - (t - 23))) * (d * 2 ^ (t - 23)) := by
    rw [hsplit]; ring
  rw [hp, roundHalfEven_mul _ _ (by positivity)]
  rw [hsplit]; ring

theorem f32_ofNat_exact (n : Nat) (hn : n < 16777216) : f32_ofNat n = n * f32_one := by
  have := f32_round_exact n 1 (by norm_num) hn
  unfold f32_ofNat
  rw [Nat.mul_one] at this
  exact this

theorem f32_mul_exact (a b : Nat) (h : a * b < 16777216) :
    f32_mul (a * f32_one) (b * f32_one) = a * b * f32_one := by
  have := f32_round_exact (a * b) f32_one (by unfold f32_one; positivity) h
  unfold f32_mul
  rw [show a * f32_one * (b * f32_one) = a * b * f32_one * f32_one by ring]
  exact this

theorem f32_div_exact (q b : Nat) (hb : 0 < b) (h : q < 16777216) :
    f32_div (q * b * f32_one) (b * f32_one) = q * f32_one := by
  have := f32_round_exact q (b * f32_one) (by unfold f32_one; positivity) h
  unfold f32_div
  rw [show q * b * f32_one * f32_one = q * f32_one * (b * f32_one) by ring]
  exact this

theorem f32_floor_eq (a : F32) : f32_floor a = (a / f32_one) * f32_one := rfl

theorem f32_one_pos : 0 < f32_one := by unfold f32_one; positivity

theorem f32_floor_exact (n : Nat) : f32_floor (n * f32_one) = n * f32_one := by
  unfold f32_floor
  rw [Nat.mul_div_cancel _ f32_one_pos]

theorem f32_toInt_exact (n : Nat) (h : n < 2147483648) : f32_toInt (n * f32_one) = (n : Int) := by
  unfold f32_toInt
  rw [Nat.mul_div_cancel _ f32_one_pos, if_pos h]

theorem f32_toInt_range (a : F32) : -2147483648 ≤ f32_toInt a ∧ f32_toInt a < 2147483648 := by
  unfold f32_toInt
  split_ifs with h
  · have h0 : (0 : Int) ≤ ((a / f32_one : Nat) : Int) := Int.ofNat_nonneg _
    have h1 : ((a / f32_one : Nat) : Int) < 2147483648 := by exact_mod_cast h
    constructor
    · linarith
    · exact h1
  · constructor <;> norm_num

theorem nearestMatch_range (sw sh sp dw dh i j : Nat) :
    -2147483648 ≤ nearestMatch sw sh sp dw dh i j ∧
      nearestMatch sw sh sp dw dh i j < 2147483648 :=
  f32_toInt_range _

/-! ## Lemmas: the resamplers -/

theorem pixel_index3 (R C W H : Nat) (hR : R < H) (hC : C < W)
    (h : 3 * (W * H) < 4294967296) :
    u32 (u32 (u32 (R * W) * 3) + u32 (C * 3)) = R * (3 * W) + 3 * C ∧
      R * (3 * W) + 3 * C + 3 ≤ 3 * (W * H) := by
  have h1 := mul_step R H W hR
  rw [show R * (3 * W) = 3 * (R * W) by ring, show W * H = H * W by ring] at *
  generalize R * W = X at *
  generalize H * W = Y at *
  unfold u32
  omega

theorem pixel_index4 (R C W H : Nat) (hR : R < H) (hC : C < W)
    (h : 4 * (W * H) < 4294967296) :
    u32 (u32 (u32 (R * W) * 4) + u32 (C * 4)) = R * (4 * W) + 4 * C ∧
      R * (4 * W) + 4 * C + 4 ≤ 4 * (W * H) := by
  have h1 := mul_step R H W hR
  rw [show R * (4 * W) = 4 * (R * W) by ring, show W * H = H * W by ring] at *
  generalize R * W = X at *
  generalize H * W = Y at *
  unfold u32
  omega

theorem dim_lt_of_area (b W H i j : Nat) (hb : 0 < b) (hi : i < H) (hj : j < W)
    (h : b * (W * H) < 4294967296) : W < 4294967296 ∧ H < 4294967296 := by
  have h1 : W * H ≤ b * (W * H) := Nat.le_mul_of_pos_left _ hb
  have h2 : W ≤ W * H := Nat.le_mul_of_pos_right _ (by omega)
  have h3 : H ≤ W * H := Nat.le_mul_of_pos_left _ (by omega)
  omega

theorem invRow_eq (H i : Nat) (hi : i < H) (hH : H < 4294967296) :
    usub32 (usub32 H i) 1 = H - 1 - i := by
  unfold usub32
  omega

theorem rgba2rgbResample_pixel_eq (dw dh : Nat) (bInvert bMirror : Bool) (i j : Nat)
    (hi : i < dh) (hj : j < dw) (h : 3 * (dw * dh) < 4294967296) :
    rgba2rgbResample_pixel dw dh bInvert bMirror i j =
        rowOf dh bInvert i * (3 * dw) + 3 * colOf dw bMirror j ∧
      rowOf dh bInvert i * (3 * dw) + 3 * colOf dw bMirror j + 3 ≤ 3 * (dw * dh) := by
  obtain ⟨hW, hH⟩ := dim_lt_of_area 3 dw dh i j (by norm_num) hi hj h
  have hr := rowOf_lt dh bInvert i hi
  have hc := colOf_lt dw bMirror j hj
  have key := pixel_index3 (rowOf dh bInvert i) (colOf dw bMirror j) dw dh hr hc h
  refine ⟨?_, key.2⟩
  rw [← key.1]
  unfold rgba2rgbResample_pixel
  cases bInvert <;> cases bMirror <;>
    simp only [rowOf, colOf, if_true, if_false, Bool.false_eq_true, invRow_eq dh i hi hH,
      invRow_eq dw j hj hW]

theorem rgba2rgbaResample_pixel_eq (dw dh : Nat) (bInvert : Bool) (i j : Nat)
    (hi : i < dh) (hj : j < dw) (h : 4 * (dw * dh) < 4294967296) :
    rgba2rgbaResample_pixel dw dh bInvert i j = rowOf dh bInvert i * (4 * dw) + 4 * j ∧
      rowOf dh bInvert i * (4 * dw) + 4 * j + 4 ≤ 4 * (dw * dh) := by
  obtain ⟨hW, hH⟩ := dim_lt_of_area 4 dw dh i j (by norm_num) hi hj h
  have hr := rowOf_lt dh bInvert i hi
  have key := pixel_index4 (rowOf dh bInvert i) j dw dh hr hj h
  refine ⟨?_, key.2⟩
  rw [← key.1]
  unfold rgba2rgbaResample_pixel
  cases bInvert <;>
    simp only [rowOf, if_true, if_false, Bool.false_eq_true, invRow_eq dh i hi hH]

theorem keep4_ascending (D S : Nat) (m : Mem) (h : D + 4 ≤ S ∨ S + 4 ≤ D) :
    assign (assign (assign (assign m ((D : Int) + 0) ((S : Int) + 0)) ((D : Int) + 1)
        ((S : Int) + 1)) ((D : Int) + 2) ((S : Int) + 2)) ((D : Int) + 3) ((S : Int) + 3) =
      pixRef 4 selAll m D S := by
  funext a
  simp only [assign, poke, peek, toNat_off0, toNat_off1, toNat_off2, toNat_off3]
  by_cases h3 : a = D + 3
  · subst h3; rw [pixRef_apply_in _ _ _ _ _ _ (by omega) (by omega)]
    simp [pixVal, selAll]
    split_ifs <;> first | rfl | omega
  by_cases h2 : a = D + 2
  · subst h2; rw [pixRef_apply_in _ _ _ _ _ _ (by omega) (by omega)]
    simp [pixVal, selAll]
    split_ifs <;> first | rfl | omega
  by_cases h1 : a = D + 1
  · subst h1; rw [pixRef_apply_in _ _ _ _ _ _ (by omega) (by omega)]
    simp [pixVal, selAll]
    intro hh; omega
  by_cases h0 : a = D
  · subst h0; rw [pixRef_apply_in _ _ _ _ _ _ (by omega) (by omega)]
    simp [pixVal, selAll]
  · rw [pixRef_apply_out _ _ _ _ _ _ (by omega)]
    simp [h3, h2, h1, h0]

theorem selAll_lt (k j : Nat) (hk : k < 4) (h : selAll k = some j) : j < 4 := by
  unfold selAll at h
  simp at h
  omega

theorem dest_index (dest P k : Nat) (hk : P + k < 4294967296) :
    ((dest + u32 (P + k) : Nat) : Int) = ((dest + P : Nat) : Int) + (k : Int) := by
  have : u32 (P + k) = P + k := by unfold u32; omega
  rw [this]
  push_cast
  ring

theorem sample_index (source : Nat) (nm : Int) (k : Int) (h : 0 ≤ (source : Int) + nm) :
    (source : Int) + (nm + k) = ((((source : Int) + nm).toNat : Nat) : Int) + k := by
  rw [Int.toNat_of_nonneg h]
  ring

/-- The grid of `rgba2rgbResample`: every destination pixel holds the three
selected bytes of the source pixel read for its grid point, and nothing else
has changed, when no source pixel read lies in the destination buffer. -/
theorem rgba2rgbResample_grid (m : Mem) (source dest sw sh sp dw dh : Nat)
    (bInvert bMirror bSwapRB : Bool) (hs : source ≠ 0) (hd : dest ≠ 0)
    (hsz : 3 * (dw * dh) < 4294967296)
    (hread : ∀ i j, i < dh → j < dw →
      0 ≤ (source : Int) + nearestMatch sw sh sp dw dh i j ∧
      (sampleAddr source sw sh sp dw dh i j + 4 ≤ dest ∨
        dest + 3 * (dw * dh) ≤ sampleAddr source sw sh sp dw dh i j)) :
    GridInv 3 (if bSwapRB then selSwap else selKeep)
      (fun i j => dest + rowOf dh bInvert i * (3 * dw) + 3 * colOf dw bMirror j)
      (fun i j => sampleAddr source sw sh sp dw dh i j) m
      (rgba2rgbResample m source dest sw sh sp dw dh bInvert bMirror bSwapRB)
      (fun i j => i < dh ∧ j < dw) := by
  unfold rgba2rgbResample
  rw [if_neg (show ¬ (source = 0 ∨ dest = 0) by tauto)]
  refine grid_spec 3 4 _ _ _ dh dw _ m ?_ ?_ ?_ ?_
  · intro k j hk h
    cases bSwapRB
    · exact selKeep_lt 4 (by norm_num) k j (by simpa using h)
    · exact selSwap_lt 4 (by norm_num) k j (by simpa using h)
  · intro i j hi hj M
    obtain ⟨hp, hb⟩ := rgba2rgbResample_pixel_eq dw dh bInvert bMirror i j hi hj hsz
    obtain ⟨h0, hdisj⟩ := hread i j hi hj
    have hdis : dest + (rowOf dh bInvert i * (3 * dw) + 3 * colOf dw bMirror j) + 3 ≤
          sampleAddr source sw sh sp dw dh i j ∨
        sampleAddr source sw sh sp dw dh i j + 4 ≤
          dest + (rowOf dh bInvert i * (3 * dw) + 3 * colOf dw bMirror j) := by omega
    simp only [hp]
    rw [show dest + rowOf dh bInvert i * (3 * dw) + 3 * colOf dw bMirror j =
      dest + (rowOf dh bInvert i * (3 * dw) + 3 * colOf dw bMirror j) by ring]
    generalize rowOf dh bInvert i * (3 * dw) + 3 * colOf dw bMirror j = P at hb hdis ⊢
    cases bSwapRB
    · simp only [Bool.false_eq_true, if_false]
      rw [dest_index dest P 0 (by omega), dest_index dest P 1 (by omega),
        dest_index dest P 2 (by omega), sample_index source _ 0 h0,
        sample_index source _ 1 h0, sample_index source _ 2 h0]
      exact keep3_ascending (dest + P) _ M hdis
    · simp only [if_true]
      rw [dest_index dest P 0 (by omega), dest_index dest P 1 (by omega),
        dest_index dest P 2 (by omega), sample_index source _ 0 h0,
        sample_index source _ 1 h0, sample_index source _ 2 h0]
      exact rgba2bgr_rgba_pitch_pixel_eq 0 (dest + P) _ M hdis
  · intro i j i' j' hi hj hi' hj'
    obtain ⟨_, hb⟩ := rgba2rgbResample_pixel_eq dw dh bInvert bMirror i j hi hj hsz
    obtain ⟨_, hdisj⟩ := hread i' j' hi' hj'
    omega
  · intro i j i' j' hi hj hi' hj' hne
    apply cell_disjoint3 dest (3 * dw) dw _ _ _ _ (le_refl _) (colOf_lt dw bMirror j hj)
      (colOf_lt dw bMirror j' hj')
    rcases hne with hne | hne
    · left; exact fun e => hne (rowOf_inj dh bInvert i i' hi hi' e)
    · right; exact fun e => hne (colOf_inj dw bMirror j j' hj hj' e)

/-- The grid of `rgba2rgbaResample`. -/
theorem rgba2rgbaResample_grid (m : Mem) (source dest sw sh sp dw dh : Nat)
    (bInvert : Bool) (hs : source ≠ 0) (hd : dest ≠ 0)
    (hsz : 4 * (dw * dh) < 4294967296)
    (hread : ∀ i j, i < dh → j < dw →
      0 ≤ (source : Int) + nearestMatch sw sh sp dw dh i j ∧
      (sampleAddr source sw sh sp dw dh i j + 4 ≤ dest ∨
        dest + 4 * (dw * dh) ≤ sampleAddr source sw sh sp dw dh i j)) :
    GridInv 4 selAll
      (fun i j => dest + rowOf dh bInvert i * (4 * dw) + 4 * j)
      (fun i j => sampleAddr source sw sh sp dw dh i j) m
      (rgba2rgbaResample m source dest sw sh sp dw dh bInvert)
      (fun i j => i < dh ∧ j < dw) := by
  unfold rgba2rgbaResample
  rw [if_neg (show ¬ (source = 0 ∨ dest = 0) by tauto)]
  refine grid_spec 4 4 _ _ _ dh dw _ m ?_ ?_ ?_ ?_
  · intro k j hk h
    exact selAll_lt k j hk h
  · intro i j hi hj M
    obtain ⟨hp, hb⟩ := rgba2rgbaResample_pixel_eq dw dh bInvert i j hi hj hsz
    obtain ⟨h0, hdisj⟩ := hread i j hi hj
    have hdis : dest + (rowOf dh bInvert i * (4 * dw) + 4 * j) + 4 ≤
          sampleAddr source sw sh sp dw dh i j ∨
        sampleAddr source sw sh sp dw dh i j + 4 ≤
          dest + (rowOf dh bInvert i * (4 * dw) + 4 * j) := by omega
    simp only [hp]
    rw [show dest + rowOf dh bInvert i * (4 * dw) + 4 * j =
      dest + (rowOf dh bInvert i * (4 * dw) + 4 * j) by ring]
    generalize rowOf dh bInvert i * (4 * dw) + 4 * j = P at hb hdis ⊢
    rw [dest_index dest P 0 (by omega), dest_index dest P 1 (by omega),
      dest_index dest P 2 (by omega), dest_index dest P 3 (by omega),
      sample_index source _ 0 h0, sample_index source _ 1 h0, sample_index source _ 2 h0,
      sample_index source _ 3 h0]
    exact keep4_ascending (dest + P) _ M hdis
  · intro i j i' j' hi hj hi' hj'
    obtain ⟨_, hb⟩ := rgba2rgbaResample_pixel_eq dw dh bInvert i j hi hj hsz
    obtain ⟨_, hdisj⟩ := hread i' j' hi' hj'
    omega
  · intro i j i' j' hi hj hi' hj' hne
    apply cell_disjoint4 dest (4 * dw) dw _ _ _ _ (le_refl _) hj hj'
    rcases hne with hne | hne
    · left; exact fun e => hne (rowOf_inj dh bInvert i i' hi hi' e)
    · right; exact hne

/-- Whatever the sizes, a source pixel read lies less than `2^31` bytes before
or after `source`; a destination buffer `2^31 + 4` bytes or more after a
source that is at least `2^31` holds no source pixel read. -/
theorem reads_of_far (source dest B sw sh sp dw dh : Nat) (hs : 2147483648 ≤ source)
    (hd : source + 2147483648 + 4 ≤ dest) :
    ∀ i j, i < dh → j < dw →
      0 ≤ (source : Int) + nearestMatch sw sh sp dw dh i j ∧
      (sampleAddr source sw sh sp dw dh i j + 4 ≤ dest ∨
        dest + B ≤ sampleAddr source sw sh sp dw dh i j) := by
  intro i j _ _
  have h := nearestMatch_range sw sh sp dw dh i j
  unfold sampleAddr
  constructor
  · omega
  · left
    omega

theorem GridInv_all4 (D S : Nat → Nat → Nat) (m M : Mem) (done : Nat → Nat → Prop)
    (h : GridInv 4 selAll D S m M done) (y x : Nat) (hd : done y x) (k : Nat) (hk : k < 4) :
    M (D y x + k) = m (S y x + k) := by
  have := h.1 y x hd k hk
  simpa [pixVal, selAll] using this

theorem colOf_colOf (width : Nat) (bMirror : Bool) (x : Nat) (hx : x < width) :
    colOf width bMirror (colOf width bMirror x) = x := by
  unfold colOf
  split_ifs <;> omega

theorem grid_cell_inj (W r c r' c' : Nat) (hc : c < W) (hc' : c' < W)
    (h : r * W + c = r' * W + c') : r = r' ∧ c = c' := by
  rcases Nat.lt_trichotomy r r' with hlt | heq | hlt
  · have := mul_step r r' W hlt; omega
  · subst heq; omega
  · have := mul_step r' r W hlt; omega

/-! ## Lemmas: whole-image swap, padding and empty images -/

theorem swz_swz (k : Nat) : swz (swz k) = k := by
  unfold swz
  split_ifs <;> omega

theorem swapPixel_pixRef (source dest x : Nat) (m : Mem) :
    swapPixel source dest x m = pixRef 4 selSwz m (dest + 4 * x) (source + 4 * x) := by
  rw [swapPixel_eq]
  funext a
  simp [swapCopy, pixRef, pixVal, selSwz]

theorem kernel_pointers (src dst width height : Nat) (bInvert : Bool) (y : Nat)
    (hy : y < height) (hsz : width * height < 4294967296) :
    kernelSource src width height bInvert y = src + 4 * (rowOf height bInvert y * width) ∧
      kernelDest dst width y = dst + 4 * (y * width) ∧
      rowOf height bInvert y * width + width ≤ width * height ∧
      y * width + width ≤ width * height := by
  have hr := rowOf_lt height bInvert y hy
  have h1 := mul_step (rowOf height bInvert y) height width hr
  have h2 := mul_step y height width hy
  rw [Nat.mul_comm height width] at h1 h2
  refine ⟨?_, ?_, h1, h2⟩
  · rcases Nat.eq_zero_or_pos width with h0 | hpos
    · subst h0
      cases bInvert <;> simp [kernelSource, u32]
    · have hh : height < 4294967296 := by
        have : height ≤ width * height := Nat.le_mul_of_pos_left height hpos
        omega
      have e1 : usub32 (usub32 height 1) y = height - 1 - y := by
        unfold usub32
        omega
      cases bInvert
      · simp only [kernelSource, rowOf, Bool.false_eq_true, if_false]
        simp only [rowOf, Bool.false_eq_true, if_false] at h1
        congr 2
        unfold u32
        omega
      · simp only [kernelSource, rowOf, if_true, e1]
        simp only [rowOf, if_true] at h1
        congr 2
        unfold u32
        omega
  · unfold kernelDest
    congr 2
    unfold u32
    omega

/-- The grid of the scalar kernel `rgba_bgra`: every destination pixel holds
the red/blue-swapped bytes of its source pixel, and nothing else has changed,
when the two images do not overlap. -/
theorem rgba_bgra_grid (m : Mem) (src dst width height : Nat) (bInvert : Bool)
    (hs : src ≠ 0) (hd : dst ≠ 0) (hsz : width * height < 4294967296)
    (hsep : src + 4 * (width * height) ≤ dst ∨ dst + 4 * (width * height) ≤ src) :
    GridInv 4 selSwz (fun y x => dst + 4 * (y * width) + 4 * x)
      (fun y x => src + 4 * (rowOf height bInvert y * width) + 4 * x) m
      (rgba_bgra m src dst width height bInvert) (fun y x => y < height ∧ x < width) := by
  unfold rgba_bgra
  rw [if_neg hs, if_neg hd]
  refine grid_spec 4 4 _ _ _ height width _ m ?_ ?_ ?_ ?_
  · intro k j hk h
    unfold selSwz at h
    have := swz_lt k 1 (by omega)
    simp at h
    omega
  · intro y x hy hx M
    obtain ⟨e1, e2, _, _⟩ := kernel_pointers src dst width height bInvert y hy hsz
    rw [swapPixel_pixRef, e1, e2]
  · intro y x y' x' hy hx hy' hx'
    obtain ⟨_, _, _, b1⟩ := kernel_pointers src dst width height bInvert y hy hsz
    obtain ⟨_, _, b2, _⟩ := kernel_pointers src dst width height bInvert y' hy' hsz
    omega
  · intro y x y' x' hy hx hy' hx' hne
    have := cell_disjoint4 dst (4 * width) width y x y' x' (le_refl _) hx hx' hne
    rw [show 4 * (y * width) = y * (4 * width) by ring,
      show 4 * (y' * width) = y' * (4 * width) by ring]
    exact this

theorem GridInv_swz (D S : Nat → Nat → Nat) (m M : Mem) (done : Nat → Nat → Prop)
    (h : GridInv 4 selSwz D S m M done) (y x : Nat) (hd : done y x) (k : Nat) (hk : k < 4) :
    M (D y x + k) = m (S y x + swz k) := by
  have := h.1 y x hd k hk
  simpa [pixVal, selSwz] using this

theorem swapCopy_twice (m : Mem) (p n : Nat) : swapCopy (swapCopy m p p n) p p n = m := by
  funext a
  by_cases h : p ≤ a ∧ a < p + 4 * n
  · have hz := swz_lt (a - p) n (by omega)
    rw [swapCopy_apply_in _ _ _ _ _ h.1 h.2,
      swapCopy_apply_in _ _ _ _ _ (by omega) (by omega),
      show p + swz (a - p) - p = swz (a - p) by omega, swz_swz]
    congr 1
    omega
  · rw [swapCopy_apply_out _ _ _ _ _ (by omega), swapCopy_apply_out _ _ _ _ _ (by omega)]

/-- The scalar kernel run in place without invert is the red/blue swap of the
whole image. -/
theorem rgba_bgra_in_place (m : Mem) (p width height : Nat) (hp : p ≠ 0)
    (hsz : width * height < 4294967296) :
    rgba_bgra m p p width height false = swapCopy m p p (height * width) := by
  unfold rgba_bgra
  rw [if_neg hp, if_neg hp]
  have hrow : ∀ y, y < height → ∀ acc,
      forLoop width (swapPixel (kernelSource p width height false y) (kernelDest p width y))
          acc = swapCopy acc (p + 4 * (y * width)) (p + 4 * (y * width)) width := by
    intro y hy acc
    obtain ⟨e1, e2, _, _⟩ := kernel_pointers p p width height false y hy hsz
    simp only [rowOf, Bool.false_eq_true, if_false] at e1
    rw [e1, e2]
    exact scalar_row_eq width _ _ acc (Or.inl (le_refl _))
  rw [forLoop_congr height _ _ m hrow]
  suffices hn : ∀ n, forLoop n
      (fun y acc => swapCopy acc (p + 4 * (y * width)) (p + 4 * (y * width)) width) m =
      swapCopy m p p (n * width) from hn height
  intro n
  induction n with
  | zero => rw [forLoop_zero, Nat.zero_mul, swapCopy_zero]
  | succ n ih =>
    rw [forLoop_succ, ih, swapCopy_append _ _ _ _ _ (Or.inl (le_refl _)), Nat.succ_mul]

theorem pixelBytes_card (dst width height pitch : Nat) (hp : 4 * width ≤ pitch) :
    (pixelBytes dst width height pitch).card = height * width * 4 := by
  unfold pixelBytes
  rw [Finset.card_image_of_injOn]
  · simp [Finset.card_product, Nat.mul_assoc]
  · intro t ht t' ht' he
    simp only [Finset.coe_product, Finset.coe_range, Set.mem_prod, Set.mem_Iio] at ht ht'
    obtain ⟨y, x, k⟩ := t
    obtain ⟨y', x', k'⟩ := t'
    simp only at ht ht' he
    have hyy : y = y' := by
      rcases Nat.lt_trichotomy y y' with h | h | h
      · have := mul_step y y' pitch h; omega
      · exact h
      · have := mul_step y' y pitch h; omega
    subst hyy
    have hxx : x = x' := by omega
    subst hxx
    have hkk : k = k' := by omega
    subst hkk
    rfl

theorem mem_pixelBytes (dst width height pitch a : Nat) :
    a ∈ pixelBytes dst width height pitch ↔
      ∃ y x k, y < height ∧ x < width ∧ k < 4 ∧ a = dst + y * pitch + 4 * x + k := by
  unfold pixelBytes
  simp only [Finset.mem_image, Finset.mem_product, Finset.mem_range, Prod.exists]
  constructor
  · rintro ⟨y, x, k, ⟨hy, hx, hk⟩, rfl⟩
    exact ⟨y, x, k, hy, hx, hk, rfl⟩
  · rintro ⟨y, x, k, hy, hx, hk, rfl⟩
    exact ⟨y, x, k, ⟨hy, hx, hk⟩, rfl⟩

theorem padding_not_pixel (dst width height pitch y o : Nat) (hp : 4 * width ≤ pitch)
    (ho1 : 4 * width ≤ o) (ho2 : o < pitch) :
    dst + y * pitch + o ∉ pixelBytes dst width height pitch := by
  rw [mem_pixelBytes]
  rintro ⟨y', x, k, _, hx, hk, he⟩
  rcases Nat.lt_trichotomy y y' with h | h | h
  · have := mul_step y y' pitch h; omega
  · subst h; omega
  · have := mul_step y' y pitch h; omega

/-- What a grid of 4-byte pixels with rows `pitch` bytes apart says about the
bytes of the destination: a byte of a pixel holds its converted value, any
other byte is unchanged. -/
theorem pitch_grid_frame (sel : Nat → Option Nat) (S : Nat → Nat → Nat) (m M : Mem)
    (dst width height pitch : Nat)
    (hg : GridInv 4 sel (fun y x => dst + y * pitch + 4 * x) S m M
      (fun y x => y < height ∧ x < width)) :
    (∀ a, a ∉ pixelBytes dst width height pitch → M a = m a) ∧
    (∀ y x k, y < height → x < width → k < 4 →
      M (dst + y * pitch + 4 * x + k) = pixVal sel m (S y x) k) := by
  constructor
  · intro a ha
    apply hg.2
    intro y x ⟨hy, hx⟩
    by_contra hc
    simp only at hc
    apply ha
    rw [mem_pixelBytes]
    exact ⟨y, x, a - (dst + y * pitch + 4 * x), hy, hx, by omega, by omega⟩
  · intro y x k hy hx hk
    exact hg.1 y x ⟨hy, hx⟩ k hk

theorem forLoop_id (n : Nat) (m : Mem) : forLoop n (fun _ acc => acc) m = m := by
  induction n with
  | zero => rfl
  | succ n ih => rw [forLoop_succ, ih]

theorem forLoop_empty (height width : Nat) (f : Nat → Nat → Mem → Mem) (m : Mem)
    (h : width = 0 ∨ height = 0) :
    forLoop height (fun y acc => forLoop width (f y) acc) m = m := by
  rcases h with h | h
  · subst h
    exact forLoop_id height m
  · subst h
    rfl

theorem convertLoop_empty (height width : Nat) (body : Nat → Int → Int → Mem → Mem)
    (bs bd rs rd : Int) (s : Ptrs) (h : width = 0 ∨ height = 0) :
    (convertLoop height width body bs bd rs rd s).mem = s.mem := by
  rw [convertLoop_eq]
  exact forLoop_empty height width _ s.mem h

theorem FlipBuffer_loop_zero_pitch (c : spoutCopy) (src dst height : Nat) :
    ∀ (n : Nat) (s : FlipState), (FlipBuffer_loop c src dst 0 height 0 n s).mem = s.mem := by
  intro n
  induction n with
  | zero => intro s; rfl
  | succ n ih =>
    intro s
    rw [FlipBuffer_loop, ih]
    simp [FlipBuffer_step, copySelect, memcpy_zero]

theorem FlipBuffer_empty (c : spoutCopy) (m : Mem) (src dst width height glFormat : Nat)
    (h : width = 0 ∨ height = 0) : FlipBuffer c m src dst width height glFormat = m := by
  rcases h with h | h
  · subst h
    have hp : FlipBuffer_pitch 0 glFormat = 0 := by
      unfold FlipBuffer_pitch u32
      split_ifs <;> rfl
    unfold FlipBuffer
    simp only [hp]
    rw [FlipBuffer_loop_zero_pitch]
  · subst h
    rfl

/-! ## Lemmas: alignment of the kernel rows, exact offsets at unit ratio -/

theorem kernel_rows_aligned (src dst width height : Nat) (bInvert : Bool) (y : Nat)
    (h16 : width % 16 = 0) (hs16 : src % 16 = 0) (hd16 : dst % 16 = 0) :
    kernelSource src width height bInvert y % 16 = 0 ∧ kernelDest dst width y % 16 = 0 := by
  have hmul : ∀ r : Nat, u32 (r * width) % 16 = 0 := by
    intro r
    have h1 : r * width % 16 = 0 := by
      rw [Nat.mul_mod, h16, Nat.mul_zero, Nat.zero_mod]
    unfold u32
    omega
  have ha := hmul (usub32 (usub32 height 1) y)
  have hb := hmul y
  unfold kernelSource kernelDest
  cases bInvert
  · simp only [Bool.false_eq_true, if_false]
    omega
  · simp only [if_true]
    omega

/-- Rounding a whole number `n * 2^s` with `n` below `2^24` leaves it as it
is. -/
theorem f32_round_exact_shift (n s d : Nat) (hd : 0 < d) (hn : n < 16777216) :
    f32_round (n * 2 ^ s * f32_one * d) d = n * 2 ^ s * f32_one := by
  unfold f32_round
  rw [Nat.mul_div_cancel _ hd]
  have ht : ilog2 (n * 2 ^ s * f32_one) ≤ 172 + s := by
    apply ilog2_le
    unfold f32_one
    calc n * 2 ^ s * 2 ^ 149 = n * (2 ^ s * 2 ^ 149) := by ring
      _ < 16777216 * (2 ^ s * 2 ^ 149) := by
          apply Nat.mul_lt_mul_of_pos_right hn (by positivity)
      _ = 2 ^ (172 + s + 1) := by
          rw [show (16777216 : Nat) = 2 ^ 24 by norm_num, ← pow_add, ← pow_add]
          congr 1
          omega
  generalize ilog2 (n * 2 ^ s * f32_one) = t at ht
  have hsplit : 2 ^ s * f32_one = 2 ^ (149 + s - (t - 23)) * 2 ^ (t - 23) := by
    unfold f32_one
    rw [← pow_add, ← pow_add]
    congr 1
    omega
  show roundHalfEven (n * 2 ^ s * f32_one * d) (d * 2 ^ (t - 23)) * 2 ^ (t - 23) =
    n * 2 ^ s * f32_one
  have hp : n * 2 ^ s * f32_one * d =
      (n * 2 ^ (149 + s - (t - 23))) * (d * 2 ^ (t - 23)) := by
    rw [show n * 2 ^ s * f32_one * d = n * (2 ^ s * f32_one) * d by ring, hsplit]; ring
  rw [hp, roundHalfEven_mul _ _ (by positivity)]
  rw [show n * 2 ^ s * f32_one = n * (2 ^ s * f32_one) by ring, hsplit]; ring

theorem f32_ofNat_exact_shift (v n s : Nat) (hv : v = n * 2 ^ s) (hn : n < 16777216) :
    f32_ofNat v = v * f32_one := by
  have := f32_round_exact_shift n s 1 (by norm_num) hn
  unfold f32_ofNat
  rw [Nat.mul_one, ← hv] at this
  exact this

theorem f32_mul_exact_shift (a b n s : Nat) (h : a * b = n * 2 ^ s) (hn : n < 16777216) :
    f32_mul (a * f32_one) (b * f32_one) = a * b * f32_one := by
  have := f32_round_exact_shift n s f32_one f32_one_pos hn
  unfold f32_mul
  rw [show a * f32_one * (b * f32_one) = a * b * f32_one * f32_one by ring, h]
  exact this

theorem f32_add_exact_shift (a b n s : Nat) (h : a + b = n * 2 ^ s) (hn : n < 16777216) :
    f32_add (a * f32_one) (b * f32_one) = (a + b) * f32_one := by
  have := f32_round_exact_shift n s 1 (by norm_num) hn
  unfold f32_add
  rw [show a * f32_one + b * f32_one = (a + b) * f32_one * 1 by ring, h]
  exact this

theorem f32_ofNat_le (v : Nat) (hv : v ≤ 16777216) : f32_ofNat v = v * f32_one := by
  rcases Nat.lt_or_ge v 16777216 with h | h
  · exact f32_ofNat_exact v h
  · exact f32_ofNat_exact_shift v 1 24 (by omega) (by norm_num)

theorem f32_ofNat_four_mul (v : Nat) (hv : v ≤ 16777216) :
    f32_ofNat (4 * v) = 4 * v * f32_one := by
  rcases Nat.lt_or_ge v 16777216 with h | h
  · exact f32_ofNat_exact_shift (4 * v) v 2 (by omega) h
  · exact f32_ofNat_exact_shift (4 * v) 1 26 (by omega) (by norm_num)

/-- With unit ratio, a row pitch of `4 * width` and at most `2^24` pixels,
every value of the `float` computation is exact: the offset of grid point
`(i, j)` is `i * (4 * width) + j * 4`. -/
theorem nearestMatch_unit_ratio (w h i j : Nat) (hi : i < h) (hj : j < w)
    (hsz : w * h ≤ 16777216) :
    nearestMatch w h (4 * w) w h i j = ((i * (4 * w) + j * 4 : Nat) : Int) ∧
      i * (4 * w) + j * 4 + 4 ≤ h * (4 * w) := by
  have hw0 : 0 < w := by omega
  have hh0 : 0 < h := by omega
  have hwle : w ≤ w * h := Nat.le_mul_of_pos_right _ hh0
  have hhle : h ≤ w * h := Nat.le_mul_of_pos_left _ hw0
  have hrow := mul_step i h w hi
  have hiw : i * w + j < 16777216 := by
    rw [Nat.mul_comm h w] at hrow
    omega
  have hb : i * (4 * w) + j * 4 + 4 ≤ h * (4 * w) := by
    rw [show i * (4 * w) = 4 * (i * w) by ring, show h * (4 * w) = 4 * (h * w) by ring]
    omega
  refine ⟨?_, hb⟩
  unfold nearestMatch
  simp only [f32_floor_eq]
  have eW : f32_ofNat w = 1 * w * f32_one := by rw [f32_ofNat_le w (by omega)]; ring
  have eW' : f32_ofNat w = w * f32_one := f32_ofNat_le w (by omega)
  have eH : f32_ofNat h = 1 * h * f32_one := by rw [f32_ofNat_le h (by omega)]; ring
  have eH' : f32_ofNat h = h * f32_one := f32_ofNat_le h (by omega)
  have exr : f32_div (f32_ofNat w) (f32_ofNat w) = 1 * f32_one := by
    nth_rewrite 1 [eW]
    rw [eW']
    exact f32_div_exact 1 w hw0 (by norm_num)
  have eyr : f32_div (f32_ofNat h) (f32_ofNat h) = 1 * f32_one := by
    nth_rewrite 1 [eH]
    rw [eH']
    exact f32_div_exact 1 h hh0 (by norm_num)
  have epx : f32_mul (f32_ofNat j) (1 * f32_one) / f32_one = j := by
    rw [f32_ofNat_exact j (by omega), f32_mul_exact j 1 (by omega), Nat.mul_one,
      Nat.mul_div_cancel _ f32_one_pos]
  have epy : f32_mul (f32_ofNat i) (1 * f32_one) / f32_one = i := by
    rw [f32_ofNat_exact i (by omega), f32_mul_exact i 1 (by omega), Nat.mul_one,
      Nat.mul_div_cancel _ f32_one_pos]
  rw [exr, eyr, epx, epy, f32_ofNat_four_mul w (by omega), f32_ofNat_exact 4 (by norm_num),
    f32_mul_exact_shift i (4 * w) (i * w) 2 (by ring) (by omega),
    f32_mul_exact_shift j 4 j 2 (by ring) (by omega),
    f32_add_exact_shift (i * (4 * w)) (j * 4) (i * w + j) 2 (by ring) hiw,
    f32_toInt_exact _ (by rw [show i * (4 * w) = 4 * (i * w) by ring]; omega)]

theorem reads_of_unit_ratio (source dest B w h : Nat) (hsz : w * h ≤ 16777216)
    (hdisj : source + h * (4 * w) ≤ dest ∨ dest + B ≤ source) :
    ∀ i j, i < h → j < w →
      0 ≤ (source : Int) + nearestMatch w h (4 * w) w h i j ∧
      (sampleAddr source w h (4 * w) w h i j + 4 ≤ dest ∨
        dest + B ≤ sampleAddr source w h (4 * w) w h i j) := by
  intro i j hi hj
  obtain ⟨e, b⟩ := nearestMatch_unit_ratio w h i j hi hj hsz
  unfold sampleAddr
  rw [e]
  constructor
  · positivity
  · have : ((source : Int) + ((i * (4 * w) + j * 4 : Nat) : Int)).toNat =
        source + (i * (4 * w) + j * 4) := by
      rw [← Nat.cast_add, Int.toNat_natCast]
    rw [this]
    omega

theorem sampleAddr_unit_ratio (source w h i j : Nat) (hi : i < h) (hj : j < w)
    (hsz : w * h ≤ 16777216) :
    sampleAddr source w h (4 * w) w h i j = source + (i * (4 * w) + j * 4) := by
  obtain ⟨e, _⟩ := nearestMatch_unit_ratio w h i j hi hj hsz
  unfold sampleAddr
  rw [e, ← Nat.cast_add, Int.toNat_natCast]

/-! ## The claims -/

/-- C1 (code defect).  `CopyPixels` with `bInvert = false` on a 320 x 1
LUMINANCE image (`Size = 320`, a multiple of 16) with the SSE2 flag set, the
source at 1024 and the destination at 4096 (both 16-byte aligned), takes the
`memcpy_sse2` path, which copies `128 * (320 / 128) = 256` bytes only: byte 255
of the destination is the source byte, byte 256 keeps its old value, which
differs from the source byte. -/
theorem C1_CopyPixels_sse2_leaves_tail :
    1024 % 16 = 0 ∧ 4096 % 16 = 0 ∧
    CopyPixels ⟨true, false, false⟩ rampMem 1024 4096 320 1 GL_LUMINANCE false (4096 + 255) =
        rampMem (1024 + 255) ∧
    CopyPixels ⟨true, false, false⟩ rampMem 1024 4096 320 1 GL_LUMINANCE false (4096 + 256) =
        rampMem (4096 + 256) ∧
    rampMem (4096 + 256) ≠ rampMem (1024 + 256) := by
  decide

/-- C2 (code defect).  `FlipBuffer` on a 320 x 240 LUMINANCE image with the
SSE2 flag set, the source at 1024 and the destination at 200000 (both 16-byte
aligned, as is then every row, the row length 320 being a multiple of 16),
copies each 320-byte row with `memcpy_sse2`, which moves 256 bytes only: byte
256 of destination row 239 keeps its old value instead of receiving byte 256
of source row 0. -/
theorem C2_FlipBuffer_sse2_leaves_row_tail :
    1024 % 16 = 0 ∧ 200000 % 16 = 0 ∧ 320 % 16 = 0 ∧
    FlipBuffer ⟨true, false, false⟩ rampMem 1024 200000 320 240 GL_LUMINANCE
        (200000 + 239 * 320 + 256) = rampMem (200000 + 239 * 320 + 256) ∧
    rampMem (200000 + 239 * 320 + 256) ≠ rampMem (1024 + 0 * 320 + 256) := by
  refine ⟨by decide, by decide, by decide, ?_, by decide⟩
  apply FlipBuffer_sse2_frame _ rfl _ _ _ _ _ _ _ (by decide) (by decide) (by decide)
    (by decide) (by decide)
  intro k hk
  rw [FlipBuffer_pitch_320_luminance]
  omega

/-- C3 (code defect).  Flipping a 320 x 240 LUMINANCE image from buffer A
(address 1024) into B (address 200000) and then from B into C (address
400000), all three 16-byte aligned, with the SSE2 flag set, leaves byte 256 of
C with its old value, which differs from byte 256 of A. -/
theorem C3_FlipBuffer_twice_sse2_leaves_row_tail :
    1024 % 16 = 0 ∧ 200000 % 16 = 0 ∧ 400000 % 16 = 0 ∧ 320 % 16 = 0 ∧
    FlipBuffer ⟨true, false, false⟩
        (FlipBuffer ⟨true, false, false⟩ rampMem 1024 200000 320 240 GL_LUMINANCE)
        200000 400000 320 240 GL_LUMINANCE (400000 + 256) = rampMem (400000 + 256) ∧
    rampMem (400000 + 256) ≠ rampMem (1024 + 256) := by
  refine ⟨by decide, by decide, by decide, by decide, ?_, by decide⟩
  rw [FlipBuffer_sse2_frame _ rfl _ _ _ _ _ _ _ (by decide) (by decide) (by decide)
    (by decide) (by decide)
    (by intro k hk; rw [FlipBuffer_pitch_320_luminance]; omega)]
  apply FlipBuffer_sse2_frame _ rfl _ _ _ _ _ _ _ (by decide) (by decide) (by decide)
    (by decide) (by decide)
  intro k hk
  rw [FlipBuffer_pitch_320_luminance]
  omega

/-- C4 (counterexample).  For LUMINANCE `RemovePadding` uses a row length of
`4 * width`, not `width * bytesPerPixel = width`: on a 2 x 2 LUMINANCE image
with stride 8 the byte at destination offset `1 * 2` is not the byte at source
offset `1 * 8`, so the rows are not packed as the claim states. -/
theorem C4_RemovePadding_luminance_counterexample :
    ¬ (∀ y, y < 2 → ∀ i, i < 2 * bytesPerPixel GL_LUMINANCE →
        RemovePadding ⟨false, false, false⟩ rampMem 1000 2000 2 2 8 GL_LUMINANCE
            (2000 + y * (2 * bytesPerPixel GL_LUMINANCE) + i) =
          rampMem (1000 + y * 8 + i)) := by
  decide

/-- C4 (amended).  For the four layouts RGB, BGR, RGBA and BGRA, a stride of at
least the tight row length `width * bytesPerPixel`, non-null buffers that do
not overlap, and a row copy that either is not the SSE2 streaming copy, or has
a row length that is a multiple of 128 with source and destination 16-byte
aligned (every row pointer is then aligned, row length and stride being
multiples of 16 on that path): `RemovePadding` copies, for every row
`y < height`, the `width * bytesPerPixel` bytes at source offset `y * stride`
to destination offset `y * width * bytesPerPixel`, and changes no byte outside
the `height * width * bytesPerPixel` bytes of the packed destination. -/
theorem C4_RemovePadding_packs_rows (c : spoutCopy) (m : Mem)
    (source dest width height stride glFormat : Nat)
    (hfmt : glFormat = GL_RGB ∨ glFormat = GL_BGR_EXT ∨ glFormat = GL_RGBA ∨
      glFormat = GL_BGRA_EXT)
    (hs32 : stride < 4294967296)
    (hstride : width * bytesPerPixel glFormat ≤ stride)
    (hsrc : source ≠ 0) (hdst : dest ≠ 0)
    (hsep : source + height * stride ≤ dest ∨
      dest + height * (width * bytesPerPixel glFormat) ≤ source)
    (hpath : c.m_bSSE2 = false ∨ width * bytesPerPixel glFormat < 320 ∨ stride < 320 ∨
      width * bytesPerPixel glFormat % 16 ≠ 0 ∨ stride % 16 ≠ 0 ∨
      (width * bytesPerPixel glFormat % 128 = 0 ∧ source % 16 = 0 ∧ dest % 16 = 0)) :
    (∀ y, y < height → ∀ i, i < width * bytesPerPixel glFormat →
      RemovePadding c m source dest width height stride glFormat
          (dest + y * (width * bytesPerPixel glFormat) + i) =
        m (source + y * stride + i)) ∧
    (∀ a, (a < dest ∨ dest + height * (width * bytesPerPixel glFormat) ≤ a) →
      RemovePadding c m source dest width height stride glFormat a = m a) := by
  have hpath6 : c.m_bSSE2 = false ∨ width * bytesPerPixel glFormat < 320 ∨ stride < 320 ∨
      width * bytesPerPixel glFormat % 16 ≠ 0 ∨ stride % 16 ≠ 0 ∨
      width * bytesPerPixel glFormat % 128 = 0 :=
    hpath.imp_right fun h => h.imp_right fun h => h.imp_right fun h => h.imp_right fun h =>
      h.imp_right fun h => h.1
  unfold RemovePadding
  rw [RemovePadding_pitch_eq width glFormat hfmt (by omega)]
  exact RemovePadding_loop_spec c _ stride hpath6 (by omega) hstride height m source dest
    hsrc hdst hsep

/-- C4, witness: a 96 x 2 RGBA image (row length 384, a multiple of 128) with
stride 400 and the SSE2 flag set, source at 1024 and destination at 4096. -/
theorem C4_RemovePadding_packs_rows_witness :
    (GL_RGBA = GL_RGB ∨ GL_RGBA = GL_BGR_EXT ∨ GL_RGBA = GL_RGBA ∨ GL_RGBA = GL_BGRA_EXT) ∧
    400 < 4294967296 ∧ 96 * bytesPerPixel GL_RGBA ≤ 400 ∧ (1024 : Nat) ≠ 0 ∧ (4096 : Nat) ≠ 0 ∧
    (1024 + 2 * 400 ≤ 4096 ∨ 4096 + 2 * (96 * bytesPerPixel GL_RGBA) ≤ 1024) ∧
    ((⟨true, false, false⟩ : spoutCopy).m_bSSE2 = false ∨ 96 * bytesPerPixel GL_RGBA < 320 ∨
      400 < 320 ∨ 96 * bytesPerPixel GL_RGBA % 16 ≠ 0 ∨ 400 % 16 ≠ 0 ∨
      (96 * bytesPerPixel GL_RGBA % 128 = 0 ∧ 1024 % 16 = 0 ∧ 4096 % 16 = 0)) ∧
    RemovePadding ⟨true, false, false⟩ rampMem 1024 4096 96 2 400 GL_RGBA
        (4096 + 1 * (96 * bytesPerPixel GL_RGBA) + 5) = rampMem (1024 + 1 * 400 + 5) :=
  ⟨by decide, by decide, by decide, by decide, by decide, by decide, by decide,
    (C4_RemovePadding_packs_rows ⟨true, false, false⟩ rampMem 1024 4096 96 2 400 GL_RGBA
      (by decide) (by decide) (by decide) (by decide) (by decide) (by decide)
      (by decide)).1 1 (by decide) 5 (by decide)⟩

/-- C5 (counterexample).  For LUMINANCE with stride equal to the tight row
length `width`, `RemovePadding` still copies rows of `4 * width` bytes: on a
1 x 6 LUMINANCE image with stride 1 the first 6 destination bytes are not the
first 6 source bytes. -/
theorem C5_RemovePadding_luminance_counterexample :
    ¬ (∀ i, i < 6 * 1 →
        RemovePadding ⟨false, false, false⟩ rampMem 1000 2000 1 6 1 GL_LUMINANCE (2000 + i) =
          rampMem (1000 + i)) := by
  decide

/-- C5 (amended).  For the four layouts RGB, BGR, RGBA and BGRA, non-null
buffers that do not overlap, a stride equal to the tight row length
`width * bytesPerPixel`, and a row copy that either is not the SSE2 streaming
copy, or has a row length that is a multiple of 128 with source and
destination 16-byte aligned: after `RemovePadding` the first `height * stride`
bytes of the destination equal the first `height * stride` bytes of the
source. -/
theorem C5_RemovePadding_tight_is_copy (c : spoutCopy) (m : Mem)
    (source dest width height stride glFormat : Nat)
    (hfmt : glFormat = GL_RGB ∨ glFormat = GL_BGR_EXT ∨ glFormat = GL_RGBA ∨
      glFormat = GL_BGRA_EXT)
    (hs32 : stride < 4294967296)
    (hst : stride = width * bytesPerPixel glFormat)
    (hsrc : source ≠ 0) (hdst : dest ≠ 0)
    (hsep : source + height * stride ≤ dest ∨ dest + height * stride ≤ source)
    (hpath : c.m_bSSE2 = false ∨ stride < 320 ∨ stride % 16 ≠ 0 ∨
      (stride % 128 = 0 ∧ source % 16 = 0 ∧ dest % 16 = 0)) :
    ∀ i, i < height * stride →
      RemovePadding c m source dest width height stride glFormat (dest + i) =
        m (source + i) := by
  intro i hi
  unfold RemovePadding
  rw [RemovePadding_pitch_eq width glFormat hfmt (by omega), ← hst]
  have hpos : 0 < stride := by
    rcases Nat.eq_zero_or_pos stride with h | h
    · rw [h] at hi; simp at hi
    · exact h
  have hpath6 : c.m_bSSE2 = false ∨ stride < 320 ∨ stride < 320 ∨ stride % 16 ≠ 0 ∨
      stride % 16 ≠ 0 ∨ stride % 128 = 0 := by
    rcases hpath with h | h | h | h
    · exact Or.inl h
    · exact Or.inr (Or.inl h)
    · exact Or.inr (Or.inr (Or.inr (Or.inl h)))
    · exact Or.inr (Or.inr (Or.inr (Or.inr (Or.inr h.1))))
  obtain ⟨h1, -⟩ := RemovePadding_loop_spec c stride stride hpath6 hs32 (le_refl _)
    height m source dest hsrc hdst hsep
  have hy : i / stride < height := by
    rw [Nat.div_lt_iff_lt_mul hpos]
    exact hi
  have hm : i % stride < stride := Nat.mod_lt _ hpos
  have hdm : i / stride * stride + i % stride = i := by
    rw [Nat.mul_comm]
    exact Nat.div_add_mod i stride
  have := h1 (i / stride) hy (i % stride) hm
  rw [show dest + i / stride * stride + i % stride = dest + i by omega,
    show source + i / stride * stride + i % stride = source + i by omega] at this
  exact this

/-- C5, witness: a 96 x 2 RGBA image with stride 384, the SSE2 flag set,
source at 1024 and destination at 4096. -/
theorem C5_RemovePadding_tight_is_copy_witness :
    (GL_RGBA = GL_RGB ∨ GL_RGBA = GL_BGR_EXT ∨ GL_RGBA = GL_RGBA ∨ GL_RGBA = GL_BGRA_EXT) ∧
    384 < 4294967296 ∧ 384 = 96 * bytesPerPixel GL_RGBA ∧ (1024 : Nat) ≠ 0 ∧ (4096 : Nat) ≠ 0 ∧
    (1024 + 2 * 384 ≤ 4096 ∨ 4096 + 2 * 384 ≤ 1024) ∧
    ((⟨true, false, false⟩ : spoutCopy).m_bSSE2 = false ∨ 384 < 320 ∨ 384 % 16 ≠ 0 ∨
      (384 % 128 = 0 ∧ 1024 % 16 = 0 ∧ 4096 % 16 = 0)) ∧
    RemovePadding ⟨true, false, false⟩ rampMem 1024 4096 96 2 384 GL_RGBA (4096 + 500) =
      rampMem (1024 + 500) :=
  ⟨by decide, by decide, by decide, by decide, by decide, by decide, by decide,
    C5_RemovePadding_tight_is_copy ⟨true, false, false⟩ rampMem 1024 4096 96 2 384 GL_RGBA
      (by decide) (by decide) (by decide) (by decide) (by decide) (by decide) (by decide)
      500 (by decide)⟩

/-- C6 (code defect).  The whole-image `rgba2bgra` on a 16 x 1 image with no
capability flag set runs no kernel: the memory is unchanged, and destination
byte 0 is not byte 2 of the source pixel. -/
theorem C6_rgba2bgra_width16_noSSE2_writes_nothing :
    rgba2bgra ⟨false, false, false⟩ rampMem 1000 2000 16 1 false = rampMem ∧
    rampMem 2000 ≠ rampMem (1000 + 2) := by
  refine ⟨?_, by decide⟩
  simp [rgba2bgra, rgba2bgra_select]

/-- C7.  For every width with `width + 3` representable as `unsigned int`,
every height, invert flag, source and destination address (hence every
alignment of the destination pointer), when in every row the destination row
does not overwrite source pixels still to be read (as is the case for disjoint
buffers, `kernel_rows_of_disjoint`), the SSE2 kernel `rgba_bgra_sse2` leaves
the memory exactly as the scalar kernel `rgba_bgra` does. -/
theorem C7_rgba_bgra_sse2_eq_rgba_bgra (m : Mem) (src dst width height : Nat)
    (bInvert : Bool) (hw : width + 3 < 4294967296)
    (hrow : ∀ y, y < height →
      kernelDest dst width y ≤ kernelSource src width height bInvert y ∨
      kernelSource src width height bInvert y + 4 * width ≤ kernelDest dst width y) :
    rgba_bgra_sse2 m src dst width height bInvert = rgba_bgra m src dst width height bInvert := by
  unfold rgba_bgra_sse2 rgba_bgra
  split_ifs
  · rfl
  · rfl
  · apply forLoop_congr
    intro y hy acc
    rw [sse2_row_eq _ _ _ _ hw (hrow y hy), scalar_row_eq _ _ _ _ (hrow y hy)]

/-- C7, witness: a 7 x 2 inverted image, destination one byte off a 16-byte
boundary. -/
theorem C7_rgba_bgra_sse2_eq_rgba_bgra_witness :
    7 + 3 < 4294967296 ∧
    (∀ y, y < 2 →
      kernelDest 2001 7 y ≤ kernelSource 1000 7 2 true y ∨
      kernelSource 1000 7 2 true y + 4 * 7 ≤ kernelDest 2001 7 y) ∧
    rgba_bgra_sse2 rampMem 1000 2001 7 2 true = rgba_bgra rampMem 1000 2001 7 2 true :=
  ⟨by decide, by decide,
    C7_rgba_bgra_sse2_eq_rgba_bgra rampMem 1000 2001 7 2 true (by decide) (by decide)⟩

/-- C8.  For every width that is a multiple of 16, every height and invert
flag, on non-null buffers that are 16-byte aligned (the kernel uses the aligned
load and store) and whose destination rows do not overwrite source pixels
still to be read, the shuffle kernel `rgba_bgra_sse3` leaves the memory exactly
as the scalar kernel `rgba_bgra` does; the source and destination pointers of
every row are 16-byte aligned, hence so is every 16-byte load and store of the
kernel; and the shuffle through its mask exchanges bytes 0 and 2 of each
4-byte group of a register and keeps bytes 1 and 3. -/
theorem C8_rgba_bgra_sse3_eq_rgba_bgra (m : Mem) (src dst width height : Nat)
    (bInvert : Bool) (hsrc : src ≠ 0) (hdst : dst ≠ 0)
    (hs16 : src % 16 = 0) (hd16 : dst % 16 = 0) (h16 : width % 16 = 0)
    (hrow : ∀ y, y < height →
      kernelDest dst width y ≤ kernelSource src width height bInvert y ∨
      kernelSource src width height bInvert y + 4 * width ≤ kernelDest dst width y) :
    rgba_bgra_sse3 m src dst width height bInvert = rgba_bgra m src dst width height bInvert ∧
    (∀ y, y < height →
      kernelSource src width height bInvert y % 16 = 0 ∧ kernelDest dst width y % 16 = 0) ∧
    ∀ (v : M128) (g : Fin 4),
      _mm_shuffle_epi8 v sse3_mask ⟨4 * g.val, by omega⟩ = v ⟨4 * g.val + 2, by omega⟩ ∧
      _mm_shuffle_epi8 v sse3_mask ⟨4 * g.val + 1, by omega⟩ = v ⟨4 * g.val + 1, by omega⟩ ∧
      _mm_shuffle_epi8 v sse3_mask ⟨4 * g.val + 2, by omega⟩ = v ⟨4 * g.val, by omega⟩ ∧
      _mm_shuffle_epi8 v sse3_mask ⟨4 * g.val + 3, by omega⟩ = v ⟨4 * g.val + 3, by omega⟩ := by
  refine ⟨?_, ?_, ?_⟩
  · unfold rgba_bgra_sse3 rgba_bgra
    rw [if_neg hsrc, if_neg hdst]
    apply forLoop_congr
    intro y hy acc
    rw [sse3_row_eq_of_mod _ _ _ _ h16 (hrow y hy), scalar_row_eq _ _ _ _ (hrow y hy)]
  · intro y _
    exact kernel_rows_aligned src dst width height bInvert y h16 hs16 hd16
  · intro v g
    fin_cases g <;> exact ⟨rfl, rfl, rfl, rfl⟩

/-- C8, witness: a 16 x 2 inverted image, source at 1024 and destination at
4096. -/
theorem C8_rgba_bgra_sse3_eq_rgba_bgra_witness :
    (1024 : Nat) ≠ 0 ∧ (4096 : Nat) ≠ 0 ∧ 1024 % 16 = 0 ∧ 4096 % 16 = 0 ∧ 16 % 16 = 0 ∧
    (∀ y, y < 2 →
      kernelDest 4096 16 y ≤ kernelSource 1024 16 2 true y ∨
      kernelSource 1024 16 2 true y + 4 * 16 ≤ kernelDest 4096 16 y) ∧
    rgba_bgra_sse3 rampMem 1024 4096 16 2 true = rgba_bgra rampMem 1024 4096 16 2 true :=
  ⟨by decide, by decide, by decide, by decide, by decide, by decide,
    (C8_rgba_bgra_sse3_eq_rgba_bgra rampMem 1024 4096 16 2 true (by decide) (by decide)
      (by decide) (by decide) (by decide) (by decide)).1⟩

/-- C9 (counterexample).  On a 1 x 1 image, with the source at 1024 and the
destination at 2048 (both 16-byte aligned), the shuffle kernel
`rgba_bgra_sse3` changes destination byte 4, a byte outside the single
pixel. -/
theorem C9_sse3_writes_outside_pixel :
    1024 % 16 = 0 ∧ 2048 % 16 = 0 ∧
    rgba_bgra_sse3 rampMem 1024 2048 1 1 false (2048 + 4) ≠ rampMem (2048 + 4) := by
  decide

/-- C9 (amended).  For every 1 x 1 four-channel image `{r,g,b,a}` at a
non-null source, with a non-null destination: the scalar kernel `rgba_bgra`
and the SSE2 kernel `rgba_bgra_sse2` write exactly the 4 bytes `{b,g,r,a}` to
the destination and change no byte outside the pixel; the shuffle kernel
`rgba_bgra_sse3`, when source and destination are 16-byte aligned (it uses the
aligned load and store), writes `{b,g,r,a}` to the destination pixel as well,
but works on a whole block of 16 pixels and changes no byte outside the 64
bytes at the destination.  Each written byte is a function of the source pixel
bytes alone. -/
theorem C9_one_pixel_kernels (m : Mem) (src dst : Nat) (bInvert : Bool)
    (hsrc : src ≠ 0) (hdst : dst ≠ 0) :
    (rgba_bgra m src dst 1 1 bInvert dst = m (src + 2) ∧
      rgba_bgra m src dst 1 1 bInvert (dst + 1) = m (src + 1) ∧
      rgba_bgra m src dst 1 1 bInvert (dst + 2) = m src ∧
      rgba_bgra m src dst 1 1 bInvert (dst + 3) = m (src + 3) ∧
      ∀ a, (a < dst ∨ dst + 4 ≤ a) → rgba_bgra m src dst 1 1 bInvert a = m a) ∧
    (rgba_bgra_sse2 m src dst 1 1 bInvert dst = m (src + 2) ∧
      rgba_bgra_sse2 m src dst 1 1 bInvert (dst + 1) = m (src + 1) ∧
      rgba_bgra_sse2 m src dst 1 1 bInvert (dst + 2) = m src ∧
      rgba_bgra_sse2 m src dst 1 1 bInvert (dst + 3) = m (src + 3) ∧
      ∀ a, (a < dst ∨ dst + 4 ≤ a) → rgba_bgra_sse2 m src dst 1 1 bInvert a = m a) ∧
    (src % 16 = 0 → dst % 16 = 0 →
      rgba_bgra_sse3 m src dst 1 1 bInvert dst = m (src + 2) ∧
      rgba_bgra_sse3 m src dst 1 1 bInvert (dst + 1) = m (src + 1) ∧
      rgba_bgra_sse3 m src dst 1 1 bInvert (dst + 2) = m src ∧
      rgba_bgra_sse3 m src dst 1 1 bInvert (dst + 3) = m (src + 3) ∧
      ∀ a, (a < dst ∨ dst + 64 ≤ a) → rgba_bgra_sse3 m src dst 1 1 bInvert a = m a) := by
  rw [rgba_bgra_one m src dst bInvert hsrc hdst, rgba_bgra_sse2_one m src dst bInvert hsrc hdst,
    rgba_bgra_sse3_one]
  obtain ⟨a0, a1, a2, a3⟩ := swapCopy_pixel0 m dst src 1 (by omega)
  obtain ⟨b0, b1, b2, b3⟩ := swapCopy_pixel0 m dst src 16 (by omega)
  exact ⟨⟨a0, a1, a2, a3, fun a h => swapCopy_apply_out _ _ _ _ _ (by omega)⟩,
    ⟨a0, a1, a2, a3, fun a h => swapCopy_apply_out _ _ _ _ _ (by omega)⟩,
    fun _ _ => ⟨b0, b1, b2, b3, fun a h => swapCopy_apply_out _ _ _ _ _ (by omega)⟩⟩

/-- C9, witness: the pixel `{10,20,30,40}` of the specification, at the
16-byte aligned source 1024 with the destination at 2048, gives
`{30,20,10,40}` with each of the three kernels. -/
theorem C9_one_pixel_kernels_witness :
    (1024 : Nat) ≠ 0 ∧ (2048 : Nat) ≠ 0 ∧ 1024 % 16 = 0 ∧ 2048 % 16 = 0 ∧
    (rgba_bgra px10203040 1024 2048 1 1 false 2048 = 30 ∧
      rgba_bgra px10203040 1024 2048 1 1 false (2048 + 1) = 20 ∧
      rgba_bgra px10203040 1024 2048 1 1 false (2048 + 2) = 10 ∧
      rgba_bgra px10203040 1024 2048 1 1 false (2048 + 3) = 40) ∧
    (rgba_bgra_sse2 px10203040 1024 2048 1 1 false 2048 = 30 ∧
      rgba_bgra_sse2 px10203040 1024 2048 1 1 false (2048 + 1) = 20 ∧
      rgba_bgra_sse2 px10203040 1024 2048 1 1 false (2048 + 2) = 10 ∧
      rgba_bgra_sse2 px10203040 1024 2048 1 1 false (2048 + 3) = 40) ∧
    (rgba_bgra_sse3 px10203040 1024 2048 1 1 false 2048 = 30 ∧
      rgba_bgra_sse3 px10203040 1024 2048 1 1 false (2048 + 1) = 20 ∧
      rgba_bgra_sse3 px10203040 1024 2048 1 1 false (2048 + 2) = 10 ∧
      rgba_bgra_sse3 px10203040 1024 2048 1 1 false (2048 + 3) = 40) :=
  have h := C9_one_pixel_kernels px10203040 1024 2048 false (by decide) (by decide)
  have h3 := h.2.2 (by decide) (by decide)
  ⟨by decide, by decide, by decide, by decide,
    ⟨h.1.1, h.1.2.1, h.1.2.2.1, h.1.2.2.2.1⟩,
    ⟨h.2.1.1, h.2.1.2.1, h.2.1.2.2.1, h.2.1.2.2.2.1⟩,
    ⟨h3.1, h3.2.1, h3.2.2.1, h3.2.2.2.1⟩⟩

/-- C10 (code defect).  The `rgba2bgra` overload with source and destination
pitch, on a 16 x 1 image (both pitches 64) with no capability flag set, runs
no kernel on the row: the memory is unchanged, and destination byte 0 is not
byte 2 of the source pixel. -/
theorem C10_rgba2bgra_pitch_width16_noSSE2_writes_nothing :
    rgba2bgra_sourcePitch_destPitch ⟨false, false, false⟩ rampMem 1000 2000 16 1 64 64 false =
      rampMem ∧
    rampMem 2000 ≠ rampMem (1000 + 2) := by
  refine ⟨?_, by decide⟩
  simp [rgba2bgra_sourcePitch_destPitch, rgba2bgra_select, forLoop]

/-- C11 (code defect).  On a 1 x 1 image the destination-pitch overload of
`bgr2rgba` writes the source bytes in source order, `(s0, s1, s2, 255)`, not
`(s2, s1, s0, 255)`; the overload without pitch writes `(s2, s1, s0, 255)`, so
the two overloads differ at `dest_pitch = 4 * width`. -/
theorem C11_bgr2rgba_dest_pitch_keeps_order :
    bgr2rgba_dest_pitch rampMem 1000 2000 1 1 4 false 2000 = rampMem 1000 ∧
    bgr2rgba_dest_pitch rampMem 1000 2000 1 1 4 false (2000 + 2) = rampMem (1000 + 2) ∧
    bgr2rgba rampMem 1000 2000 1 1 false 2000 = rampMem (1000 + 2) ∧
    rampMem 1000 ≠ rampMem (1000 + 2) := by
  decide

/-- C12.  For every width, height and invert flag, on non-null buffers that
do not overlap (the 3-channel image being at most `2^64` bytes), `bgr2rgba`
without pitch writes to destination pixel `(y, x)` the bytes
`(s2, s1, s0, 255)` of the source pixel `(s0, s1, s2)` at row
`rowOf height bInvert y` (`height - 1 - y` when inverting, else `y`),
column `x`. -/
theorem C12_bgr2rgba_pixels (m : Mem) (src dst width height : Nat) (bInvert : Bool)
    (hsrc : src ≠ 0) (hdst : dst ≠ 0) (hsz : width * height * 3 < 18446744073709551616)
    (hsep : src + 3 * (width * height) ≤ dst ∨ dst + height * (4 * width) ≤ src) :
    ∀ y x, y < height → x < width →
      bgr2rgba m src dst width height bInvert (dst + y * (4 * width) + 4 * x) =
        m (src + rowOf height bInvert y * (3 * width) + 3 * x + 2) ∧
      bgr2rgba m src dst width height bInvert (dst + y * (4 * width) + 4 * x + 1) =
        m (src + rowOf height bInvert y * (3 * width) + 3 * x + 1) ∧
      bgr2rgba m src dst width height bInvert (dst + y * (4 * width) + 4 * x + 2) =
        m (src + rowOf height bInvert y * (3 * width) + 3 * x) ∧
      bgr2rgba m src dst width height bInvert (dst + y * (4 * width) + 4 * x + 3) = 255 := by
  intro y x hy hx
  exact GridInv_swap4 _ _ _ _ _ (bgr2rgba_grid m src dst width height bInvert hsrc hdst hsz hsep)
    y x ⟨hy, hx⟩

/-- C12, witness: a 2 x 2 inverted image, destination pixel `(0, 1)`. -/
theorem C12_bgr2rgba_pixels_witness :
    (1000 : Nat) ≠ 0 ∧ (2000 : Nat) ≠ 0 ∧ 2 * 2 * 3 < 18446744073709551616 ∧
    (1000 + 3 * (2 * 2) ≤ 2000 ∨ 2000 + 2 * (4 * 2) ≤ 1000) ∧
    bgr2rgba rampMem 1000 2000 2 2 true (2000 + 0 * (4 * 2) + 4 * 1) =
      rampMem (1000 + rowOf 2 true 0 * (3 * 2) + 3 * 1 + 2) ∧
    bgr2rgba rampMem 1000 2000 2 2 true (2000 + 0 * (4 * 2) + 4 * 1 + 3) = 255 :=
  have h := C12_bgr2rgba_pixels rampMem 1000 2000 2 2 true (by decide) (by decide) (by decide)
    (by decide) 0 1 (by decide) (by decide)
  ⟨by decide, by decide, by decide, by decide, h.1, h.2.2.2⟩

/-- C13.  For every width, height and invert flag, and every
`dest_pitch >= 4 * width`, on non-null buffers that do not overlap, both
overloads of `rgb2rgba` write to destination pixel `(y, x)` the bytes
`(s0, s1, s2, 255)` of the source pixel `(s0, s1, s2)` at row
`rowOf height bInvert y`, column `x`; destination rows are `4 * width` bytes
apart without pitch and `dest_pitch` bytes apart with it. -/
theorem C13_rgb2rgba_pixels (m : Mem) (src dst width height dest_pitch : Nat)
    (bInvert : Bool) (hsrc : src ≠ 0) (hdst : dst ≠ 0)
    (hp : 4 * width ≤ dest_pitch) (hp32 : dest_pitch < 4294967296)
    (hsz : width * height * 3 < 18446744073709551616)
    (hsep : src + 3 * (width * height) ≤ dst ∨ dst + height * dest_pitch ≤ src) :
    ∀ y x, y < height → x < width →
      (rgb2rgba m src dst width height bInvert (dst + y * (4 * width) + 4 * x) =
          m (src + rowOf height bInvert y * (3 * width) + 3 * x) ∧
        rgb2rgba m src dst width height bInvert (dst + y * (4 * width) + 4 * x + 1) =
          m (src + rowOf height bInvert y * (3 * width) + 3 * x + 1) ∧
        rgb2rgba m src dst width height bInvert (dst + y * (4 * width) + 4 * x + 2) =
          m (src + rowOf height bInvert y * (3 * width) + 3 * x + 2) ∧
        rgb2rgba m src dst width height bInvert (dst + y * (4 * width) + 4 * x + 3) = 255) ∧
      (rgb2rgba_dest_pitch m src dst width height dest_pitch bInvert
            (dst + y * dest_pitch + 4 * x) =
          m (src + rowOf height bInvert y * (3 * width) + 3 * x) ∧
        rgb2rgba_dest_pitch m src dst width height dest_pitch bInvert
            (dst + y * dest_pitch + 4 * x + 1) =
          m (src + rowOf height bInvert y * (3 * width) + 3 * x + 1) ∧
        rgb2rgba_dest_pitch m src dst width height dest_pitch bInvert
            (dst + y * dest_pitch + 4 * x + 2) =
          m (src + rowOf height bInvert y * (3 * width) + 3 * x + 2) ∧
        rgb2rgba_dest_pitch m src dst width height dest_pitch bInvert
            (dst + y * dest_pitch + 4 * x + 3) = 255) := by
  intro y x hy hx
  exact ⟨GridInv_keep4 _ _ _ _ _ (rgb2rgba_grid m src dst width height bInvert hsrc hdst hsz
      (sep_pitch_34 src dst width height dest_pitch hp hsep)) y x ⟨hy, hx⟩,
    GridInv_keep4 _ _ _ _ _ (rgb2rgba_dest_pitch_grid m src dst width height dest_pitch bInvert
      hsrc hdst hp hp32 hsz hsep) y x ⟨hy, hx⟩⟩

/-- C13, witness: the two-row scenario, 2 x 2 pixels, `bInvert = false`:
destination pixel `(1, 0)` is source pixel `(1, 0)` with alpha 255. -/
theorem C13_rgb2rgba_pixels_witness :
    (1000 : Nat) ≠ 0 ∧ (2000 : Nat) ≠ 0 ∧ 4 * 2 ≤ 12 ∧ 12 < 4294967296 ∧
    2 * 2 * 3 < 18446744073709551616 ∧
    (1000 + 3 * (2 * 2) ≤ 2000 ∨ 2000 + 2 * 12 ≤ 1000) ∧
    rgb2rgba rampMem 1000 2000 2 2 false (2000 + 1 * (4 * 2) + 4 * 0) =
      rampMem (1000 + 1 * (3 * 2) + 3 * 0) ∧
    rgb2rgba rampMem 1000 2000 2 2 false (2000 + 1 * (4 * 2) + 4 * 0 + 3) = 255 ∧
    rgb2rgba_dest_pitch rampMem 1000 2000 2 2 12 false (2000 + 1 * 12 + 4 * 0) =
      rampMem (1000 + 1 * (3 * 2) + 3 * 0) :=
  have h := C13_rgb2rgba_pixels rampMem 1000 2000 2 2 12 false (by decide) (by decide)
    (by decide) (by decide) (by decide) (by decide) 1 0 (by decide) (by decide)
  ⟨by decide, by decide, by decide, by decide, by decide, by decide, h.1.1, h.1.2.2.2, h.2.1⟩

/-- C14.  For every width, height and invert flag, and every
`dest_pitch >= 4 * width`, on non-null buffers that do not overlap, both
overloads of `rgb2bgra` write to destination pixel `(y, x)` the bytes
`(s2, s1, s0, 255)` of the source pixel `(s0, s1, s2)` at row
`rowOf height bInvert y`, column `x`; and with `dest_pitch = 4 * width` the
overload with pitch leaves the memory exactly as the overload without. -/
theorem C14_rgb2bgra_pixels (m : Mem) (src dst width height dest_pitch : Nat)
    (bInvert : Bool) (hsrc : src ≠ 0) (hdst : dst ≠ 0)
    (hp : 4 * width ≤ dest_pitch) (hp32 : dest_pitch < 4294967296)
    (hsz : width * height * 3 < 18446744073709551616)
    (hsep : src + 3 * (width * height) ≤ dst ∨ dst + height * dest_pitch ≤ src) :
    (∀ y x, y < height → x < width →
      (rgb2bgra m src dst width height bInvert (dst + y * (4 * width) + 4 * x) =
          m (src + rowOf height bInvert y * (3 * width) + 3 * x + 2) ∧
        rgb2bgra m src dst width height bInvert (dst + y * (4 * width) + 4 * x + 1) =
          m (src + rowOf height bInvert y * (3 * width) + 3 * x + 1) ∧
        rgb2bgra m src dst width height bInvert (dst + y * (4 * width) + 4 * x + 2) =
          m (src + rowOf height bInvert y * (3 * width) + 3 * x) ∧
        rgb2bgra m src dst width height bInvert (dst + y * (4 * width) + 4 * x + 3) = 255) ∧
      (rgb2bgra_dest_pitch m src dst width height dest_pitch bInvert
            (dst + y * dest_pitch + 4 * x) =
          m (src + rowOf height bInvert y * (3 * width) + 3 * x + 2) ∧
        rgb2bgra_dest_pitch m src dst width height dest_pitch bInvert
            (dst + y * dest_pitch + 4 * x + 1) =
          m (src + rowOf height bInvert y * (3 * width) + 3 * x + 1) ∧
        rgb2bgra_dest_pitch m src dst width height dest_pitch bInvert
            (dst + y * dest_pitch + 4 * x + 2) =
          m (src + rowOf height bInvert y * (3 * width) + 3 * x) ∧
        rgb2bgra_dest_pitch m src dst width height dest_pitch bInvert
            (dst + y * dest_pitch + 4 * x + 3) = 255)) ∧
    rgb2bgra_dest_pitch m src dst width height (4 * width) bInvert =
      rgb2bgra m src dst width height bInvert := by
  refine ⟨?_, ?_⟩
  · intro y x hy hx
    exact ⟨GridInv_swap4 _ _ _ _ _ (rgb2bgra_grid m src dst width height bInvert hsrc hdst hsz
        (sep_pitch_34 src dst width height dest_pitch hp hsep)) y x ⟨hy, hx⟩,
      GridInv_swap4 _ _ _ _ _ (rgb2bgra_dest_pitch_grid m src dst width height dest_pitch bInvert
        hsrc hdst hp hp32 hsz hsep) y x ⟨hy, hx⟩⟩
  · unfold rgb2bgra_dest_pitch rgb2bgra
    rw [usub64_self (4 * width) (width * 4) (by omega)]
    rfl

/-- C14, witness: a 2 x 2 inverted image with destination pitch 12. -/
theorem C14_rgb2bgra_pixels_witness :
    (1000 : Nat) ≠ 0 ∧ (2000 : Nat) ≠ 0 ∧ 4 * 2 ≤ 12 ∧ 12 < 4294967296 ∧
    2 * 2 * 3 < 18446744073709551616 ∧
    (1000 + 3 * (2 * 2) ≤ 2000 ∨ 2000 + 2 * 12 ≤ 1000) ∧
    rgb2bgra rampMem 1000 2000 2 2 true (2000 + 0 * (4 * 2) + 4 * 1) =
      rampMem (1000 + rowOf 2 true 0 * (3 * 2) + 3 * 1 + 2) ∧
    rgb2bgra_dest_pitch rampMem 1000 2000 2 2 12 true (2000 + 0 * 12 + 4 * 1) =
      rampMem (1000 + rowOf 2 true 0 * (3 * 2) + 3 * 1 + 2) ∧
    rgb2bgra_dest_pitch rampMem 1000 2000 2 2 (4 * 2) true = rgb2bgra rampMem 1000 2000 2 2 true :=
  have h := C14_rgb2bgra_pixels rampMem 1000 2000 2 2 12 true (by decide) (by decide)
    (by decide) (by decide) (by decide) (by decide)
  ⟨by decide, by decide, by decide, by decide, by decide, by decide,
    (h.1 0 1 (by decide) (by decide)).1.1, (h.1 0 1 (by decide) (by decide)).2.1, h.2⟩

/-- C15.  For every width, height and invert flag, and every
`rgba_pitch >= 4 * width`, on non-null buffers that do not overlap, both
overloads of `rgba2bgr` write to the 3-byte destination pixel at row
`rowOf height bInvert y`, column `x` the bytes `(s2, s1, s0)` of the 4-byte
source pixel `(s0, s1, s2, s3)` at `(y, x)`; and with
`rgba_pitch = 4 * width` the overload with pitch leaves the memory exactly as
the overload without. -/
theorem C15_rgba2bgr_pixels (m : Mem) (src dst width height rgba_pitch : Nat)
    (bInvert : Bool) (hsrc : src ≠ 0) (hdst : dst ≠ 0)
    (hp : 4 * width ≤ rgba_pitch) (hp32 : rgba_pitch < 4294967296)
    (hsz : width * height * 3 < 18446744073709551616)
    (hsep : src + height * rgba_pitch ≤ dst ∨ dst + 3 * (width * height) ≤ src) :
    (∀ y x, y < height → x < width →
      (rgba2bgr m src dst width height bInvert
            (dst + rowOf height bInvert y * (3 * width) + 3 * x) =
          m (src + y * (4 * width) + 4 * x + 2) ∧
        rgba2bgr m src dst width height bInvert
            (dst + rowOf height bInvert y * (3 * width) + 3 * x + 1) =
          m (src + y * (4 * width) + 4 * x + 1) ∧
        rgba2bgr m src dst width height bInvert
            (dst + rowOf height bInvert y * (3 * width) + 3 * x + 2) =
          m (src + y * (4 * width) + 4 * x)) ∧
      (rgba2bgr_rgba_pitch m src dst width height rgba_pitch bInvert
            (dst + rowOf height bInvert y * (3 * width) + 3 * x) =
          m (src + y * rgba_pitch + 4 * x + 2) ∧
        rgba2bgr_rgba_pitch m src dst width height rgba_pitch bInvert
            (dst + rowOf height bInvert y * (3 * width) + 3 * x + 1) =
          m (src + y * rgba_pitch + 4 * x + 1) ∧
        rgba2bgr_rgba_pitch m src dst width height rgba_pitch bInvert
            (dst + rowOf height bInvert y * (3 * width) + 3 * x + 2) =
          m (src + y * rgba_pitch + 4 * x))) ∧
    rgba2bgr_rgba_pitch m src dst width height (4 * width) bInvert =
      rgba2bgr m src dst width height bInvert := by
  refine ⟨?_, ?_⟩
  · intro y x hy hx
    exact ⟨GridInv_swap3 _ _ _ _ _ (rgba2bgr_grid m src dst width height bInvert hsrc hdst hsz
        (sep_pitch_43 src dst width height rgba_pitch hp hsep)) y x ⟨hy, hx⟩,
      GridInv_swap3 _ _ _ _ _ (rgba2bgr_rgba_pitch_grid m src dst width height rgba_pitch bInvert
        hsrc hdst hp hp32 hsz hsep) y x ⟨hy, hx⟩⟩
  · have h1 := rgba2bgr_grid m src dst width height bInvert hsrc hdst hsz
      (sep_pitch_43 src dst width height rgba_pitch hp hsep)
    have h2 := rgba2bgr_rgba_pitch_grid m src dst width height (4 * width) bInvert hsrc hdst
      (le_refl _) (by omega) hsz (sep_pitch_43 src dst width height rgba_pitch hp hsep)
    funext a
    by_cases ha : ∀ y x, y < height ∧ x < width →
        a < dst + rowOf height bInvert y * (3 * width) + 3 * x ∨
        dst + rowOf height bInvert y * (3 * width) + 3 * x + 3 ≤ a
    · rw [h1.2 a ha, h2.2 a ha]
    · push_neg at ha
      obtain ⟨y, x, hd, ha1, ha2⟩ := ha
      obtain ⟨k, rfl⟩ : ∃ k, a = dst + rowOf height bInvert y * (3 * width) + 3 * x + k :=
        ⟨a - (dst + rowOf height bInvert y * (3 * width) + 3 * x), by omega⟩
      rw [h1.1 y x hd k (by omega), h2.1 y x hd k (by omega)]

/-- C15, witness: a 2 x 2 inverted image with source pitch 12. -/
theorem C15_rgba2bgr_pixels_witness :
    (1000 : Nat) ≠ 0 ∧ (2000 : Nat) ≠ 0 ∧ 4 * 2 ≤ 12 ∧ 12 < 4294967296 ∧
    2 * 2 * 3 < 18446744073709551616 ∧
    (1000 + 2 * 12 ≤ 2000 ∨ 2000 + 3 * (2 * 2) ≤ 1000) ∧
    rgba2bgr rampMem 1000 2000 2 2 true (2000 + rowOf 2 true 0 * (3 * 2) + 3 * 1) =
      rampMem (1000 + 0 * (4 * 2) + 4 * 1 + 2) ∧
    rgba2bgr_rgba_pitch rampMem 1000 2000 2 2 12 true
        (2000 + rowOf 2 true 1 * (3 * 2) + 3 * 1) = rampMem (1000 + 1 * 12 + 4 * 1 + 2) ∧
    rgba2bgr_rgba_pitch rampMem 1000 2000 2 2 (4 * 2) true = rgba2bgr rampMem 1000 2000 2 2 true :=
  have h := C15_rgba2bgr_pixels rampMem 1000 2000 2 2 12 true (by decide) (by decide)
    (by decide) (by decide) (by decide) (by decide)
  ⟨by decide, by decide, by decide, by decide, by decide, by decide,
    (h.1 0 1 (by decide) (by decide)).1.1, (h.1 1 1 (by decide) (by decide)).2.1, h.2⟩

/-- C16.  For every width, height and invert flag, on non-null buffers that
do not overlap, `bgra2rgb` writes to the 3-byte destination pixel at row
`rowOf height bInvert y`, column `x` the bytes `(s2, s1, s0)` of the 4-byte
source pixel `(s0, s1, s2, s3)` at `(y, x)`. -/
theorem C16_bgra2rgb_pixels (m : Mem) (src dst width height : Nat) (bInvert : Bool)
    (hsrc : src ≠ 0) (hdst : dst ≠ 0) (hsz : width * height * 3 < 18446744073709551616)
    (hsep : src + height * (4 * width) ≤ dst ∨ dst + 3 * (width * height) ≤ src) :
    ∀ y x, y < height → x < width →
      bgra2rgb m src dst width height bInvert
          (dst + rowOf height bInvert y * (3 * width) + 3 * x) =
        m (src + y * (4 * width) + 4 * x + 2) ∧
      bgra2rgb m src dst width height bInvert
          (dst + rowOf height bInvert y * (3 * width) + 3 * x + 1) =
        m (src + y * (4 * width) + 4 * x + 1) ∧
      bgra2rgb m src dst width height bInvert
          (dst + rowOf height bInvert y * (3 * width) + 3 * x + 2) =
        m (src + y * (4 * width) + 4 * x) := by
  intro y x hy hx
  exact GridInv_swap3 _ _ _ _ _ (bgra2rgb_grid m src dst width height bInvert hsrc hdst hsz hsep)
    y x ⟨hy, hx⟩

/-- C16, witness: the source pixel `{5, 6, 7, 8}` gives `{7, 6, 5}`. -/
theorem C16_bgra2rgb_pixels_witness :
    (1000 : Nat) ≠ 0 ∧ (2000 : Nat) ≠ 0 ∧ 1 * 1 * 3 < 18446744073709551616 ∧
    (1000 + 1 * (4 * 1) ≤ 2000 ∨ 2000 + 3 * (1 * 1) ≤ 1000) ∧
    bgra2rgb px5678 1000 2000 1 1 false 2000 = 7 ∧
    bgra2rgb px5678 1000 2000 1 1 false (2000 + 1) = 6 ∧
    bgra2rgb px5678 1000 2000 1 1 false (2000 + 2) = 5 :=
  have h := C16_bgra2rgb_pixels px5678 1000 2000 1 1 false (by decide) (by decide) (by decide)
    (by decide) 0 0 (by decide) (by decide)
  ⟨by decide, by decide, by decide, by decide, h.1, h.2.1, h.2.2⟩

/-- C17.  For every width, height and invert flag, on non-null buffers that
do not overlap: `bgr2bgra` writes to destination pixel `(y, x)` the bytes
`(s0, s1, s2, 255)` of the source pixel `(s0, s1, s2)` at row
`rowOf height bInvert y`; `bgra2bgr` writes to the destination pixel at row
`rowOf height bInvert y` the bytes `(s0, s1, s2)` of the source pixel
`(s0, s1, s2, s3)` at `(y, x)`; and `bgra2bgr` applied to the output of
`bgr2bgra`, with the same invert flag, gives back every byte of the original
BGR image. -/
theorem C17_bgr_bgra_round_trip (m : Mem) (src mid out width height : Nat) (bInvert : Bool)
    (hsrc : src ≠ 0) (hmid : mid ≠ 0) (hout : out ≠ 0)
    (hsz : width * height * 3 < 18446744073709551616)
    (hsep1 : src + 3 * (width * height) ≤ mid ∨ mid + height * (4 * width) ≤ src)
    (hsep2 : mid + height * (4 * width) ≤ out ∨ out + 3 * (width * height) ≤ mid) :
    (∀ y x, y < height → x < width →
      bgr2bgra m src mid width height bInvert (mid + y * (4 * width) + 4 * x) =
        m (src + rowOf height bInvert y * (3 * width) + 3 * x) ∧
      bgr2bgra m src mid width height bInvert (mid + y * (4 * width) + 4 * x + 1) =
        m (src + rowOf height bInvert y * (3 * width) + 3 * x + 1) ∧
      bgr2bgra m src mid width height bInvert (mid + y * (4 * width) + 4 * x + 2) =
        m (src + rowOf height bInvert y * (3 * width) + 3 * x + 2) ∧
      bgr2bgra m src mid width height bInvert (mid + y * (4 * width) + 4 * x + 3) = 255) ∧
    (∀ y x, y < height → x < width →
      bgra2bgr m mid out width height bInvert
          (out + rowOf height bInvert y * (3 * width) + 3 * x) =
        m (mid + y * (4 * width) + 4 * x) ∧
      bgra2bgr m mid out width height bInvert
          (out + rowOf height bInvert y * (3 * width) + 3 * x + 1) =
        m (mid + y * (4 * width) + 4 * x + 1) ∧
      bgra2bgr m mid out width height bInvert
          (out + rowOf height bInvert y * (3 * width) + 3 * x + 2) =
        m (mid + y * (4 * width) + 4 * x + 2)) ∧
    (∀ r x k, r < height → x < width → k < 3 →
      bgra2bgr (bgr2bgra m src mid width height bInvert) mid out width height bInvert
          (out + r * (3 * width) + 3 * x + k) =
        m (src + r * (3 * width) + 3 * x + k)) := by
  have g1 := bgr2bgra_grid m src mid width height bInvert hsrc hmid hsz hsep1
  refine ⟨?_, ?_, ?_⟩
  · intro y x hy hx
    exact GridInv_keep4 _ _ _ _ _ g1 y x ⟨hy, hx⟩
  · intro y x hy hx
    exact GridInv_keep3 _ _ _ _ _
      (bgra2bgr_grid m mid out width height bInvert hmid hout hsz hsep2) y x ⟨hy, hx⟩
  · intro r x k hr hx hk
    have g2 := bgra2bgr_grid (bgr2bgra m src mid width height bInvert) mid out width height
      bInvert hmid hout hsz hsep2
    have hy := rowOf_lt height bInvert r hr
    have a2 := g2.1 (rowOf height bInvert r) x ⟨hy, hx⟩ k hk
    have a1 := g1.1 (rowOf height bInvert r) x ⟨hy, hx⟩ k (by omega)
    simp only [rowOf_rowOf height bInvert r hr] at a1 a2
    have e : selKeep k = some k := by simp [selKeep, hk]
    simp only [pixVal, e] at a1 a2
    rw [a2, a1]

/-- C17, witness: a 2 x 2 inverted image through an intermediate BGRA buffer. -/
theorem C17_bgr_bgra_round_trip_witness :
    (1000 : Nat) ≠ 0 ∧ (2000 : Nat) ≠ 0 ∧ (3000 : Nat) ≠ 0 ∧
    2 * 2 * 3 < 18446744073709551616 ∧
    (1000 + 3 * (2 * 2) ≤ 2000 ∨ 2000 + 2 * (4 * 2) ≤ 1000) ∧
    (2000 + 2 * (4 * 2) ≤ 3000 ∨ 3000 + 3 * (2 * 2) ≤ 2000) ∧
    bgra2bgr (bgr2bgra rampMem 1000 2000 2 2 true) 2000 3000 2 2 true
        (3000 + 1 * (3 * 2) + 3 * 1 + 2) = rampMem (1000 + 1 * (3 * 2) + 3 * 1 + 2) :=
  ⟨by decide, by decide, by decide, by decide, by decide, by decide,
    (C17_bgr_bgra_round_trip rampMem 1000 2000 3000 2 2 true (by decide) (by decide)
      (by decide) (by decide) (by decide) (by decide)).2.2 1 1 2 (by decide) (by decide)
      (by decide)⟩

/-- C18.  For every width, height, `rgba_pitch >= 4 * width` and every
combination of invert, mirror and swapRB, on non-null buffers that do not
overlap, `rgba2rgb` writes the 4-byte source pixel `(s0, s1, s2, s3)` at row
`y` (byte offset `y * rgba_pitch`), column `x` to the tightly packed 3-byte
destination pixel at row `rowOf height bInvert y`, column
`colOf width bMirror x`, as `(s0, s1, s2)` when `bSwapRB` is false and
`(s2, s1, s0)` when it is true. -/
theorem C18_rgba2rgb_pixels (m : Mem) (src dst width height rgba_pitch : Nat)
    (bInvert bMirror bSwapRB : Bool) (hsrc : src ≠ 0) (hdst : dst ≠ 0)
    (hp : 4 * width ≤ rgba_pitch) (hp32 : rgba_pitch < 4294967296)
    (hsz : width * height * 3 < 18446744073709551616)
    (hsep : src + height * rgba_pitch ≤ dst ∨ dst + 3 * (width * height) ≤ src) :
    ∀ y x, y < height → x < width →
      rgba2rgb m src dst width height rgba_pitch bInvert bMirror bSwapRB
          (dst + rowOf height bInvert y * (3 * width) + 3 * colOf width bMirror x) =
        m (src + y * rgba_pitch + 4 * x + (if bSwapRB then 2 else 0)) ∧
      rgba2rgb m src dst width height rgba_pitch bInvert bMirror bSwapRB
          (dst + rowOf height bInvert y * (3 * width) + 3 * colOf width bMirror x + 1) =
        m (src + y * rgba_pitch + 4 * x + 1) ∧
      rgba2rgb m src dst width height rgba_pitch bInvert bMirror bSwapRB
          (dst + rowOf height bInvert y * (3 * width) + 3 * colOf width bMirror x + 2) =
        m (src + y * rgba_pitch + 4 * x + (if bSwapRB then 0 else 2)) := by
  intro y x hy hx
  exact GridInv_swapRB3 bSwapRB _ _ _ _ _
    (rgba2rgb_grid m src dst width height rgba_pitch bInvert bMirror bSwapRB hsrc hdst hp hp32
      hsz hsep) y x ⟨hy, hx⟩

/-- C18, witness: a 2 x 2 image with source pitch 12, inverted, mirrored and
with red and blue swapped: source pixel `(0, 0)` lands at row 1, column 1. -/
theorem C18_rgba2rgb_pixels_witness :
    (1000 : Nat) ≠ 0 ∧ (2000 : Nat) ≠ 0 ∧ 4 * 2 ≤ 12 ∧ 12 < 4294967296 ∧
    2 * 2 * 3 < 18446744073709551616 ∧
    (1000 + 2 * 12 ≤ 2000 ∨ 2000 + 3 * (2 * 2) ≤ 1000) ∧
    rgba2rgb rampMem 1000 2000 2 2 12 true true true
        (2000 + rowOf 2 true 0 * (3 * 2) + 3 * colOf 2 true 0) =
      rampMem (1000 + 0 * 12 + 4 * 0 + 2) ∧
    rgba2rgb rampMem 1000 2000 2 2 12 true true true
        (2000 + rowOf 2 true 0 * (3 * 2) + 3 * colOf 2 true 0 + 2) =
      rampMem (1000 + 0 * 12 + 4 * 0 + 0) :=
  have h := C18_rgba2rgb_pixels rampMem 1000 2000 2 2 12 true true true (by decide) (by decide)
    (by decide) (by decide) (by decide) (by decide) 0 0 (by decide) (by decide)
  ⟨by decide, by decide, by decide, by decide, by decide, by decide, h.1, h.2.2⟩

/-- C19.  For every width, height and tightly packed RGBA image
(`rgba_pitch = 4 * width`), on non-null buffers of which the intermediate RGB
buffer overlaps neither the source nor the final destination: `rgba2rgb` with
invert, mirror and swapRB all false followed by `rgb2rgba` with invert false
gives an image in which every pixel has the original bytes 0, 1 and 2 and
byte 3 equal to 255. -/
theorem C19_rgba_rgb_rgba_round_trip (m : Mem) (src mid out width height : Nat)
    (hsrc : src ≠ 0) (hmid : mid ≠ 0) (hout : out ≠ 0) (hw : 4 * width < 4294967296)
    (hsz : width * height * 3 < 18446744073709551616)
    (hsep1 : src + height * (4 * width) ≤ mid ∨ mid + 3 * (width * height) ≤ src)
    (hsep2 : mid + 3 * (width * height) ≤ out ∨ out + height * (4 * width) ≤ mid) :
    ∀ y x, y < height → x < width →
      rgb2rgba (rgba2rgb m src mid width height (4 * width) false false false) mid out width
          height false (out + y * (4 * width) + 4 * x) =
        m (src + y * (4 * width) + 4 * x) ∧
      rgb2rgba (rgba2rgb m src mid width height (4 * width) false false false) mid out width
          height false (out + y * (4 * width) + 4 * x + 1) =
        m (src + y * (4 * width) + 4 * x + 1) ∧
      rgb2rgba (rgba2rgb m src mid width height (4 * width) false false false) mid out width
          height false (out + y * (4 * width) + 4 * x + 2) =
        m (src + y * (4 * width) + 4 * x + 2) ∧
      rgb2rgba (rgba2rgb m src mid width height (4 * width) false false false) mid out width
          height false (out + y * (4 * width) + 4 * x + 3) = 255 := by
  intro y x hy hx
  have g1 := GridInv_swapRB3 false _ _ _ _ _
    (rgba2rgb_grid m src mid width height (4 * width) false false false hsrc hmid (le_refl _) hw
      hsz hsep1) y x ⟨hy, hx⟩
  have g2 := GridInv_keep4 _ _ _ _ _
    (rgb2rgba_grid (rgba2rgb m src mid width height (4 * width) false false false) mid out
      width height false hmid hout hsz hsep2) y x ⟨hy, hx⟩
  simp only [rowOf, colOf, Bool.false_eq_true, if_false, Nat.add_zero] at g1 g2
  exact ⟨g2.1.trans g1.1, g2.2.1.trans g1.2.1, g2.2.2.1.trans g1.2.2, g2.2.2.2⟩

/-- C19, witness: a 2 x 2 image, pixel `(1, 1)`. -/
theorem C19_rgba_rgb_rgba_round_trip_witness :
    (1000 : Nat) ≠ 0 ∧ (2000 : Nat) ≠ 0 ∧ (3000 : Nat) ≠ 0 ∧ 4 * 2 < 4294967296 ∧
    2 * 2 * 3 < 18446744073709551616 ∧
    (1000 + 2 * (4 * 2) ≤ 2000 ∨ 2000 + 3 * (2 * 2) ≤ 1000) ∧
    (2000 + 3 * (2 * 2) ≤ 3000 ∨ 3000 + 2 * (4 * 2) ≤ 2000) ∧
    rgb2rgba (rgba2rgb rampMem 1000 2000 2 2 (4 * 2) false false false) 2000 3000 2 2 false
        (3000 + 1 * (4 * 2) + 4 * 1) = rampMem (1000 + 1 * (4 * 2) + 4 * 1) ∧
    rgb2rgba (rgba2rgb rampMem 1000 2000 2 2 (4 * 2) false false false) 2000 3000 2 2 false
        (3000 + 1 * (4 * 2) + 4 * 1 + 3) = 255 :=
  have h := C19_rgba_rgb_rgba_round_trip rampMem 1000 2000 3000 2 2 (by decide) (by decide)
    (by decide) (by decide) (by decide) (by decide) (by decide) 1 1 (by decide) (by decide)
  ⟨by decide, by decide, by decide, by decide, by decide, by decide, by decide, h.1, h.2.2.2⟩

/-- C20 (counterexample).  `CopyPixels` with a null destination on the plain
path (width below 320) does not return untouched: it hands the null pointer to
`memcpy`, and the byte at address 1 is overwritten with the second source
byte. -/
theorem C20_CopyPixels_null_dest_plain_path_writes :
    CopyPixels ⟨false, false, false⟩ rampMem 1000 0 2 1 GL_LUMINANCE false 1 = rampMem 1001 ∧
    rampMem 1001 ≠ rampMem 1 := by
  decide

/-- C20 (amended).  Only the SSE2 streaming copy tests its pointers: with a
null source or a null destination `memcpy_sse2` leaves the memory unchanged
for every size, and so does `CopyPixels` with `bInvert = false` whenever it
takes that path (width at least 320, `Size % 16 = 0`, SSE2 flag set), for
every height and layout. -/
theorem C20_null_noop_on_sse2_path (c : spoutCopy) (m : Mem)
    (source dest width height glFormat : Nat) (hnull : source = 0 ∨ dest = 0) :
    (∀ Size, memcpy_sse2 m dest source Size = m) ∧
    (320 ≤ width → CopyPixels_Size width height glFormat % 16 = 0 → c.m_bSSE2 = true →
      CopyPixels c m source dest width height glFormat false = m) := by
  have h1 : ∀ Size, memcpy_sse2 m dest source Size = m := by
    intro Size
    unfold memcpy_sse2
    rw [if_pos (by omega)]
  refine ⟨h1, ?_⟩
  intro hw h16 hc
  unfold CopyPixels
  simp only [Bool.false_eq_true, if_false]
  rw [if_neg (by omega), if_pos ⟨h16, hc⟩]
  exact h1 _

/-- C20, witness: a null source, 320 x 1 RGBA, SSE2 flag set. -/
theorem C20_null_noop_on_sse2_path_witness :
    ((0 : Nat) = 0 ∨ (4000 : Nat) = 0) ∧
    CopyPixels ⟨true, false, false⟩ rampMem 0 4000 320 1 GL_RGBA false = rampMem :=
  ⟨by decide,
    (C20_null_noop_on_sse2_path ⟨true, false, false⟩ rampMem 0 4000 320 1 GL_RGBA
      (by decide)).2 (by decide) (by decide) rfl⟩

/-- C21.  Every channel-reorder, channel-count-conversion and resampling
entry point (all overloads of `rgba2rgba`, `rgba2bgra`, `bgra2rgba`,
`rgba2rgb`, `rgb2rgba`, `bgr2rgba`, `rgb2bgra`, `bgr2bgra`, `rgba2bgr`,
`bgra2rgb`, `bgra2bgr`, `rgba2rgbaResample`, `rgba2rgbResample`,
`rgba2bgrResample`) called with a null source or a null destination returns
with the memory unchanged, for every width, height, pitch and flag. -/
theorem C21_null_pointer_is_noop (c : spoutCopy) (m : Mem) (source dest : Nat)
    (h : source = 0 ∨ dest = 0) :
    (∀ glFormat bFlip width height sourcePitch bInvert,
      rgba2rgba_sourcePitch c glFormat bFlip m source dest width height sourcePitch bInvert
        = m) ∧
    (∀ glFormat bFlip width height sourcePitch destPitch bInvert,
      rgba2rgba_sourcePitch_destPitch c glFormat bFlip m source dest width height sourcePitch
        destPitch bInvert = m) ∧
    (∀ width height bInvert, rgba2bgra c m source dest width height bInvert = m) ∧
    (∀ width height sourcePitch bInvert,
      rgba2bgra_sourcePitch c m source dest width height sourcePitch bInvert = m) ∧
    (∀ width height sourcePitch destPitch bInvert,
      rgba2bgra_sourcePitch_destPitch c m source dest width height sourcePitch destPitch
        bInvert = m) ∧
    (∀ width height bInvert, bgra2rgba c m source dest width height bInvert = m) ∧
    (∀ width height rgba_pitch bInvert bMirror bSwapRB,
      rgba2rgb m source dest width height rgba_pitch bInvert bMirror bSwapRB = m) ∧
    (∀ width height bInvert, rgb2rgba m source dest width height bInvert = m) ∧
    (∀ width height dest_pitch bInvert,
      rgb2rgba_dest_pitch m source dest width height dest_pitch bInvert = m) ∧
    (∀ width height bInvert, bgr2rgba m source dest width height bInvert = m) ∧
    (∀ width height dest_pitch bInvert,
      bgr2rgba_dest_pitch m source dest width height dest_pitch bInvert = m) ∧
    (∀ width height bInvert, rgb2bgra m source dest width height bInvert = m) ∧
    (∀ width height dest_pitch bInvert,
      rgb2bgra_dest_pitch m source dest width height dest_pitch bInvert = m) ∧
    (∀ width height bInvert, bgr2bgra m source dest width height bInvert = m) ∧
    (∀ width height bInvert, rgba2bgr m source dest width height bInvert = m) ∧
    (∀ width height rgba_pitch bInvert,
      rgba2bgr_rgba_pitch m source dest width height rgba_pitch bInvert = m) ∧
    (∀ width height bInvert, bgra2rgb m source dest width height bInvert = m) ∧
    (∀ width height bInvert, bgra2bgr m source dest width height bInvert = m) ∧
    (∀ sourceWidth sourceHeight sourcePitch destWidth destHeight bInvert,
      rgba2rgbaResample m source dest sourceWidth sourceHeight sourcePitch destWidth
        destHeight bInvert = m) ∧
    (∀ sourceWidth sourceHeight sourcePitch destWidth destHeight bInvert bMirror bSwapRB,
      rgba2rgbResample m source dest sourceWidth sourceHeight sourcePitch destWidth
        destHeight bInvert bMirror bSwapRB = m) ∧
    (∀ sourceWidth sourceHeight sourcePitch destWidth destHeight bInvert,
      rgba2bgrResample m source dest sourceWidth sourceHeight sourcePitch destWidth
        destHeight bInvert = m) := by
  have h' : dest = 0 ∨ source = 0 := h.symm
  refine ⟨?_, ?_, ?_, ?_, ?_, ?_, ?_, ?_, ?_, ?_, ?_, ?_, ?_, ?_, ?_, ?_, ?_, ?_, ?_, ?_, ?_⟩
  · intros; unfold rgba2rgba_sourcePitch; rw [if_pos h]
  · intros; unfold rgba2rgba_sourcePitch_destPitch; rw [if_pos h]
  · intros; unfold rgba2bgra; rw [if_pos h]
  · intros; unfold rgba2bgra_sourcePitch; rw [if_pos h]
  · intros; unfold rgba2bgra_sourcePitch_destPitch; rw [if_pos h]
  · intros; unfold bgra2rgba rgba2bgra; rw [if_pos h]
  · intros; unfold rgba2rgb; rw [if_pos h']
  · intros; unfold rgb2rgba; rw [if_pos h]
  · intros; unfold rgb2rgba_dest_pitch; rw [if_pos h]
  · intros; unfold bgr2rgba; rw [if_pos h]
  · intros; unfold bgr2rgba_dest_pitch; rw [if_pos h]
  · intros; unfold rgb2bgra; rw [if_pos h]
  · intros; unfold rgb2bgra_dest_pitch; rw [if_pos h]
  · intros; unfold bgr2bgra; rw [if_pos h]
  · intros; unfold rgba2bgr; rw [if_pos h]
  · intros; unfold rgba2bgr_rgba_pitch; rw [if_pos h]
  · intros; unfold bgra2rgb; rw [if_pos h]
  · intros; unfold bgra2bgr; rw [if_pos h]
  · intros; unfold rgba2rgbaResample; rw [if_pos h]
  · intros; unfold rgba2rgbResample; rw [if_pos h]
  · intros; unfold rgba2bgrResample; rw [if_pos h]

/-- C21, witness: a null destination, the source at address 1000; shown for
the first and the last entry point of the list. -/
theorem C21_null_pointer_is_noop_witness :
    ((1000 : Nat) = 0 ∨ (0 : Nat) = 0) ∧
    (∀ glFormat bFlip width height sourcePitch bInvert,
      rgba2rgba_sourcePitch ⟨true, true, true⟩ glFormat bFlip rampMem 1000 0 width height
        sourcePitch bInvert = rampMem) ∧
    (∀ sourceWidth sourceHeight sourcePitch destWidth destHeight bInvert,
      rgba2bgrResample rampMem 1000 0 sourceWidth sourceHeight sourcePitch destWidth
        destHeight bInvert = rampMem) :=
  ⟨Or.inr rfl,
    (C21_null_pointer_is_noop ⟨true, true, true⟩ rampMem 1000 0 (Or.inr rfl)).1,
    (C21_null_pointer_is_noop ⟨true, true, true⟩ rampMem 1000 0
      (Or.inr rfl)).2.2.2.2.2.2.2.2.2.2.2.2.2.2.2.2.2.2.2.2⟩

/-- C22 (as stated, false).  A 4096 x 4097 image resampled to its own size
with `sourcePitch = 4 * 4096` and no invert, the source at `2^32` and the
destination at `2^33`: for grid point `(4096, 1)` the sum
`py * sourcePitch + px * 4 = 2^26 + 4` is not a `float` and is rounded to
`2^26`, so byte 0 of destination pixel `(4096, 1)` receives byte 0 of source
pixel `(4096, 0)`, which differs from byte 0 of source pixel `(4096, 1)`. -/
theorem C22_large_image_reads_neighbour :
    nearestMatch 4096 4097 16384 4096 4097 4096 1 = 4096 * 16384 ∧
    rgba2rgbaResample rampMem 4294967296 8589934592 4096 4097 16384 4096 4097 false
        (8589934592 + 4096 * 16384 + 4) = rampMem (4294967296 + 4096 * 16384) ∧
    rampMem (4294967296 + 4096 * 16384) ≠ rampMem (4294967296 + 4096 * 16384 + 4) := by
  have hn : nearestMatch 4096 4097 16384 4096 4097 4096 1 = 4096 * 16384 := by decide
  refine ⟨hn, ?_, by decide⟩
  have hg := rgba2rgbaResample_grid rampMem 4294967296 8589934592 4096 4097 16384 4096 4097
    false (by decide) (by decide) (by decide)
    (reads_of_far 4294967296 8589934592 (4 * (4096 * 4097)) 4096 4097 16384 4096 4097
      (by decide) (by decide))
  have h := GridInv_all4 _ _ _ _ _ hg 4096 1 ⟨by decide, by decide⟩ 0 (by decide)
  have e : sampleAddr 4294967296 4096 4097 16384 4096 4097 4096 1 = 4294967296 + 4096 * 16384 := by
    unfold sampleAddr
    rw [hn]
    rfl
  simp only [e, rowOf, Bool.false_eq_true, if_false] at h
  exact h

/-- C22 (amended).  For every width > 0 and every height with
`width * height <= 2^24` (at most `2^24` pixels: every offset
`py * sourcePitch + px * 4` is then four times a whole number below `2^24` and
so a `float`), on non-null buffers that do not overlap, `rgba2rgbaResample`
with `destWidth == sourceWidth`, `destHeight == sourceHeight`,
`sourcePitch == 4 * sourceWidth` and invert false leaves the destination
identical to the first `width * height * 4` bytes of the source, and changes
nothing else. -/
theorem C22_unit_ratio_identity (m : Mem) (source dest width height : Nat)
    (hs : source ≠ 0) (hd : dest ≠ 0) (hw : 0 < width)
    (hsize : width * height ≤ 16777216)
    (hdisj : source + width * height * 4 ≤ dest ∨ dest + width * height * 4 ≤ source) :
    (∀ a, a < width * height * 4 →
      rgba2rgbaResample m source dest width height (4 * width) width height false (dest + a) =
        m (source + a)) ∧
    (∀ a, a < dest ∨ dest + width * height * 4 ≤ a →
      rgba2rgbaResample m source dest width height (4 * width) width height false a =
        m a) := by
  have e1 : height * (4 * width) = width * height * 4 := by ring
  have e2 : 4 * (width * height) = width * height * 4 := by ring
  have hread := reads_of_unit_ratio source dest (4 * (width * height)) width height hsize
    (by omega)
  have hg := rgba2rgbaResample_grid m source dest width height (4 * width) width height
    false hs hd (by omega) hread
  constructor
  · intro a ha
    have h4w : 0 < 4 * width := by omega
    have hi : a / (4 * width) < height := by
      rw [Nat.div_lt_iff_lt_mul h4w]
      omega
    have hj : a % (4 * width) / 4 < width := by
      have := Nat.mod_lt a h4w
      omega
    have hk : a % 4 < 4 := Nat.mod_lt _ (by norm_num)
    have h := GridInv_all4 _ _ _ _ _ hg (a / (4 * width)) (a % (4 * width) / 4) ⟨hi, hj⟩
      (a % 4) hk
    have hs' := sampleAddr_unit_ratio source width height
      (a / (4 * width)) (a % (4 * width) / 4) hi hj hsize
    rw [hs'] at h
    simp only [rowOf, Bool.false_eq_true, if_false] at h
    have hdm := Nat.div_add_mod a (4 * width)
    have hmm : a % (4 * width) % 4 = a % 4 := Nat.mod_mod_of_dvd a (Dvd.intro _ rfl)
    have ea : a / (4 * width) * (4 * width) + 4 * (a % (4 * width) / 4) + a % 4 = a := by
      have := Nat.div_add_mod (a % (4 * width)) 4
      rw [Nat.mul_comm] at hdm
      omega
    rw [show dest + a / (4 * width) * (4 * width) + 4 * (a % (4 * width) / 4) + a % 4 =
        dest + (a / (4 * width) * (4 * width) + 4 * (a % (4 * width) / 4) + a % 4) by ring,
      show source + (a / (4 * width) * (4 * width) + a % (4 * width) / 4 * 4) + a % 4 =
        source + (a / (4 * width) * (4 * width) + 4 * (a % (4 * width) / 4) + a % 4) by ring,
      ea] at h
    exact h
  · intro a ha
    apply hg.2
    intro i j ⟨hi, hj⟩
    obtain ⟨_, hb⟩ := rgba2rgbaResample_pixel_eq width height false i j hi hj (by omega)
    simp only
    omega

/-- C22 (amended), witness: a 3840 x 2160 image (about `2^23` pixels, more
than `2^24` bytes), source at 4096, destination at `2^26`. -/
theorem C22_unit_ratio_identity_witness :
    (4096 : Nat) ≠ 0 ∧ (67108864 : Nat) ≠ 0 ∧ 0 < 3840 ∧
    3840 * 2160 ≤ 16777216 ∧ 16777216 < 3840 * 2160 * 4 ∧
    (4096 + 3840 * 2160 * 4 ≤ 67108864 ∨ 67108864 + 3840 * 2160 * 4 ≤ 4096) ∧
    (∀ a, a < 3840 * 2160 * 4 →
      rgba2rgbaResample rampMem 4096 67108864 3840 2160 (4 * 3840) 3840 2160 false
          (67108864 + a) = rampMem (4096 + a)) :=
  ⟨by decide, by decide, by decide, by decide, by decide, by decide,
    (C22_unit_ratio_identity rampMem 4096 67108864 3840 2160 (by decide) (by decide)
      (by decide) (by decide) (by decide)).1⟩

/-- C24.  For every destination size and every combination of invert, mirror
and swapRB, on non-null buffers, with the destination smaller than `2^32`
bytes and no source pixel read lying in the destination buffer,
`rgba2rgbResample` leaves in the 3-byte destination pixel at row
`(invert ? destHeight-1-i : i)`, column `(mirror ? destWidth-1-j : j)` the
bytes `(s0, s1, s2)` of the source pixel read for grid point `(i, j)`, in this
order when swapRB is false and as `(s2, s1, s0)` when it is true; the map from
grid points to destination pixels is one-to-one and onto the
`destWidth * destHeight` pixels, and no byte outside the
`destWidth * destHeight * 3` bytes of the destination is changed. -/
theorem C24_rgba2rgbResample_destination (m : Mem) (source dest sw sh sp dw dh : Nat)
    (bInvert bMirror bSwapRB : Bool) (hs : source ≠ 0) (hd : dest ≠ 0)
    (hsz : 3 * (dw * dh) < 4294967296)
    (hread : ∀ i j, i < dh → j < dw →
      0 ≤ (source : Int) + nearestMatch sw sh sp dw dh i j ∧
      (sampleAddr source sw sh sp dw dh i j + 4 ≤ dest ∨
        dest + 3 * (dw * dh) ≤ sampleAddr source sw sh sp dw dh i j)) :
    (∀ i j, i < dh → j < dw →
      rgba2rgbResample m source dest sw sh sp dw dh bInvert bMirror bSwapRB
          (dest + 3 * (rowOf dh bInvert i * dw + colOf dw bMirror j)) =
        m (sampleAddr source sw sh sp dw dh i j + (if bSwapRB then 2 else 0)) ∧
      rgba2rgbResample m source dest sw sh sp dw dh bInvert bMirror bSwapRB
          (dest + 3 * (rowOf dh bInvert i * dw + colOf dw bMirror j) + 1) =
        m (sampleAddr source sw sh sp dw dh i j + 1) ∧
      rgba2rgbResample m source dest sw sh sp dw dh bInvert bMirror bSwapRB
          (dest + 3 * (rowOf dh bInvert i * dw + colOf dw bMirror j) + 2) =
        m (sampleAddr source sw sh sp dw dh i j + (if bSwapRB then 0 else 2))) ∧
    (∀ i j i' j', i < dh → j < dw → i' < dh → j' < dw →
      rowOf dh bInvert i * dw + colOf dw bMirror j =
        rowOf dh bInvert i' * dw + colOf dw bMirror j' → i = i' ∧ j = j') ∧
    (∀ p, p < dw * dh → ∃ i j, i < dh ∧ j < dw ∧
      p = rowOf dh bInvert i * dw + colOf dw bMirror j) ∧
    (∀ a, a < dest ∨ dest + 3 * (dw * dh) ≤ a →
      rgba2rgbResample m source dest sw sh sp dw dh bInvert bMirror bSwapRB a = m a) := by
  have hg := rgba2rgbResample_grid m source dest sw sh sp dw dh bInvert bMirror bSwapRB hs hd
    hsz hread
  refine ⟨?_, ?_, ?_, ?_⟩
  · intro i j hi hj
    have h3 := GridInv_swapRB3 bSwapRB _ _ m _ _ hg i j ⟨hi, hj⟩
    have e : dest + 3 * (rowOf dh bInvert i * dw + colOf dw bMirror j) =
        dest + rowOf dh bInvert i * (3 * dw) + 3 * colOf dw bMirror j := by ring
    rw [e]
    exact h3
  · intro i j i' j' hi hj hi' hj' h
    obtain ⟨h1, h2⟩ := grid_cell_inj dw _ _ _ _ (colOf_lt dw bMirror j hj)
      (colOf_lt dw bMirror j' hj') h
    exact ⟨rowOf_inj dh bInvert i i' hi hi' h1, colOf_inj dw bMirror j j' hj hj' h2⟩
  · intro p hp
    have hw : 0 < dw := Nat.pos_of_mul_pos_right (by omega : 0 < dw * dh)
    have hr : p / dw < dh := by
      rw [Nat.div_lt_iff_lt_mul hw, Nat.mul_comm]
      exact hp
    have hc : p % dw < dw := Nat.mod_lt _ hw
    refine ⟨rowOf dh bInvert (p / dw), colOf dw bMirror (p % dw), rowOf_lt dh bInvert _ hr,
      colOf_lt dw bMirror _ hc, ?_⟩
    rw [rowOf_rowOf dh bInvert _ hr, colOf_colOf dw bMirror _ hc, Nat.mul_comm]
    exact (Nat.div_add_mod p dw).symm
  · intro a ha
    apply hg.2
    intro i j ⟨hi, hj⟩
    obtain ⟨_, hb⟩ := rgba2rgbResample_pixel_eq dw dh bInvert bMirror i j hi hj hsz
    simp only
    omega

/-- C24, witness: a 3 x 2 image resampled to 2 x 2 with invert, mirror and
swapRB set, the source at `2^32` and the destination at `2^33`. -/
theorem C24_rgba2rgbResample_destination_witness :
    (4294967296 : Nat) ≠ 0 ∧ (8589934592 : Nat) ≠ 0 ∧ 3 * (2 * 2) < 4294967296 ∧
    (∀ i j, i < 2 → j < 2 →
      rgba2rgbResample rampMem 4294967296 8589934592 3 2 12 2 2 true true true
          (8589934592 + 3 * (rowOf 2 true i * 2 + colOf 2 true j)) =
        rampMem (sampleAddr 4294967296 3 2 12 2 2 i j + (if true then 2 else 0))) :=
  ⟨by decide, by decide, by decide, fun i j hi hj =>
    ((C24_rgba2rgbResample_destination rampMem 4294967296 8589934592 3 2 12 2 2 true true true
      (by decide) (by decide) (by decide)
      (reads_of_far 4294967296 8589934592 (3 * (2 * 2)) 3 2 12 2 2 (by decide)
        (by decide))).1 i j hi hj).1⟩

/-- C25 (code defect).  The single-pitch `rgba2rgba` with `bInvert` false on
a 1 x 2 image with `sourcePitch` 4, source at 1000 and destination at 2000:
the source offset of every row is `sourcePitch / 4` words (`YxSP4` is computed
without the factor `y`), so destination row 0 receives source row 1 (address
1004) and not source row 0 (address 1000).  This holds whatever the default
arguments of `CopyPixels` are. -/
theorem C25_rgba2rgba_row0_reads_row1 :
    ∀ (c : spoutCopy) (glFormat : Nat) (bFlip : Bool),
      rgba2rgba_sourcePitch c glFormat bFlip rampMem 1000 2000 1 2 4 false 2000 =
        rampMem 1004 ∧
      rampMem 1004 ≠ rampMem 1000 := by
  intro c glFormat bFlip
  refine ⟨?_, by decide⟩
  have hb := bytesPerPixel_pos glFormat
  unfold rgba2rgba_sourcePitch
  rw [if_neg (by decide), forLoop_succ, forLoop_succ, forLoop_zero]
  simp only [CopyPixels_one_pixel, Bool.false_eq_true, if_false]
  rw [memcpy_apply_out _ _ _ _ _ (by left; decide), memcpy_apply_in _ _ _ _ _ (by decide)
    (by norm_num [u32]; omega)]
  rfl

/-- C26 (code defect).  `FlipBuffer` with `dst` and `src` the same buffer, a
1 x 2 RGBA image at address 1000: the first pass copies row 0 over row 1, the
second copies it back, so afterwards row 0 still holds its own original
contents and not those of row 1. -/
theorem C26_FlipBuffer_same_buffer_keeps_row0 :
    ∀ c : spoutCopy,
      FlipBuffer c rampMem 1000 1000 1 2 GL_RGBA 1000 = rampMem 1000 ∧
      FlipBuffer c rampMem 1000 1000 1 2 GL_RGBA 1004 = rampMem 1000 ∧
      rampMem 1000 ≠ rampMem 1004 := by
  intro c
  obtain ⟨a, b, d⟩ := c
  cases a <;> cases b <;> cases d <;> decide

/-- C27.  For every 32-bit pixel word `p`, the scalar formula
`(_rotl(p, 16) & 0x00ff00ff) | (p & 0xff00ff00)` returns the 32-bit word whose
byte 0 is byte 2 of `p`, whose byte 2 is byte 0 of `p`, and whose bytes 1 and 3
are bytes 1 and 3 of `p`. -/
theorem C27_swapRB32_bytes (p : Nat) (hp : p < 4294967296) :
    byteOf (swapRB32 p) 0 = byteOf p 2 ∧ byteOf (swapRB32 p) 2 = byteOf p 0 ∧
    byteOf (swapRB32 p) 1 = byteOf p 1 ∧ byteOf (swapRB32 p) 3 = byteOf p 3 ∧
    swapRB32 p = (byteOf p 2).val + 256 * (byteOf p 1).val + 65536 * (byteOf p 0).val +
      16777216 * (byteOf p 3).val := by
  refine ⟨byteOf_swapRB32_0 p, byteOf_swapRB32_2 p hp, byteOf_swapRB32_1 p,
    byteOf_swapRB32_3 p, ?_⟩
  have h := word_eq_bytes (swapRB32 p) (swapRB32_lt p hp)
  rw [byteOf_swapRB32_0 p, byteOf_swapRB32_2 p hp, byteOf_swapRB32_1 p,
    byteOf_swapRB32_3 p] at h
  exact h

/-- C27, witness: the pixel word `0x40302010` (bytes 0x10, 0x20, 0x30, 0x40). -/
theorem C27_swapRB32_bytes_witness :
    0x40302010 < 4294967296 ∧
    (byteOf (swapRB32 0x40302010) 0 = byteOf 0x40302010 2 ∧
     byteOf (swapRB32 0x40302010) 2 = byteOf 0x40302010 0 ∧
     byteOf (swapRB32 0x40302010) 1 = byteOf 0x40302010 1 ∧
     byteOf (swapRB32 0x40302010) 3 = byteOf 0x40302010 3 ∧
     swapRB32 0x40302010 = (byteOf 0x40302010 2).val + 256 * (byteOf 0x40302010 1).val +
       65536 * (byteOf 0x40302010 0).val + 16777216 * (byteOf 0x40302010 3).val) :=
  ⟨by decide, C27_swapRB32_bytes 0x40302010 (by decide)⟩

/-- C28 (as stated, false).  With the SSE2 flag set and a width that is not a
multiple of 16 (here 8), the rule of the claim names the SSE2 kernel, but
`rgba2bgra` calls the scalar kernel `rgba_bgra`. -/
theorem C28_width8_sse2_calls_scalar :
    dispatchRule ⟨true, false, false⟩ 8 = Kernel.sse2 ∧
    rgba2bgra_kernel ⟨true, false, false⟩ 8 = some Kernel.scalar ∧
    rgba2bgra_kernel ⟨true, false, false⟩ 8 ≠ some (dispatchRule ⟨true, false, false⟩ 8) ∧
    ∀ (m : Mem) (source dest height : Nat) (bInvert : Bool),
      rgba2bgra_select ⟨true, false, false⟩ m source dest 8 height bInvert =
        Kernel.run Kernel.scalar m source dest 8 height bInvert := by
  refine ⟨by decide, by decide, by decide, ?_⟩
  intro m source dest height bInvert
  rfl

/-- C28 (amended).  The SSE kernels are used for widths that are multiples of
16 only.  When `width % 16 == 0` and the SSE2 flag is set, the kernel called
is the one the rule names: `rgba_bgra_sse3` if the SSSE3 flag is set too,
`rgba_bgra_sse2` if not.  When `width % 16 != 0` the kernel called is the
scalar kernel `rgba_bgra`, whatever the flags.  In both cases exactly that one
kernel runs: on the whole image for the whole-image call (non-null buffers),
and on each row for the two per-line overloads. -/
theorem C28_kernel_selection (c : spoutCopy) (m : Mem) (source dest width height : Nat)
    (bInvert : Bool) (hs : source ≠ 0) (hd : dest ≠ 0)
    (h : width % 16 ≠ 0 ∨ c.m_bSSE2 = true) :
    rgba2bgra_kernel c width =
      some (if width % 16 = 0 then dispatchRule c width else Kernel.scalar) ∧
    rgba2bgra c m source dest width height bInvert =
      Kernel.run (if width % 16 = 0 then dispatchRule c width else Kernel.scalar)
        m source dest width height bInvert ∧
    (∀ sourcePitch,
      rgba2bgra_sourcePitch c m source dest width height sourcePitch bInvert =
        forLoop height (fun y acc =>
          Kernel.run (if width % 16 = 0 then dispatchRule c width else Kernel.scalar) acc
            (source + 4 * (if bInvert then
                u32 (usub32 (usub32 height 1) y * sourcePitch) / 4
              else u32 (y * sourcePitch) / 4))
            (dest + 4 * u32 (y * width)) width 1 bInvert) m) ∧
    (∀ sourcePitch destPitch,
      rgba2bgra_sourcePitch_destPitch c m source dest width height sourcePitch destPitch
          bInvert =
        forLoop height (fun y acc =>
          Kernel.run (if width % 16 = 0 then dispatchRule c width else Kernel.scalar) acc
            (source + 4 * (if bInvert then
                u32 (usub32 (usub32 height 1) y * sourcePitch) / 4
              else u32 (y * sourcePitch) / 4))
            (dest + 4 * (u32 (y * destPitch) / 4)) width 1 bInvert) m) := by
  have hk : rgba2bgra_kernel c width =
      some (if width % 16 = 0 then dispatchRule c width else Kernel.scalar) := by
    unfold rgba2bgra_kernel dispatchRule
    rcases h with h | h
    · simp [h]
    · by_cases h16 : width % 16 = 0 <;> by_cases h3 : c.m_bSSSE3 = true <;> simp [h, h16, h3]
  have hsel : ∀ (M : Mem) (s d hh : Nat), rgba2bgra_select c M s d width hh bInvert =
      Kernel.run (if width % 16 = 0 then dispatchRule c width else Kernel.scalar)
        M s d width hh bInvert := by
    intro M s d hh
    rw [rgba2bgra_select_eq, hk]
  refine ⟨hk, ?_, ?_, ?_⟩
  · unfold rgba2bgra
    rw [if_neg (by tauto), hsel]
  · intro sourcePitch
    unfold rgba2bgra_sourcePitch
    rw [if_neg (by tauto)]
    apply forLoop_congr
    intro y _ acc
    exact hsel _ _ _ _
  · intro sourcePitch destPitch
    unfold rgba2bgra_sourcePitch_destPitch
    rw [if_neg (by tauto)]
    apply forLoop_congr
    intro y _ acc
    exact hsel _ _ _ _

/-- C28 (amended), witness: width 32 with SSE2 and SSSE3 set, source at 1000,
destination at 5000. -/
theorem C28_kernel_selection_witness :
    (1000 : Nat) ≠ 0 ∧ (5000 : Nat) ≠ 0 ∧
    (32 % 16 ≠ 0 ∨ (⟨true, true, true⟩ : spoutCopy).m_bSSE2 = true) ∧
    rgba2bgra_kernel ⟨true, true, true⟩ 32 =
      some (if 32 % 16 = 0 then dispatchRule ⟨true, true, true⟩ 32 else Kernel.scalar) ∧
    rgba2bgra ⟨true, true, true⟩ rampMem 1000 5000 32 1 false =
      Kernel.run (if 32 % 16 = 0 then dispatchRule ⟨true, true, true⟩ 32 else Kernel.scalar)
        rampMem 1000 5000 32 1 false :=
  ⟨by decide, by decide, Or.inr rfl,
    (C28_kernel_selection ⟨true, true, true⟩ rampMem 1000 5000 32 1 false (by decide)
      (by decide) (Or.inr rfl)).1,
    (C28_kernel_selection ⟨true, true, true⟩ rampMem 1000 5000 32 1 false (by decide)
      (by decide) (Or.inr rfl)).2.1⟩

/-- C29.  For every width, height, layout and SSE2 flag, `CopyPixels` with
`bInvert` false, `Size` being `width * height * bytesPerPixel(layout)` as an
`unsigned int`, is the plain byte copy `memcpy` of `Size` bytes when
`width < 320`; otherwise the streaming copy `memcpy_sse2` when `Size % 16 == 0`
and the SSE2 flag is set; otherwise the word copy `__movsd` of `Size / 4` words
when `Size % 4 == 0`; otherwise the plain byte copy. -/
theorem C29_CopyPixels_path_priority (c : spoutCopy) (m : Mem)
    (source dest width height glFormat : Nat) :
    CopyPixels c m source dest width height glFormat false =
      (let Size := u32 (width * height * bytesPerPixel glFormat)
       if width < 320 then memcpy m dest source Size
       else if Size % 16 = 0 ∧ c.m_bSSE2 = true then memcpy_sse2 m dest source Size
       else if Size % 4 = 0 then __movsd m dest source (Size / 4)
       else memcpy m dest source Size) := by
  simp only [CopyPixels, CopyPixels_Size_eq, Bool.false_eq_true, if_false]

/-- C30.  The flags that the constructor leaves, as a function of the CPUID
results (EAX of leaf 0 being a 32-bit register): when the value that leaf 0
reports in EAX is at least 1 and below `2^31`, SSE2 is bit 26 of EDX of leaf 1,
SSE3 is bit 0 of ECX of leaf 1 and SSSE3 is bit 9 of ECX of leaf 1; when EAX of
leaf 0 is 0, or is `2^31` or more (negative as the `int` the code stores it
in), the three flags are false. -/
theorem C30_CheckSSE_flags (__cpuid : Nat → CPUInfo)
    (heax : (__cpuid 0).eax < 4294967296) :
    spoutCopy_spoutCopy __cpuid =
      if 1 ≤ (__cpuid 0).eax ∧ (__cpuid 0).eax < 2147483648 then
        { m_bSSE2 := (__cpuid 1).edx.testBit 26
          m_bSSE3 := (__cpuid 1).ecx.testBit 0
          m_bSSSE3 := (__cpuid 1).ecx.testBit 9 }
      else { m_bSSE2 := false, m_bSSE3 := false, m_bSSSE3 := false } := by
  have key : spoutCopy_spoutCopy __cpuid =
      if 1 ≤ toInt32 (__cpuid 0).eax then
        { m_bSSE2 := (__cpuid 1).edx.testBit 26
          m_bSSE3 := (__cpuid 1).ecx.testBit 0
          m_bSSSE3 := (__cpuid 1).ecx.testBit 9 }
      else { m_bSSE2 := false, m_bSSE3 := false, m_bSSSE3 := false } := by
    unfold spoutCopy_spoutCopy CheckSSE
    have e26 : (1 : Nat) <<< 26 = 2 ^ 26 := by decide
    have e9 : (1 : Nat) <<< 9 = 2 ^ 9 := by decide
    have e0 : ∀ x : Nat, x &&& 1 = x &&& 2 ^ 0 := fun x => by norm_num
    simp only [e26, e9]
    rw [e0, and_two_pow_ne_zero, and_two_pow_ne_zero, and_two_pow_ne_zero]
  have hc : 1 ≤ toInt32 (__cpuid 0).eax ↔
      (1 ≤ (__cpuid 0).eax ∧ (__cpuid 0).eax < 2147483648) := by
    unfold toInt32
    split_ifs <;> omega
  rw [key]
  by_cases h : 1 ≤ (__cpuid 0).eax ∧ (__cpuid 0).eax < 2147483648
  · rw [if_pos h, if_pos (hc.2 h)]
  · rw [if_neg h, if_neg (fun h1 => h (hc.1 h1))]

/-- C30, witness: leaf 0 reports maximum leaf 13; leaf 1 has bits 0 and 3 of
ECX and bits 25 and 26 of EDX set: SSE2 and SSE3 are found, SSSE3 is not. -/
theorem C30_CheckSSE_flags_witness :
    (cpuid_leaf13 0).eax < 4294967296 ∧
    spoutCopy_spoutCopy cpuid_leaf13 =
      { m_bSSE2 := true, m_bSSE3 := true, m_bSSSE3 := false } :=
  ⟨by decide, (C30_CheckSSE_flags cpuid_leaf13 (by decide)).trans rfl⟩

/-- C31 (as stated, false).  With `Size = 2^32`, the source at 4096 and the
destination at `2^33` (non-null, 16-byte aligned, not overlapping), the block
count `(unsigned int)Size >> 7` is 0 and `memcpy_sse2` copies nothing, although
`128 * floor(Size / 128) = 2^32`: byte 0 of the destination keeps its value,
which differs from byte 0 of the source. -/
theorem C31_size_of_2_pow_32_copies_nothing :
    (8589934592 : Nat) ≠ 0 ∧ (4096 : Nat) ≠ 0 ∧ 8589934592 % 16 = 0 ∧ 4096 % 16 = 0 ∧
    4096 + 4294967296 ≤ 8589934592 ∧
    0 < 128 * (4294967296 / 128) ∧
    memcpy_sse2 rampMem 8589934592 4096 4294967296 (8589934592 + 0) =
      rampMem (8589934592 + 0) ∧
    rampMem (8589934592 + 0) ≠ rampMem (4096 + 0) := by
  decide

/-- C31 (amended).  For every `Size` and non-null, 16-byte aligned `src` and
`dst` (the loop uses the aligned load and the streaming store) that do not
overlap, with `n = (unsigned int)Size >> 7` the number of 128-byte blocks:
every 16-byte load and store of the loop is at a 16-byte aligned address;
`memcpy_sse2` copies exactly the first `128 * n` bytes of `src` to `dst` and
leaves every other byte unchanged, the bytes of `dst` in `[128 * n, Size)`
included; it equals a plain copy of `Size` bytes if and only if the bytes of
`dst` in `[128 * n, Size)` held the same bytes as the source already; and for
`Size` below `2^32`, where `128 * n = 128 * floor(Size / 128)`, if and only if
`Size` is a multiple of 128 or the tail that is not copied held the same bytes
as the source already. -/
theorem C31_memcpy_sse2_copies_whole_blocks (m : Mem) (dst src Size : Nat)
    (hd : dst ≠ 0) (hs : src ≠ 0) (hd16 : dst % 16 = 0) (hs16 : src % 16 = 0)
    (hsep : src + Size ≤ dst ∨ dst + Size ≤ src) :
    (∀ b r, (src + 128 * b + 16 * r) % 16 = 0 ∧ (dst + 128 * b + 16 * r) % 16 = 0) ∧
    (∀ k, k < 128 * (u32 Size / 128) → memcpy_sse2 m dst src Size (dst + k) = m (src + k)) ∧
    (∀ a, a < dst ∨ dst + 128 * (u32 Size / 128) ≤ a → memcpy_sse2 m dst src Size a = m a) ∧
    (memcpy_sse2 m dst src Size = memcpy m dst src Size ↔
      ∀ k, 128 * (u32 Size / 128) ≤ k → k < Size → m (dst + k) = m (src + k)) ∧
    (Size < 4294967296 →
      (memcpy_sse2 m dst src Size = memcpy m dst src Size ↔
        (Size % 128 = 0 ∨
          ∀ k, 128 * (Size / 128) ≤ k → k < Size → m (dst + k) = m (src + k)))) := by
  have hule : u32 Size ≤ Size := by unfold u32; omega
  have hle : 128 * (u32 Size / 128) ≤ Size := by
    have := Nat.mul_div_le (u32 Size) 128
    omega
  have e : memcpy_sse2 m dst src Size = memcpy m dst src (128 * (u32 Size / 128)) :=
    memcpy_sse2_eq_memcpy m dst src Size hd hs (by omega)
  have hiff : memcpy_sse2 m dst src Size = memcpy m dst src Size ↔
      ∀ k, 128 * (u32 Size / 128) ≤ k → k < Size → m (dst + k) = m (src + k) := by
    rw [e]
    constructor
    · intro heq k hk1 hk2
      have h1 := congrFun heq (dst + k)
      rw [memcpy_apply_out _ _ _ _ _ (by omega),
        memcpy_apply_in _ _ _ _ _ (by omega) (by omega)] at h1
      rw [h1]
      congr 1
      omega
    · intro htail
      funext a
      by_cases ha : dst ≤ a ∧ a < dst + 128 * (u32 Size / 128)
      · rw [memcpy_apply_in _ _ _ _ _ ha.1 ha.2, memcpy_apply_in _ _ _ _ _ (by omega) (by omega)]
      · by_cases hb : dst ≤ a ∧ a < dst + Size
        · rw [memcpy_apply_out _ _ _ _ _ (by omega),
            memcpy_apply_in _ _ _ _ _ hb.1 hb.2]
          have := htail (a - dst) (by omega) (by omega)
          rw [show dst + (a - dst) = a by omega] at this
          exact this
        · rw [memcpy_apply_out _ _ _ _ _ (by omega), memcpy_apply_out _ _ _ _ _ (by omega)]
  refine ⟨?_, ?_, ?_, hiff, ?_⟩
  · intro b r
    omega
  · intro k hk
    rw [e, memcpy_apply_in _ _ _ _ _ (by omega) (by omega)]
    congr 1
    omega
  · intro a ha
    rw [e, memcpy_apply_out _ _ _ _ _ ha]
  · intro hSize
    have hu : u32 Size = Size := by unfold u32; omega
    rw [hiff, hu]
    constructor
    · intro h
      exact Or.inr h
    · intro h
      rcases h with h | h
      · intro k hk1 hk2
        have := Nat.div_add_mod Size 128
        omega
      · exact h

/-- C31 (amended), witness: 320 bytes from address 1024 to address 4096: 256
bytes are copied. -/
theorem C31_memcpy_sse2_copies_whole_blocks_witness :
    (4096 : Nat) ≠ 0 ∧ (1024 : Nat) ≠ 0 ∧ 4096 % 16 = 0 ∧ 1024 % 16 = 0 ∧
    (1024 + 320 ≤ 4096 ∨ 4096 + 320 ≤ 1024) ∧
    (∀ k, k < 128 * (u32 320 / 128) → memcpy_sse2 rampMem 4096 1024 320 (4096 + k) =
      rampMem (1024 + k)) ∧
    (∀ a, a < 4096 ∨ 4096 + 128 * (u32 320 / 128) ≤ a →
      memcpy_sse2 rampMem 4096 1024 320 a = rampMem a) :=
  have h := C31_memcpy_sse2_copies_whole_blocks rampMem 4096 1024 320 (by decide) (by decide)
    (by decide) (by decide) (by decide)
  ⟨by decide, by decide, by decide, by decide, by decide, h.2.1, h.2.2.1⟩

/-- C32.  The scalar red/blue swap is an involution.  For every width, height
(with `width * height` below `2^32`) and invert flag, running `rgba_bgra` from
an image at `src` into a distinct buffer `mid` and again, with the same flag,
from `mid` into a buffer `dst` distinct from `mid` leaves in `dst` the
`4 * width * height` bytes the image at `src` had: the two swaps cancel and,
when inverting, so do the two row reversals.  With invert false the kernel can
also run in place, and run twice in place it leaves the whole memory as it
was. -/
theorem C32_rgba_bgra_twice (m : Mem) (src mid dst width height : Nat) (bInvert : Bool)
    (hs : src ≠ 0) (hm : mid ≠ 0) (hd : dst ≠ 0) (hsz : width * height < 4294967296)
    (h1 : src + 4 * (width * height) ≤ mid ∨ mid + 4 * (width * height) ≤ src)
    (h2 : mid + 4 * (width * height) ≤ dst ∨ dst + 4 * (width * height) ≤ mid) :
    (∀ k, k < 4 * (width * height) →
      rgba_bgra (rgba_bgra m src mid width height bInvert) mid dst width height bInvert
          (dst + k) = m (src + k)) ∧
    rgba_bgra (rgba_bgra m src src width height false) src src width height false = m := by
  constructor
  · intro k hk
    have g1 := rgba_bgra_grid m src mid width height bInvert hs hm hsz h1
    have g2 := rgba_bgra_grid (rgba_bgra m src mid width height bInvert) mid dst width height
      bInvert hm hd hsz h2
    have hw : 0 < width := by
      rcases Nat.eq_zero_or_pos width with h0 | h0
      · subst h0; simp at hk
      · exact h0
    have h4w : 0 < 4 * width := by omega
    have hy : k / (4 * width) < height := by
      rw [Nat.div_lt_iff_lt_mul h4w]
      calc k < 4 * (width * height) := hk
        _ = height * (4 * width) := by ring
    have hx : k % (4 * width) / 4 < width := by
      have := Nat.mod_lt k h4w
      omega
    have hj : k % 4 < 4 := Nat.mod_lt _ (by norm_num)
    have hr := rowOf_lt height bInvert _ hy
    have hz := swz_lt (k % 4) 1 (by omega)
    have e2 := GridInv_swz _ _ _ _ _ g2 (k / (4 * width)) (k % (4 * width) / 4) ⟨hy, hx⟩
      (k % 4) hj
    have e1 := GridInv_swz _ _ _ _ _ g1 (rowOf height bInvert (k / (4 * width)))
      (k % (4 * width) / 4) ⟨hr, hx⟩ (swz (k % 4)) (by omega)
    rw [rowOf_rowOf height bInvert _ hy, swz_swz] at e1
    have hdm := Nat.div_add_mod k (4 * width)
    have hmm : k % (4 * width) % 4 = k % 4 := Nat.mod_mod_of_dvd k (Dvd.intro _ rfl)
    have hdm2 := Nat.div_add_mod (k % (4 * width)) 4
    have ek : 4 * (k / (4 * width) * width) + 4 * (k % (4 * width) / 4) + k % 4 = k := by
      rw [show 4 * (k / (4 * width) * width) = 4 * width * (k / (4 * width)) by ring]
      omega
    simp only at e1 e2
    rw [show dst + 4 * (k / (4 * width) * width) + 4 * (k % (4 * width) / 4) + k % 4 =
      dst + (4 * (k / (4 * width) * width) + 4 * (k % (4 * width) / 4) + k % 4) by ring,
      ek] at e2
    rw [show src + 4 * (k / (4 * width) * width) + 4 * (k % (4 * width) / 4) + k % 4 =
      src + (4 * (k / (4 * width) * width) + 4 * (k % (4 * width) / 4) + k % 4) by ring,
      ek] at e1
    rw [e2, e1]
  · rw [rgba_bgra_in_place m src width height hs hsz,
      rgba_bgra_in_place _ src width height hs hsz, swapCopy_twice]

/-- C32, witness: a 3 x 2 image at 1000, through 2000 into 3000, inverted
both times. -/
theorem C32_rgba_bgra_twice_witness :
    (1000 : Nat) ≠ 0 ∧ (2000 : Nat) ≠ 0 ∧ (3000 : Nat) ≠ 0 ∧ 3 * 2 < 4294967296 ∧
    (1000 + 4 * (3 * 2) ≤ 2000 ∨ 2000 + 4 * (3 * 2) ≤ 1000) ∧
    (2000 + 4 * (3 * 2) ≤ 3000 ∨ 3000 + 4 * (3 * 2) ≤ 2000) ∧
    (∀ k, k < 4 * (3 * 2) →
      rgba_bgra (rgba_bgra rampMem 1000 2000 3 2 true) 2000 3000 3 2 true (3000 + k) =
        rampMem (1000 + k)) ∧
    rgba_bgra (rgba_bgra rampMem 1000 1000 3 2 false) 1000 1000 3 2 false = rampMem :=
  have h := C32_rgba_bgra_twice rampMem 1000 2000 3000 3 2 true (by decide) (by decide)
    (by decide) (by decide) (by decide) (by decide)
  ⟨by decide, by decide, by decide, by decide, by decide, by decide, h.1, h.2⟩

/-- C33.  For the dest-pitch overloads of `rgb2rgba`, `bgr2rgba` and
`rgb2bgra` with `dest_pitch >= 4 * width` (non-null buffers that do not
overlap, `dest_pitch` an `unsigned int`): destination row `y` starts at byte
offset `y * dest_pitch`, its pixel `x` being the four bytes at
`y * dest_pitch + 4 * x`, which receive the converted source pixel (for `bgr2rgba` in source order,
the overload making no red/blue swap); these
pixel bytes are exactly `height * width * 4` bytes; every other byte keeps
the value it had before the call, in particular every byte of a row's padding
(row offsets in `[4 * width, dest_pitch)`). -/
theorem C33_dest_pitch_padding_kept (m : Mem) (src dst width height dest_pitch : Nat)
    (bInvert : Bool) (hsrc : src ≠ 0) (hdst : dst ≠ 0)
    (hp : 4 * width ≤ dest_pitch) (hp32 : dest_pitch < 4294967296)
    (hsz : width * height * 3 < 18446744073709551616)
    (hsep : src + 3 * (width * height) ≤ dst ∨ dst + height * dest_pitch ≤ src) :
    (pixelBytes dst width height dest_pitch).card = height * width * 4 ∧
    (∀ y o, y < height → 4 * width ≤ o → o < dest_pitch →
      rgb2rgba_dest_pitch m src dst width height dest_pitch bInvert
          (dst + y * dest_pitch + o) = m (dst + y * dest_pitch + o) ∧
      bgr2rgba_dest_pitch m src dst width height dest_pitch bInvert
          (dst + y * dest_pitch + o) = m (dst + y * dest_pitch + o) ∧
      rgb2bgra_dest_pitch m src dst width height dest_pitch bInvert
          (dst + y * dest_pitch + o) = m (dst + y * dest_pitch + o)) ∧
    (∀ a, a ∉ pixelBytes dst width height dest_pitch →
      rgb2rgba_dest_pitch m src dst width height dest_pitch bInvert a = m a ∧
      bgr2rgba_dest_pitch m src dst width height dest_pitch bInvert a = m a ∧
      rgb2bgra_dest_pitch m src dst width height dest_pitch bInvert a = m a) ∧
    (∀ y x k, y < height → x < width → k < 4 →
      rgb2rgba_dest_pitch m src dst width height dest_pitch bInvert
          (dst + y * dest_pitch + 4 * x + k) =
        pixVal selKeep m (src + rowOf height bInvert y * (3 * width) + 3 * x) k ∧
      bgr2rgba_dest_pitch m src dst width height dest_pitch bInvert
          (dst + y * dest_pitch + 4 * x + k) =
        pixVal selKeep m (src + rowOf height bInvert y * (3 * width) + 3 * x) k ∧
      rgb2bgra_dest_pitch m src dst width height dest_pitch bInvert
          (dst + y * dest_pitch + 4 * x + k) =
        pixVal selSwap m (src + rowOf height bInvert y * (3 * width) + 3 * x) k) := by
  have f1 := pitch_grid_frame _ _ _ _ dst width height dest_pitch
    (rgb2rgba_dest_pitch_grid m src dst width height dest_pitch bInvert hsrc hdst hp hp32 hsz
      hsep)
  have f2 := pitch_grid_frame _ _ _ _ dst width height dest_pitch
    (bgr2rgba_dest_pitch_grid m src dst width height dest_pitch bInvert hsrc hdst hp hp32 hsz
      hsep)
  have f3 := pitch_grid_frame _ _ _ _ dst width height dest_pitch
    (rgb2bgra_dest_pitch_grid m src dst width height dest_pitch bInvert hsrc hdst hp hp32 hsz
      hsep)
  refine ⟨pixelBytes_card dst width height dest_pitch hp, ?_, ?_, ?_⟩
  · intro y o _ ho1 ho2
    have hn := padding_not_pixel dst width height dest_pitch y o hp ho1 ho2
    exact ⟨f1.1 _ hn, f2.1 _ hn, f3.1 _ hn⟩
  · intro a ha
    exact ⟨f1.1 a ha, f2.1 a ha, f3.1 a ha⟩
  · intro y x k hy hx hk
    exact ⟨f1.2 y x k hy hx hk, f2.2 y x k hy hx hk, f3.2 y x k hy hx hk⟩

/-- C33, witness: a 2 x 2 image with `dest_pitch` 12 (4 bytes of padding per
row), source at 1000 and destination at 2000. -/
theorem C33_dest_pitch_padding_kept_witness :
    (1000 : Nat) ≠ 0 ∧ (2000 : Nat) ≠ 0 ∧ 4 * 2 ≤ 12 ∧ 12 < 4294967296 ∧
    2 * 2 * 3 < 18446744073709551616 ∧
    (1000 + 3 * (2 * 2) ≤ 2000 ∨ 2000 + 2 * 12 ≤ 1000) ∧
    (pixelBytes 2000 2 2 12).card = 2 * 2 * 4 ∧
    (∀ y o, y < 2 → 4 * 2 ≤ o → o < 12 →
      rgb2rgba_dest_pitch rampMem 1000 2000 2 2 12 true (2000 + y * 12 + o) =
        rampMem (2000 + y * 12 + o) ∧
      bgr2rgba_dest_pitch rampMem 1000 2000 2 2 12 true (2000 + y * 12 + o) =
        rampMem (2000 + y * 12 + o) ∧
      rgb2bgra_dest_pitch rampMem 1000 2000 2 2 12 true (2000 + y * 12 + o) =
        rampMem (2000 + y * 12 + o)) :=
  have h := C33_dest_pitch_padding_kept rampMem 1000 2000 2 2 12 true (by decide) (by decide)
    (by decide) (by decide) (by decide) (by decide)
  ⟨by decide, by decide, by decide, by decide, by decide, by decide, h.1, h.2.1⟩

/-- C34.  For `width == 0` or `height == 0`, with every invert flag (and
every other flag, format and pitch), `FlipBuffer`, the scalar kernel
`rgba_bgra` and each of the twelve 3-channel/4-channel converters leave the
whole memory as it was, whatever the pointers are: no byte is written, although
with `height == 0` the first row offset `(height - 1) * pitch` wraps around
and the 3-channel pointer starts one row before its buffer.  No pixel is read
either: the two nested loops of the kernel and of the converters never run
their body (the result is the same for every body), and `FlipBuffer` with
`width == 0` copies rows of zero bytes. -/
theorem C34_empty_image_untouched (c : spoutCopy) (m : Mem) (source dest width height : Nat)
    (h : width = 0 ∨ height = 0) :
    (∀ glFormat, FlipBuffer c m source dest width height glFormat = m) ∧
    (∀ bInvert, rgba_bgra m source dest width height bInvert = m) ∧
    (∀ rgba_pitch bInvert bMirror bSwapRB,
      rgba2rgb m source dest width height rgba_pitch bInvert bMirror bSwapRB = m) ∧
    (∀ bInvert, rgb2rgba m source dest width height bInvert = m) ∧
    (∀ dest_pitch bInvert,
      rgb2rgba_dest_pitch m source dest width height dest_pitch bInvert = m) ∧
    (∀ bInvert, bgr2rgba m source dest width height bInvert = m) ∧
    (∀ dest_pitch bInvert,
      bgr2rgba_dest_pitch m source dest width height dest_pitch bInvert = m) ∧
    (∀ bInvert, rgb2bgra m source dest width height bInvert = m) ∧
    (∀ dest_pitch bInvert,
      rgb2bgra_dest_pitch m source dest width height dest_pitch bInvert = m) ∧
    (∀ bInvert, bgr2bgra m source dest width height bInvert = m) ∧
    (∀ bInvert, rgba2bgr m source dest width height bInvert = m) ∧
    (∀ rgba_pitch bInvert,
      rgba2bgr_rgba_pitch m source dest width height rgba_pitch bInvert = m) ∧
    (∀ bInvert, bgra2rgb m source dest width height bInvert = m) ∧
    (∀ bInvert, bgra2bgr m source dest width height bInvert = m) ∧
    (∀ (body : Nat → Int → Int → Mem → Mem) (bs bd rs rd : Int) (s : Ptrs),
      (convertLoop height width body bs bd rs rd s).mem = s.mem) ∧
    (∀ f : Nat → Nat → Mem → Mem,
      forLoop height (fun y acc => forLoop width (f y) acc) m = m) := by
  have hc : ∀ (body : Nat → Int → Int → Mem → Mem) (bs bd rs rd : Int) (s : Ptrs),
      (convertLoop height width body bs bd rs rd s).mem = s.mem :=
    fun body bs bd rs rd s => convertLoop_empty height width body bs bd rs rd s h
  refine ⟨?_, ?_, ?_, ?_, ?_, ?_, ?_, ?_, ?_, ?_, ?_, ?_, ?_, ?_, hc, ?_⟩
  · intro glFormat
    exact FlipBuffer_empty c m source dest width height glFormat h
  · intro bInvert
    unfold rgba_bgra
    split_ifs
    · rfl
    · rfl
    · exact forLoop_empty height width _ m h
  · intros; unfold rgba2rgb; split_ifs <;> first | rfl | simp only [hc]
  · intros; unfold rgb2rgba; split_ifs <;> first | rfl | simp only [hc]
  · intros; unfold rgb2rgba_dest_pitch; split_ifs <;> first | rfl | simp only [hc]
  · intros; unfold bgr2rgba; split_ifs <;> first | rfl | simp only [hc]
  · intros; unfold bgr2rgba_dest_pitch; split_ifs <;> first | rfl | simp only [hc]
  · intros; unfold rgb2bgra; split_ifs <;> first | rfl | simp only [hc]
  · intros; unfold rgb2bgra_dest_pitch; split_ifs <;> first | rfl | simp only [hc]
  · intros; unfold bgr2bgra; split_ifs <;> first | rfl | simp only [hc]
  · intros; unfold rgba2bgr; split_ifs <;> first | rfl | simp only [hc]
  · intros; unfold rgba2bgr_rgba_pitch; split_ifs <;> first | rfl | simp only [hc]
  · intros; unfold bgra2rgb; split_ifs <;> first | rfl | simp only [hc]
  · intros; unfold bgra2bgr; split_ifs <;> first | rfl | simp only [hc]
  · intro f
    exact forLoop_empty height width f m h

/-- C34, witness: height 0 with width 5, source at 1000 and destination at
2000; shown for `FlipBuffer`, `rgba_bgra` and `rgba2rgb`. -/
theorem C34_empty_image_untouched_witness :
    ((5 : Nat) = 0 ∨ (0 : Nat) = 0) ∧
    (∀ glFormat, FlipBuffer ⟨true, true, true⟩ rampMem 1000 2000 5 0 glFormat = rampMem) ∧
    (∀ bInvert, rgba_bgra rampMem 1000 2000 5 0 bInvert = rampMem) ∧
    (∀ rgba_pitch bInvert bMirror bSwapRB,
      rgba2rgb rampMem 1000 2000 5 0 rgba_pitch bInvert bMirror bSwapRB = rampMem) :=
  have h := C34_empty_image_untouched ⟨true, true, true⟩ rampMem 1000 2000 5 0 (Or.inr rfl)
  ⟨Or.inr rfl, h.1, h.2.1, h.2.2.1⟩

end SpoutCopy
